import Mathlib

/-!
# Verification of the IOC scanner (pattern registry, scan orchestration, normalizers)

This development gives a shallow embedding of the detection-and-normalization
engine of the IOC scanner: the pattern registry (`IOC_PATTERNS`), the scan
orchestration (`detectIOCs`), the two normalizers (`normalizeDefangedIP`,
`normalizeDefangedURL`) and the single-value validator (`validateIOC`).

The source patterns are JavaScript regular expressions; they are transcribed
here into an explicit regex AST (`RE`) and executed by a backtracking matcher
(`matchEnds`) implementing the relevant JavaScript semantics: leftmost match,
ordered alternation (first alternative wins), greedy quantifiers, word
boundaries, negative lookahead, and the `g`/`i` flags. `String.prototype.match`
with a global regex is modelled by `matchAll`, `RegExp.prototype.test` by
`reTest`, and `String.prototype.replace` by `replaceAll` / `replaceFirst`.
-/

namespace IOC

/-- JavaScript's `\s` character class (WhiteSpace ∪ LineTerminator). -/
def isSpaceJS (c : Char) : Bool :=
  c = ' ' || c = '\t' || c = '\n' || c = '\r' ||
  c = Char.ofNat 11 || c = Char.ofNat 12 ||
  c = Char.ofNat 0xa0 || c = Char.ofNat 0x1680 ||
  (Char.ofNat 0x2000 ≤ c && c ≤ Char.ofNat 0x200a) ||
  c = Char.ofNat 0x2028 || c = Char.ofNat 0x2029 ||
  c = Char.ofNat 0x202f || c = Char.ofNat 0x205f ||
  c = Char.ofNat 0x3000 || c = Char.ofNat 0xfeff

/-- JavaScript's `\w` character class: `[A-Za-z0-9_]`. -/
def isWordJS (c : Char) : Bool :=
  ('a' ≤ c && c ≤ 'z') || ('A' ≤ c && c ≤ 'Z') || ('0' ≤ c && c ≤ '9') || c = '_'

/-- Swap the case of an ASCII letter (used for the `i` flag). -/
def swapAscii (c : Char) : Char :=
  if 'a' ≤ c && c ≤ 'z' then Char.ofNat (c.toNat - 32)
  else if 'A' ≤ c && c ≤ 'Z' then Char.ofNat (c.toNat + 32)
  else c

/-- Character classes appearing in the source regexes. -/
inductive CC where
  | single : Char → CC
  | range : Char → Char → CC
  | word : CC
  | space : CC
  | union : CC → CC → CC
  | compl : CC → CC
deriving Repr

/-- Membership in a character class. -/
def CC.mem : CC → Char → Bool
  | .single a, c => c = a
  | .range a b, c => a ≤ c && c ≤ b
  | .word, c => isWordJS c
  | .space, c => isSpaceJS c
  | .union a b, c => a.mem c || b.mem c
  | .compl a, c => !(a.mem c)

/-- Class membership under an optional `i` flag: the input character also
matches if its case-swapped form is in the class. -/
def CC.memCase (ci : Bool) (k : CC) (c : Char) : Bool :=
  k.mem c || (ci && k.mem (swapAscii c))

/-- Pattern-character versus input-character comparison under the `i` flag. -/
def charEqCase (ci : Bool) (p c : Char) : Bool :=
  p = c || (ci && p = swapAscii c)

/-- Regex AST covering the constructs used by the source patterns. -/
inductive RE where
  | fail : RE
  | eps : RE
  | cls : CC → RE
  | lit : List Char → RE
  | seq : RE → RE → RE
  | alt : RE → RE → RE
  | star : RE → RE
  | nla : RE → RE
  | wb : RE
  | caret : RE
  | dollar : RE
deriving Repr

/-- Greedy `?`: prefer taking the operand. -/
def RE.opt (a : RE) : RE := RE.alt a RE.eps

/-- Greedy `+` as `a a*`. -/
def RE.plus (a : RE) : RE := RE.seq a (RE.star a)

/-- Exact repetition `a{n}`. -/
def RE.rep (a : RE) : Nat → RE
  | 0 => RE.eps
  | n + 1 => RE.seq a (RE.rep a n)

/-- Greedy bounded repetition `a{1,n}` (prefer more). -/
def RE.rep1To (a : RE) : Nat → RE
  | 0 => RE.fail
  | 1 => a
  | n + 1 => RE.seq a (RE.opt (RE.rep1To a n))

/-- Greedy `a{n,}` as `a{n} a*`. -/
def RE.repLo (a : RE) (n : Nat) : RE := RE.seq (RE.rep a n) (RE.star a)

/-- Sequence a list of regexes. -/
def cat (l : List RE) : RE := l.foldr RE.seq RE.eps

/-- Ordered alternation of a list of regexes (first alternative preferred). -/
def altL (l : List RE) : RE := l.foldr RE.alt RE.fail

/-- Literal from a string. -/
def litS (x : String) : RE := RE.lit x.data

/-- Does the literal `l` occur in `s` at position `i` (modulo the `i` flag)? -/
def litAt (ci : Bool) (s : List Char) : List Char → Nat → Bool
  | [], _ => true
  | p :: ps, i =>
    match s.get? i with
    | some c => charEqCase ci p c && litAt ci s ps (i + 1)
    | none => false

/-- Is the character at position `i` of `s` a word character (false off the ends)? -/
def wordAt (s : List Char) (i : Nat) : Bool :=
  match s.get? i with
  | some c => isWordJS c
  | none => false

/-- JavaScript `\b`: a transition between word and non-word (or string edge). -/
def wordBoundary (s : List Char) (i : Nat) : Bool :=
  (decide (i ≠ 0) && wordAt s (i - 1)) != wordAt s i

/-- Greedy Kleene-star iteration: explore up to `k` strictly-advancing
iterations of `f`, preferring more iterations, always offering the
zero-iteration end last. -/
def starEnds (f : Nat → List Nat) : Nat → Nat → List Nat
  | 0, i => [i]
  | k + 1, i =>
    (((f i).filter fun e => i < e).flatMap fun e => starEnds f k e) ++ [i]

/-- All candidate end positions for a match of `re` in `s` starting at `i`,
in backtracking preference order (the head is the end the JavaScript engine
reports). -/
def matchEnds (ci : Bool) (s : List Char) : RE → Nat → List Nat
  | .fail, _ => []
  | .eps, i => [i]
  | .cls k, i =>
    match s.get? i with
    | some c => if CC.memCase ci k c then [i + 1] else []
    | none => []
  | .lit l, i => if litAt ci s l i then [i + l.length] else []
  | .seq a b, i => (matchEnds ci s a i).flatMap (matchEnds ci s b)
  | .alt a b, i => matchEnds ci s a i ++ matchEnds ci s b i
  | .star a, i => starEnds (matchEnds ci s a) (s.length + 1 - i) i
  | .nla a, i => if (matchEnds ci s a i).isEmpty then [i] else []
  | .wb, i => if wordBoundary s i then [i] else []
  | .caret, i => if i = 0 then [i] else []
  | .dollar, i => if i = s.length then [i] else []

/-- The end position the engine reports for a match attempt at `i`. -/
def firstEnd (ci : Bool) (re : RE) (s : List Char) (i : Nat) : Option Nat :=
  (matchEnds ci s re i).head?

/-- Fuelled search for the leftmost match position (the fuel bounds the
number of remaining candidate start positions). -/
def scanFromAux (ci : Bool) (re : RE) (s : List Char) :
    Nat → Nat → Option (Nat × Nat)
  | 0, _ => none
  | k + 1, i =>
    if i ≤ s.length then
      match firstEnd ci re s i with
      | some e => some (i, e)
      | none => scanFromAux ci re s k (i + 1)
    else none

/-- Leftmost match at or after position `i`: its start and end. -/
def scanFrom (ci : Bool) (re : RE) (s : List Char) (i : Nat) :
    Option (Nat × Nat) :=
  scanFromAux ci re s (s.length + 1 - i) i

/-- The slice of `s` from `i` (inclusive) to `j` (exclusive). -/
def slice (s : List Char) (i j : Nat) : List Char := (s.drop i).take (j - i)

/-- Spans of all matches found by a global regex: repeatedly take the leftmost
match, resuming at its end (advancing by one on an empty match, as the
JavaScript engine does). -/
def matchAllAux (ci : Bool) (re : RE) (s : List Char) :
    Nat → Nat → List (Nat × Nat)
  | 0, _ => []
  | k + 1, i =>
    match scanFrom ci re s i with
    | none => []
    | some (p, e) => (p, e) :: matchAllAux ci re s k (if p < e then e else p + 1)

/-- `String.prototype.match` with a `g`-flagged regex: the list of matched
substrings (empty list standing for a `null` result). -/
def matchAll (ci : Bool) (re : RE) (s : List Char) : List (List Char) :=
  (matchAllAux ci re s (s.length + 1) 0).map fun pe => slice s pe.1 pe.2

/-- `RegExp.prototype.test`: does the regex match anywhere in `s`? -/
def reTest (ci : Bool) (re : RE) (s : List Char) : Bool :=
  (scanFrom ci re s 0).isSome

/-- `String.prototype.replace` with a `g`-flagged regex and a plain
replacement string. -/
def replaceAllAux (ci : Bool) (re : RE) (s : List Char) (r : List Char) :
    Nat → Nat → List Char
  | 0, i => s.drop i
  | k + 1, i =>
    match scanFrom ci re s i with
    | none => s.drop i
    | some (p, e) =>
      if p < e then
        slice s i p ++ r ++ replaceAllAux ci re s r k e
      else
        slice s i (p + 1) ++ r ++ replaceAllAux ci re s r k (p + 1)

/-- Global regex replace on strings. -/
def replaceAll (ci : Bool) (re : RE) (r : String) (s : String) : String :=
  String.mk (replaceAllAux ci re s.data r.data (s.data.length + 1) 0)

/-- `String.prototype.replace` with a non-global regex: replace the first
match only. -/
def replaceFirst (ci : Bool) (re : RE) (r : String) (s : String) : String :=
  match scanFrom ci re s.data 0 with
  | none => s
  | some (p, e) => String.mk (slice s.data 0 p ++ r.data ++ s.data.drop e)

/-- JavaScript `String.prototype.trim`. -/
def trimJS (s : String) : String :=
  String.mk (((s.data.dropWhile isSpaceJS).reverse.dropWhile isSpaceJS).reverse)

/-! ### Syntactic analyses of patterns

These executable analyses of the `RE` AST drive the universal theorems:
`noMatchIn` certifies that a pattern cannot match inside a given alphabet,
`minLen` bounds the length of any match from below, `nullable` says whether
a pattern can match the empty string, and `Shiftable` marks the patterns
whose matching behavior is invariant under shifting the string (no `^`, no
`\b`). -/

/-- `noMatchIn ci re S = true` certifies that `re` cannot match any string
drawn from the alphabet `S`: some mandatory atom of `re` is unsatisfiable
within `S`. -/
def noMatchIn (ci : Bool) : RE → List Char → Bool
  | .fail, _ => true
  | .eps, _ => false
  | .cls k, S => S.all fun c => !(CC.memCase ci k c)
  | .lit l, S => l.any fun p => S.all fun c => !(charEqCase ci p c)
  | .seq a b, S => noMatchIn ci a S || noMatchIn ci b S
  | .alt a b, S => noMatchIn ci a S && noMatchIn ci b S
  | .star _, _ => false
  | .nla _, _ => false
  | .wb, _ => false
  | .caret, _ => false
  | .dollar, _ => false

/-- A lower bound on the number of characters consumed by any match. -/
def minLen : RE → Nat
  | .fail => 1000000
  | .eps => 0
  | .cls _ => 1
  | .lit l => l.length
  | .seq a b => minLen a + minLen b
  | .alt a b => min (minLen a) (minLen b)
  | .star _ => 0
  | .nla _ => 0
  | .wb => 0
  | .caret => 0
  | .dollar => 0

/-- Whether a pattern can match without consuming any character. -/
def nullable : RE → Bool
  | .fail => false
  | .eps => true
  | .cls _ => false
  | .lit l => l.isEmpty
  | .seq a b => nullable a && nullable b
  | .alt a b => nullable a || nullable b
  | .star _ => true
  | .nla _ => true
  | .wb => true
  | .caret => true
  | .dollar => true

/-- The character (if any) at position `i`, tested for being a digit. -/
def digitAt (s : List Char) (i : Nat) : Bool :=
  match s.get? i with
  | some c => c.isDigit
  | none => false

/-- The strings accepted as one octet by the octet sub-pattern
`(?:25[0-5]|2[0-4][0-9]|[01]?[0-9][0-9]?)` when taken as a whole token. -/
def isOct (l : List Char) : Bool :=
  match l with
  | [a] => a.isDigit
  | [a, b] => a.isDigit && b.isDigit
  | [a, b, c] =>
    a.isDigit && b.isDigit && c.isDigit &&
      ((a = '2' && b = '5' && c ≤ '5') || (a = '2' && b ≤ '4') ||
        a = '0' || a = '1')
  | _ => false

/-- The strings accepted as a whole IPv4 prefix length by
`(?:[0-9]|[12][0-9]|3[0-2])`. -/
def isMaskTok (l : List Char) : Bool :=
  match l with
  | [a] => a.isDigit
  | [a, b] => ((a = '1' || a = '2') && b.isDigit) || (a = '3' && b.isDigit && b ≤ '2')
  | _ => false

/-- Patterns whose matching is invariant under shifting the input (they
contain no `^` and no `\b`; `$` is position-relative and shifts fine). -/
def Shiftable : RE → Bool
  | .fail => true
  | .eps => true
  | .cls _ => true
  | .lit _ => true
  | .seq a b => Shiftable a && Shiftable b
  | .alt a b => Shiftable a && Shiftable b
  | .star a => Shiftable a
  | .nla a => Shiftable a
  | .wb => false
  | .caret => false
  | .dollar => true

/-! ## The pattern registry (`IOC_TYPES`, `IOC_PATTERNS`)

Each definition below transcribes one regex literal of the source registry
into the `RE` AST, keeping the source's alternative order and grouping. -/

namespace IOC_TYPES

def IPV4 : String := "IPv4"
def IPV6 : String := "IPv6"
def CIDR : String := "CIDR"
def DEFANGED_IP : String := "Defanged IP"
def MD5 : String := "MD5"
def SHA1 : String := "SHA1"
def SHA256 : String := "SHA256"
def SHA512 : String := "SHA512"
def EMAIL : String := "Email"
def DEFANGED_URL : String := "Defanged URL"
def URL : String := "URL"
def FILENAME : String := "Filename"

end IOC_TYPES

/-- Union of two single characters, for two-character classes. -/
def cc2 (a b : Char) : CC := CC.union (CC.single a) (CC.single b)

/-- `[0-9]` -/
def digitC : CC := CC.range '0' '9'

/-- `[0-9a-fA-F]` (hex class as written in the CIDR and IPv6 patterns). -/
def hexC : CC :=
  CC.union digitC (CC.union (CC.range 'a' 'f') (CC.range 'A' 'F'))

/-- `[a-fA-F0-9]` (hex class as written in the hash patterns). -/
def hexHashC : CC :=
  CC.union (CC.range 'a' 'f') (CC.union (CC.range 'A' 'F') digitC)

/-- `(?:25[0-5]|2[0-4][0-9]|[01]?[0-9][0-9]?)` — one IPv4 octet. -/
def octetRE : RE :=
  altL [cat [litS "25", RE.cls (CC.range '0' '5')],
        cat [litS "2", RE.cls (CC.range '0' '4'), RE.cls digitC],
        cat [RE.opt (RE.cls (cc2 '0' '1')), RE.cls digitC,
             RE.opt (RE.cls digitC)]]

/-- `[0-9a-fA-F]{1,4}` — one IPv6 group. -/
def hex14 : RE := RE.rep1To (RE.cls hexC) 4

/-- `(?:[0-9]|[12][0-9]|3[0-2])` — an IPv4 prefix length 0..32. -/
def mask32RE : RE :=
  altL [RE.cls digitC,
        cat [RE.cls (cc2 '1' '2'), RE.cls digitC],
        cat [litS "3", RE.cls (CC.range '0' '2')]]

/-- `(?:[0-9]|[1-9][0-9]|1[01][0-9]|12[0-8])` — an IPv6 prefix length 0..128. -/
def mask128RE : RE :=
  altL [RE.cls digitC,
        cat [RE.cls (CC.range '1' '9'), RE.cls digitC],
        cat [litS "1", RE.cls (cc2 '0' '1'), RE.cls digitC],
        cat [litS "12", RE.cls (CC.range '0' '8')]]

/-- First CIDR alternative:
`\b(?:(?:25[0-5]|2[0-4][0-9]|[01]?[0-9][0-9]?)\.){3}(?:…)\/(?:[0-9]|[12][0-9]|3[0-2])\b` -/
def cidrAlt1 : RE :=
  cat [RE.wb, RE.rep (RE.seq octetRE (litS ".")) 3, octetRE,
       litS "/", mask32RE, RE.wb]

/-- Second CIDR alternative:
`\b(?:[0-9a-fA-F]{1,4}:){7}[0-9a-fA-F]{1,4}\/(?:…)\b` -/
def cidrAlt2 : RE :=
  cat [RE.wb, RE.rep (RE.seq hex14 (litS ":")) 7, hex14,
       litS "/", mask128RE, RE.wb]

/-- Third CIDR alternative:
`\b(?:[0-9a-fA-F]{1,4}:)*::(?:[0-9a-fA-F]{1,4}:)*[0-9a-fA-F]{1,4}\/(?:…)\b` -/
def cidrAlt3 : RE :=
  cat [RE.wb, RE.star (RE.seq hex14 (litS ":")), litS "::",
       RE.star (RE.seq hex14 (litS ":")), hex14,
       litS "/", mask128RE, RE.wb]

/-- `IOC_PATTERNS[IOC_TYPES.CIDR]` (flags: `g`). -/
def cidrRE : RE := altL [cidrAlt1, cidrAlt2, cidrAlt3]

/-- `(?:\.|\[\.\]|\(\.\))` — the Defanged-IP octet separator. -/
def defangSepRE : RE := altL [litS ".", litS "[.]", litS "(.)"]

/-- `IOC_PATTERNS[IOC_TYPES.DEFANGED_IP]` (flags: `g`):
`\b(?:(?:25[0-5]|2[0-4][0-9]|[01]?[0-9][0-9]?)(?:\.|\[\.\]|\(\.\))){3}(?:…)\b` -/
def defangedIPRE : RE :=
  cat [RE.wb, RE.rep (RE.seq octetRE defangSepRE) 3, octetRE, RE.wb]

/-- `IOC_PATTERNS[IOC_TYPES.IPV4]` (flags: `g`):
`\b(?:(?:25[0-5]|2[0-4][0-9]|[01]?[0-9][0-9]?)\.){3}(?:…)(?!\/)\b` -/
def ipv4RE : RE :=
  cat [RE.wb, RE.rep (RE.seq octetRE (litS ".")) 3, octetRE,
       RE.nla (litS "/"), RE.wb]

/-- First IPv6 alternative: `\b(?:[0-9a-fA-F]{1,4}:){7}[0-9a-fA-F]{1,4}(?!\/)\b` -/
def ipv6Alt1 : RE :=
  cat [RE.wb, RE.rep (RE.seq hex14 (litS ":")) 7, hex14,
       RE.nla (litS "/"), RE.wb]

/-- Second IPv6 alternative:
`\b(?:[0-9a-fA-F]{1,4}:)*::(?:[0-9a-fA-F]{1,4}:)*[0-9a-fA-F]{1,4}(?!\/)\b` -/
def ipv6Alt2 : RE :=
  cat [RE.wb, RE.star (RE.seq hex14 (litS ":")), litS "::",
       RE.star (RE.seq hex14 (litS ":")), hex14,
       RE.nla (litS "/"), RE.wb]

/-- `IOC_PATTERNS[IOC_TYPES.IPV6]` (flags: `g`). -/
def ipv6RE : RE := RE.alt ipv6Alt1 ipv6Alt2

/-- `IOC_PATTERNS[IOC_TYPES.MD5]` (flags: `g`): `\b[a-fA-F0-9]{32}\b` -/
def md5RE : RE := cat [RE.wb, RE.rep (RE.cls hexHashC) 32, RE.wb]

/-- `IOC_PATTERNS[IOC_TYPES.SHA1]` (flags: `g`): `\b[a-fA-F0-9]{40}\b` -/
def sha1RE : RE := cat [RE.wb, RE.rep (RE.cls hexHashC) 40, RE.wb]

/-- `IOC_PATTERNS[IOC_TYPES.SHA256]` (flags: `g`): `\b[a-fA-F0-9]{64}\b` -/
def sha256RE : RE := cat [RE.wb, RE.rep (RE.cls hexHashC) 64, RE.wb]

/-- `IOC_PATTERNS[IOC_TYPES.SHA512]` (flags: `g`): `\b[a-fA-F0-9]{128}\b` -/
def sha512RE : RE := cat [RE.wb, RE.rep (RE.cls hexHashC) 128, RE.wb]

/-- `[a-zA-Z0-9._%+-]` — the email local-part class. -/
def emailLocalC : CC :=
  CC.union (CC.range 'a' 'z') (CC.union (CC.range 'A' 'Z')
    (CC.union digitC (CC.union (CC.single '.') (CC.union (CC.single '_')
      (CC.union (CC.single '%') (cc2 '+' '-'))))))

/-- `[a-zA-Z0-9.-]` — the email domain class. -/
def emailDomC : CC :=
  CC.union (CC.range 'a' 'z') (CC.union (CC.range 'A' 'Z')
    (CC.union digitC (cc2 '.' '-')))

/-- `[a-zA-Z]` -/
def alphaC : CC := CC.union (CC.range 'a' 'z') (CC.range 'A' 'Z')

/-- `IOC_PATTERNS[IOC_TYPES.EMAIL]` (flags: `g`):
`\b[a-zA-Z0-9._%+-]+@[a-zA-Z0-9.-]+\.[a-zA-Z]{2,}\b` -/
def emailRE : RE :=
  cat [RE.wb, RE.plus (RE.cls emailLocalC), litS "@",
       RE.plus (RE.cls emailDomC), litS ".",
       RE.repLo (RE.cls alphaC) 2, RE.wb]

/-- The URL continuation class `[^\s<>"{}|\\^`]` (complement of whitespace,
angle brackets, double quote, curly braces, pipe, backslash, caret and
backtick). -/
def urlC : CC :=
  CC.compl (CC.union CC.space
    (CC.union (CC.single '<') (CC.union (CC.single '>')
      (CC.union (CC.single (Char.ofNat 34))
        (CC.union (CC.single (Char.ofNat 123)) (CC.union (CC.single (Char.ofNat 125))
          (CC.union (CC.single '|') (CC.union (CC.single (Char.ofNat 92))
            (CC.union (CC.single '^') (CC.single (Char.ofNat 96)))))))))))

/-- First Defanged-URL alternative: `\b(?:hxxps?|ftxp):\/\/[^\s<>"{}|\\^`]+` -/
def defangedURLAlt1 : RE :=
  cat [RE.wb,
       RE.alt (cat [litS "hxxp", RE.opt (litS "s")]) (litS "ftxp"),
       litS "://", RE.plus (RE.cls urlC)]

/-- Second Defanged-URL alternative:
`\b(?:https?|ftp|hxxps?|ftxp):\/\/[^…]*[\[\(]\.?[\]\)][^…]+` -/
def defangedURLAlt2 : RE :=
  cat [RE.wb,
       altL [cat [litS "http", RE.opt (litS "s")], litS "ftp",
             cat [litS "hxxp", RE.opt (litS "s")], litS "ftxp"],
       litS "://", RE.star (RE.cls urlC),
       RE.cls (cc2 '[' '('), RE.opt (litS "."), RE.cls (cc2 ']' ')'),
       RE.plus (RE.cls urlC)]

/-- `IOC_PATTERNS[IOC_TYPES.DEFANGED_URL]` (flags: `g`). -/
def defangedURLRE : RE := RE.alt defangedURLAlt1 defangedURLAlt2

/-- `IOC_PATTERNS[IOC_TYPES.URL]` (flags: `g`):
`\b(?:https?|ftp):\/\/[^\s<>"{}|\\^`]+` -/
def urlRE : RE :=
  cat [RE.wb,
       RE.alt (cat [litS "http", RE.opt (litS "s")]) (litS "ftp"),
       litS "://", RE.plus (RE.cls urlC)]

/-- `[\w\-_]` — the first filename character. -/
def fnStartC : CC := CC.union CC.word (cc2 '-' '_')

/-- `[\w\-_.]` — subsequent filename characters. -/
def fnContC : CC :=
  CC.union CC.word (CC.union (cc2 '-' '_') (CC.single '.'))

/-- The filename extension allow-list, in source order. -/
def extList : List String :=
  ["exe", "dll", "bat", "cmd", "com", "pif", "scr", "vbs", "js", "jar",
   "msi", "sys", "drv", "bin", "sh", "ps1", "app", "deb", "rpm", "dmg",
   "pkg", "apk", "ipa", "zip", "rar", "7z", "tar", "gz", "pdf", "doc",
   "docx", "xls", "xlsx", "ppt", "pptx", "txt", "log", "csv", "xml",
   "json", "html", "htm", "php", "asp", "aspx", "jsp", "py", "rb", "pl",
   "bash", "psm1", "psd1", "vbe", "wsf", "wsh", "jse", "war", "ear",
   "class", "iso", "img", "dat", "db", "sqlite", "mdb", "accdb", "bak",
   "tmp", "temp", "old", "backup", "lock", "pid", "conf", "config",
   "ini", "cfg", "yaml", "yml", "env", "properties", "key", "pem",
   "crt", "cert", "p12", "pfx", "keystore", "truststore", "jks"]

/-- `IOC_PATTERNS[IOC_TYPES.FILENAME]` (flags: `g`, `i`):
`\b[\w\-_][\w\-_.]*\.(?:exe|dll|…|jks)\b` -/
def filenameRE : RE :=
  cat [RE.wb, RE.cls fnStartC, RE.star (RE.cls fnContC), litS ".",
       altL (extList.map litS), RE.wb]

/-- `IOC_PATTERNS`: the registry, keyed by the type string; the Boolean is
the presence of the `i` flag. An unknown key yields `none` (JavaScript
`undefined`). -/
def IOC_PATTERNS (t : String) : Option (Bool × RE) :=
  if t = IOC_TYPES.CIDR then some (false, cidrRE)
  else if t = IOC_TYPES.DEFANGED_IP then some (false, defangedIPRE)
  else if t = IOC_TYPES.IPV4 then some (false, ipv4RE)
  else if t = IOC_TYPES.IPV6 then some (false, ipv6RE)
  else if t = IOC_TYPES.MD5 then some (false, md5RE)
  else if t = IOC_TYPES.SHA1 then some (false, sha1RE)
  else if t = IOC_TYPES.SHA256 then some (false, sha256RE)
  else if t = IOC_TYPES.SHA512 then some (false, sha512RE)
  else if t = IOC_TYPES.EMAIL then some (false, emailRE)
  else if t = IOC_TYPES.DEFANGED_URL then some (false, defangedURLRE)
  else if t = IOC_TYPES.URL then some (false, urlRE)
  else if t = IOC_TYPES.FILENAME then some (true, filenameRE)
  else none

/-! ## Normalizers -/

/-- `/\[\s*\.\s*\]/g` — bracketed dot with optional interior whitespace. -/
def brSpacedRE : RE :=
  cat [litS "[", RE.star (RE.cls CC.space), litS ".",
       RE.star (RE.cls CC.space), litS "]"]

/-- `/\(\s*\.\s*\)/g` — parenthesized dot with optional interior whitespace. -/
def parSpacedRE : RE :=
  cat [litS "(", RE.star (RE.cls CC.space), litS ".",
       RE.star (RE.cls CC.space), litS ")"]

/-- `normalizeDefangedIP`: the six successive global replacements of the
source, in order. -/
def normalizeDefangedIP (s : String) : String :=
  let n := replaceAll false (litS "[.]") "." s
  let n := replaceAll false (litS "(.)") "." n
  let n := replaceAll true (litS "[dot]") "." n
  let n := replaceAll true (litS "(dot)") "." n
  let n := replaceAll false brSpacedRE "." n
  let n := replaceAll false parSpacedRE "." n
  n

/-- `normalizeDefangedURL`: three anchored scheme replacements
(`/^hxxp:\/\//i` etc., non-global) followed by the same six dot-marker
replacements as `normalizeDefangedIP`. -/
def normalizeDefangedURL (s : String) : String :=
  let n := replaceFirst true (cat [RE.caret, litS "hxxp://"]) "http://" s
  let n := replaceFirst true (cat [RE.caret, litS "hxxps://"]) "https://" n
  let n := replaceFirst true (cat [RE.caret, litS "ftxp://"]) "ftp://" n
  let n := replaceAll false (litS "[.]") "." n
  let n := replaceAll false (litS "(.)") "." n
  let n := replaceAll true (litS "[dot]") "." n
  let n := replaceAll true (litS "(dot)") "." n
  let n := replaceAll false brSpacedRE "." n
  let n := replaceAll false parSpacedRE "." n
  n

/-! ## Scan orchestration (`detectIOCs`) -/

/-- One detected IOC record. The source also synthesizes an `id` string from
the type, the value, `Date.now()` and `Math.random()`; that nondeterministic
field plays no part in any claim and is omitted here. The risk fields are
never populated by the scanner. -/
structure IOCRecord where
  type : String
  value : String
  originalValue : Option String
deriving DecidableEq, Repr

/-- The mutable scan state: the `foundValues` set (modelled as an
insertion-ordered duplicate-free list) and the `detectedIOCs` accumulator. -/
structure ScanState where
  found : List String
  recs : List IOCRecord
deriving DecidableEq, Repr

/-- `Set.prototype.add`. -/
def addFound (v : String) (l : List String) : List String :=
  if v ∈ l then l else l ++ [v]

/-- `detectionOrder` — the fixed evaluation order of the scan loop. -/
def detectionOrder : List String :=
  [IOC_TYPES.CIDR, IOC_TYPES.DEFANGED_IP, IOC_TYPES.IPV4, IOC_TYPES.IPV6,
   IOC_TYPES.MD5, IOC_TYPES.SHA1, IOC_TYPES.SHA256, IOC_TYPES.SHA512,
   IOC_TYPES.EMAIL, IOC_TYPES.DEFANGED_URL, IOC_TYPES.URL,
   IOC_TYPES.FILENAME]

/-- The `finalValue` computed for a (trimmed) match: the normalizer applies
to the de-fanged types, all others keep the trimmed match verbatim. -/
def finalValueOf (ty : String) (normalizedMatch : String) : String :=
  if ty = IOC_TYPES.DEFANGED_URL then normalizeDefangedURL normalizedMatch
  else if ty = IOC_TYPES.DEFANGED_IP then normalizeDefangedIP normalizedMatch
  else normalizedMatch

/-- The `originalValue` attached to an emitted record: the raw trimmed match
for the two de-fanged types, absent (`undefined`) otherwise. -/
def originalValueOf (ty : String) (normalizedMatch : String) : Option String :=
  if ty = IOC_TYPES.DEFANGED_URL ∨ ty = IOC_TYPES.DEFANGED_IP then
    some normalizedMatch
  else none

/-- The body of the inner `matches.forEach` of `detectIOCs`, processing a
single raw match `m` of type `ty` against the running state (the source's
`normalizedMatch` / `finalValue` locals appear as `trimJS m` /
`finalValueOf ty (trimJS m)`). -/
def processMatch (ty : String) (st : ScanState) (m : String) : ScanState :=
  if (trimJS m).length > 2 ∧ trimJS m ∉ st.found then
    if (ty = IOC_TYPES.IPV4 ∨ ty = IOC_TYPES.IPV6) ∧
        ∃ v ∈ st.found, '/' ∈ v.data ∧
          (trimJS m ++ "/").data.isPrefixOf v.data then
      st
    else if ty = IOC_TYPES.URL ∧
        ∃ v ∈ st.found, v = trimJS m ∨ v = finalValueOf ty (trimJS m) then st
    else if (ty = IOC_TYPES.IPV4 ∨ ty = IOC_TYPES.IPV6) ∧
        ∃ v ∈ st.found, v = trimJS m ∨ v = finalValueOf ty (trimJS m) then st
    else if finalValueOf ty (trimJS m) ∉ st.found ∧ trimJS m ∉ st.found then
      { found := addFound (trimJS m) (addFound (finalValueOf ty (trimJS m)) st.found),
        recs := st.recs ++
          [{ type := ty, value := finalValueOf ty (trimJS m),
             originalValue := originalValueOf ty (trimJS m) }] }
    else st
  else st

/-- One iteration of the outer `detectionOrder.forEach` loop: run the
type's global pattern over the text and process each match. -/
def scanType (text : String) (st : ScanState) (ty : String) : ScanState :=
  match IOC_PATTERNS ty with
  | none => st
  | some (ci, re) =>
    ((matchAll ci re text.data).map String.mk).foldl (processMatch ty) st

/-- `detectIOCs`: scan `text` with every registered pattern in
`detectionOrder`, deduplicating through the `foundValues` set. -/
def detectIOCs (text : String) : List IOCRecord :=
  (detectionOrder.foldl (scanType text) { found := [], recs := [] }).recs

/-! ## Single-value validator (`validateIOC`)

The source builds `new RegExp("^" + IOC_PATTERNS[type].source.replace(/[gimuy]/g, "") + "$")`
and calls `.test(value)`. Two consequences are transcribed below:
the `^`/`$` anchors attach to the first/last **top-level alternative** of the
source (alternation binds loosest), and the letters `g i m u y` are deleted
from the source **text** itself. Only the Filename source contains any of
those letters, so its extension list is mangled (e.g. `msi` becomes `s`,
`img` becomes the empty string) — for every other pattern the stripped
source equals the original. The rebuilt regex carries no flags, so the
Filename pattern also loses its case-insensitivity. -/

/-- Delete the letters `g i m u y`, as `.replace(/[gimuy]/g, "")` does. -/
def stripGimuy (s : String) : String :=
  String.mk (s.data.filter fun c =>
    !(c = 'g' || c = 'i' || c = 'm' || c = 'u' || c = 'y'))

/-- The anchored Filename body with the stripped extension list. -/
def filenameAnchoredRE : RE :=
  cat [RE.caret, RE.wb, RE.cls fnStartC, RE.star (RE.cls fnContC), litS ".",
       altL (extList.map fun s => litS (stripGimuy s)), RE.wb, RE.dollar]

/-- The regex `validateIOC` rebuilds for each known type. -/
def anchoredPattern (t : String) : Option RE :=
  if t = IOC_TYPES.CIDR then
    some (altL [cat [RE.caret, cidrAlt1], cidrAlt2, cat [cidrAlt3, RE.dollar]])
  else if t = IOC_TYPES.DEFANGED_IP then
    some (cat [RE.caret, defangedIPRE, RE.dollar])
  else if t = IOC_TYPES.IPV4 then
    some (cat [RE.caret, ipv4RE, RE.dollar])
  else if t = IOC_TYPES.IPV6 then
    some (RE.alt (cat [RE.caret, ipv6Alt1]) (cat [ipv6Alt2, RE.dollar]))
  else if t = IOC_TYPES.MD5 then
    some (cat [RE.caret, md5RE, RE.dollar])
  else if t = IOC_TYPES.SHA1 then
    some (cat [RE.caret, sha1RE, RE.dollar])
  else if t = IOC_TYPES.SHA256 then
    some (cat [RE.caret, sha256RE, RE.dollar])
  else if t = IOC_TYPES.SHA512 then
    some (cat [RE.caret, sha512RE, RE.dollar])
  else if t = IOC_TYPES.EMAIL then
    some (cat [RE.caret, emailRE, RE.dollar])
  else if t = IOC_TYPES.DEFANGED_URL then
    some (RE.alt (cat [RE.caret, defangedURLAlt1])
                 (cat [defangedURLAlt2, RE.dollar]))
  else if t = IOC_TYPES.URL then
    some (cat [RE.caret, urlRE, RE.dollar])
  else if t = IOC_TYPES.FILENAME then
    some filenameAnchoredRE
  else none

/-- `validateIOC(value, type)`: `false` for an unregistered type, otherwise
`.test` of the rebuilt anchored regex. -/
def validateIOC (value : String) (t : String) : Bool :=
  match anchoredPattern t with
  | none => false
  | some re => reTest false re value.data

/-! ## Spec-side notions -/

/-- Spec reading of "a complete, standalone instance of that type's pattern,
anchored start to end, with no surrounding context": the pattern matches the
whole of `v`, start to end. -/
def wholeMatch (ci : Bool) (re : RE) (v : String) : Bool :=
  (matchEnds ci v.data re 0).contains v.data.length

/-- The §8 scenario input. -/
def scenarioInput : String :=
  "Contact admin@example.com, C2 at hxxp://bad[.]example[.]com/payload.exe, and 8.8.8.8/32"

/-- The alphabet of a plain dotted-quad: the ten digits and the dot. -/
def digitsDot : List Char :=
  ['0', '1', '2', '3', '4', '5', '6', '7', '8', '9', '.']

/-- A (possibly de-fanged) quad built from four octet values and three
separator markers. -/
def defangQuad (a b c d : Nat) (m1 m2 m3 : String) : String :=
  Nat.repr a ++ m1 ++ Nat.repr b ++ m2 ++ Nat.repr c ++ m3 ++ Nat.repr d

/-- A plain dotted-quad IPv4 address written from its four octet values. -/
def quadStr (a b c d : Nat) : String := defangQuad a b c d "." "." "."

/-- A CIDR token: a dotted quad, a slash and a prefix length. -/
def cidrStr (a b c d p : Nat) : String :=
  quadStr a b c d ++ "/" ++ Nat.repr p

end IOC

/-! # Theorems on the claims -/

namespace IOC

/-! ### Engine lemmas -/

theorem mE_fail (ci : Bool) (s : List Char) (i : Nat) :
    matchEnds ci s RE.fail i = [] := rfl

theorem mE_eps (ci : Bool) (s : List Char) (i : Nat) :
    matchEnds ci s RE.eps i = [i] := rfl

theorem mE_lit (ci : Bool) (s : List Char) (l : List Char) (i : Nat) :
    matchEnds ci s (RE.lit l) i =
      if litAt ci s l i then [i + l.length] else [] := rfl

theorem mE_seq (ci : Bool) (s : List Char) (a b : RE) (i : Nat) :
    matchEnds ci s (RE.seq a b) i =
      (matchEnds ci s a i).flatMap (matchEnds ci s b) := rfl

theorem mE_alt (ci : Bool) (s : List Char) (a b : RE) (i : Nat) :
    matchEnds ci s (RE.alt a b) i =
      matchEnds ci s a i ++ matchEnds ci s b i := rfl

theorem mE_star (ci : Bool) (s : List Char) (a : RE) (i : Nat) :
    matchEnds ci s (RE.star a) i =
      starEnds (matchEnds ci s a) (s.length + 1 - i) i := rfl

theorem mE_nla (ci : Bool) (s : List Char) (a : RE) (i : Nat) :
    matchEnds ci s (RE.nla a) i =
      if (matchEnds ci s a i).isEmpty then [i] else [] := rfl

theorem mE_wb (ci : Bool) (s : List Char) (i : Nat) :
    matchEnds ci s RE.wb i = if wordBoundary s i then [i] else [] := rfl

theorem mE_caret (ci : Bool) (s : List Char) (i : Nat) :
    matchEnds ci s RE.caret i = if i = 0 then [i] else [] := rfl

theorem mE_dollar (ci : Bool) (s : List Char) (i : Nat) :
    matchEnds ci s RE.dollar i = if i = s.length then [i] else [] := rfl

theorem mE_cls_some (ci : Bool) (s : List Char) (k : CC) (i : Nat) (c : Char)
    (hg : s.get? i = some c) :
    matchEnds ci s (RE.cls k) i =
      if CC.memCase ci k c then [i + 1] else [] := by
  unfold matchEnds; rw [hg]

theorem mE_cls_none (ci : Bool) (s : List Char) (k : CC) (i : Nat)
    (hg : s.get? i = none) :
    matchEnds ci s (RE.cls k) i = [] := by
  unfold matchEnds; rw [hg]

theorem starEnds_ge (f : Nat → List Nat) (_hf : ∀ i e, e ∈ f i → i ≤ e) :
    ∀ (k i e : Nat), e ∈ starEnds f k i → i ≤ e := by
  intro k
  induction k with
  | zero =>
    intro i e he
    simp only [starEnds, List.mem_singleton] at he
    omega
  | succ k ih =>
    intro i e he
    simp only [starEnds, List.mem_append, List.mem_flatMap,
      List.mem_filter, List.mem_singleton, decide_eq_true_eq] at he
    rcases he with ⟨x, ⟨hx, hlt⟩, hse⟩ | he
    · have := ih x e hse
      omega
    · omega

theorem matchEnds_ge (ci : Bool) (s : List Char) :
    ∀ (re : RE) (i e : Nat), e ∈ matchEnds ci s re i → i ≤ e := by
  intro re
  induction re with
  | fail => intro i e he; cases he
  | eps =>
    intro i e he
    rw [mE_eps, List.mem_singleton] at he
    omega
  | cls k =>
    intro i e he
    rcases hg : s.get? i with _ | c
    · rw [mE_cls_none ci s k i hg] at he; cases he
    · rw [mE_cls_some ci s k i c hg] at he
      split at he
      · rw [List.mem_singleton] at he; omega
      · cases he
  | lit l =>
    intro i e he
    rw [mE_lit] at he
    split at he
    · rw [List.mem_singleton] at he; omega
    · cases he
  | seq a b iha ihb =>
    intro i e he
    rw [mE_seq, List.mem_flatMap] at he
    obtain ⟨x, hx, hex⟩ := he
    exact Nat.le_trans (iha i x hx) (ihb x e hex)
  | alt a b iha ihb =>
    intro i e he
    rw [mE_alt, List.mem_append] at he
    rcases he with he | he
    · exact iha i e he
    · exact ihb i e he
  | star a iha =>
    intro i e he
    rw [mE_star] at he
    exact starEnds_ge _ iha _ i e he
  | nla a iha =>
    intro i e he
    rw [mE_nla] at he
    split at he
    · rw [List.mem_singleton] at he; omega
    · cases he
  | wb =>
    intro i e he
    rw [mE_wb] at he
    split at he
    · rw [List.mem_singleton] at he; omega
    · cases he
  | caret =>
    intro i e he
    rw [mE_caret] at he
    split at he
    · rw [List.mem_singleton] at he; omega
    · cases he
  | dollar =>
    intro i e he
    rw [mE_dollar] at he
    split at he
    · rw [List.mem_singleton] at he; omega
    · cases he

theorem get?_some_lt {s : List Char} {n : Nat} {c : Char}
    (h : s.get? n = some c) : n < s.length := by
  by_contra hn
  rw [List.get?_eq_none.2 (Nat.le_of_not_lt hn)] at h
  cases h

/-- Every pattern character of a successful literal match is witnessed by an
input character at the corresponding position. -/
theorem litAt_sound (ci : Bool) (s : List Char) :
    ∀ (l : List Char) (i : Nat), litAt ci s l i = true →
      ∀ (j : Nat) (p : Char), l.get? j = some p →
        ∃ c, s.get? (i + j) = some c ∧ charEqCase ci p c = true := by
  intro l
  induction l with
  | nil => intro i _ j p hj; cases hj
  | cons p0 ps ih =>
    intro i hl j p hj
    unfold litAt at hl
    rcases hg : s.get? i with _ | c <;> rw [hg] at hl
    · cases hl
    · rw [Bool.and_eq_true] at hl
      cases j with
      | zero =>
        simp only [List.get?] at hj
        cases hj
        exact ⟨c, by simpa using hg, hl.1⟩
      | succ j =>
        simp only [List.get?] at hj
        obtain ⟨c2, hc2, hpc2⟩ := ih (i + 1) hl.2 j p hj
        exact ⟨c2, by rw [show i + (j + 1) = i + 1 + j by omega]; exact hc2, hpc2⟩

theorem starEnds_le_len (f : Nat → List Nat) (n : Nat)
    (hge : ∀ i e, e ∈ f i → i ≤ e)
    (hf : ∀ i e, e ∈ f i → i < e → e ≤ n) :
    ∀ (k i e : Nat), e ∈ starEnds f k i → i < e → e ≤ n := by
  intro k
  induction k with
  | zero =>
    intro i e he hlt
    simp only [starEnds, List.mem_singleton] at he
    omega
  | succ k ih =>
    intro i e he hlt
    simp only [starEnds, List.mem_append, List.mem_flatMap,
      List.mem_filter, List.mem_singleton, decide_eq_true_eq] at he
    rcases he with ⟨x, ⟨hx, hxlt⟩, hse⟩ | he
    · have hxe := starEnds_ge f hge k x e hse
      rcases Nat.lt_or_ge x e with hxe2 | hxe2
      · exact ih x e hse hxe2
      · have : e = x := by omega
        subst this
        exact hf i e hx hxlt
    · omega

/-- A match that consumes at least one character ends within the string. -/
theorem matchEnds_le_len (ci : Bool) (s : List Char) :
    ∀ (re : RE) (i e : Nat), e ∈ matchEnds ci s re i → i < e → e ≤ s.length := by
  intro re
  induction re with
  | fail => intro i e he _; cases he
  | eps =>
    intro i e he hlt
    rw [mE_eps, List.mem_singleton] at he
    omega
  | cls k =>
    intro i e he _
    rcases hg : s.get? i with _ | c
    · rw [mE_cls_none ci s k i hg] at he; cases he
    · rw [mE_cls_some ci s k i c hg] at he
      split at he
      · rw [List.mem_singleton] at he
        have := get?_some_lt hg
        omega
      · cases he
  | lit l =>
    intro i e he hlt
    rw [mE_lit] at he
    split at he
    · rename_i hlit
      rw [List.mem_singleton] at he
      subst he
      have hne : l.length ≠ 0 := by omega
      obtain ⟨p, hp⟩ : ∃ p, l.get? (l.length - 1) = some p := by
        cases hg : l.get? (l.length - 1) with
        | none => rw [List.get?_eq_none] at hg; omega
        | some p => exact ⟨p, rfl⟩
      obtain ⟨c, hc, _⟩ := litAt_sound ci s l i hlit (l.length - 1) p hp
      have := get?_some_lt hc
      omega
    · cases he
  | seq a b iha ihb =>
    intro i e he hlt
    rw [mE_seq, List.mem_flatMap] at he
    obtain ⟨x, hx, hex⟩ := he
    rcases Nat.lt_or_ge x e with hxe | hxe
    · exact ihb x e hex hxe
    · have : e = x := by
        have := matchEnds_ge ci s b x e hex
        omega
      subst this
      exact iha i e hx hlt
  | alt a b iha ihb =>
    intro i e he hlt
    rw [mE_alt, List.mem_append] at he
    rcases he with he | he
    · exact iha i e he hlt
    · exact ihb i e he hlt
  | star a iha =>
    intro i e he hlt
    rw [mE_star] at he
    exact starEnds_le_len _ s.length (matchEnds_ge ci s a) iha _ i e he hlt
  | nla a iha =>
    intro i e he hlt
    rw [mE_nla] at he
    split at he
    · rw [List.mem_singleton] at he; omega
    · cases he
  | wb =>
    intro i e he hlt
    rw [mE_wb] at he
    split at he
    · rw [List.mem_singleton] at he; omega
    · cases he
  | caret =>
    intro i e he hlt
    rw [mE_caret] at he
    split at he
    · rw [List.mem_singleton] at he; omega
    · cases he
  | dollar =>
    intro i e he hlt
    rw [mE_dollar] at he
    split at he
    · rw [List.mem_singleton] at he; omega
    · cases he

/-- Soundness of `minLen`. -/
theorem minLen_sound (ci : Bool) (s : List Char) :
    ∀ (re : RE) (i e : Nat), e ∈ matchEnds ci s re i → i + minLen re ≤ e := by
  intro re
  induction re with
  | fail => intro i e he; cases he
  | eps =>
    intro i e he
    rw [mE_eps, List.mem_singleton] at he
    simp only [minLen]
    omega
  | cls k =>
    intro i e he
    rcases hg : s.get? i with _ | c
    · rw [mE_cls_none ci s k i hg] at he; cases he
    · rw [mE_cls_some ci s k i c hg] at he
      split at he
      · rw [List.mem_singleton] at he
        simp only [minLen]
        omega
      · cases he
  | lit l =>
    intro i e he
    rw [mE_lit] at he
    split at he
    · rw [List.mem_singleton] at he
      simp only [minLen]
      omega
    · cases he
  | seq a b iha ihb =>
    intro i e he
    rw [mE_seq, List.mem_flatMap] at he
    obtain ⟨x, hx, hex⟩ := he
    have h1 := iha i x hx
    have h2 := ihb x e hex
    simp only [minLen]
    omega
  | alt a b iha ihb =>
    intro i e he
    rw [mE_alt, List.mem_append] at he
    simp only [minLen]
    rcases he with he | he
    · have h1 := iha i e he
      have h2 := Nat.min_le_left (minLen a) (minLen b)
      omega
    · have h1 := ihb i e he
      have h2 := Nat.min_le_right (minLen a) (minLen b)
      omega
  | star a iha =>
    intro i e he
    rw [mE_star] at he
    simp only [minLen]
    have := starEnds_ge _ (matchEnds_ge ci s a) _ i e he
    omega
  | nla a iha =>
    intro i e he
    have := matchEnds_ge ci s (RE.nla a) i e he
    simp only [minLen]
    omega
  | wb =>
    intro i e he
    have := matchEnds_ge ci s RE.wb i e he
    simp only [minLen]
    omega
  | caret =>
    intro i e he
    have := matchEnds_ge ci s RE.caret i e he
    simp only [minLen]
    omega
  | dollar =>
    intro i e he
    have := matchEnds_ge ci s RE.dollar i e he
    simp only [minLen]
    omega

/-- Soundness of `noMatchIn`: over an input drawn from the alphabet `S`, a
pattern certified by `noMatchIn` has no match at any position. -/
theorem noMatchIn_sound (ci : Bool) (s : List Char) (S : List Char)
    (hS : ∀ c ∈ s, c ∈ S) :
    ∀ (re : RE), noMatchIn ci re S = true → ∀ i, matchEnds ci s re i = [] := by
  intro re
  induction re with
  | fail => intro _ i; rfl
  | eps => intro h; cases h
  | cls k =>
    intro h i
    simp only [noMatchIn, List.all_eq_true] at h
    rcases hg : s.get? i with _ | c
    · exact mE_cls_none ci s k i hg
    · rw [mE_cls_some ci s k i c hg]
      have hc : c ∈ S := hS c (List.get?_mem hg)
      rw [if_neg]
      intro hmem
      have := h c hc
      rw [hmem] at this
      cases this
  | lit l =>
    intro h i
    simp only [noMatchIn, List.any_eq_true] at h
    obtain ⟨p, hp, hall⟩ := h
    simp only [List.all_eq_true] at hall
    rw [mE_lit, if_neg]
    intro hlit
    obtain ⟨j, hj⟩ := List.get_of_mem hp
    have hj2 : l.get? j = some p := by
      rw [List.get?_eq_get j.isLt, hj]
    obtain ⟨c, hc, hpc⟩ := litAt_sound ci s l i hlit j p hj2
    have := hall c (hS c (List.get?_mem hc))
    rw [hpc] at this
    cases this
  | seq a b iha ihb =>
    intro h i
    simp only [noMatchIn, Bool.or_eq_true] at h
    rw [mE_seq]
    rcases h with h | h
    · rw [iha h i]; rfl
    · rw [List.flatMap_eq_nil_iff]
      intro x _
      exact ihb h x
  | alt a b iha ihb =>
    intro h i
    simp only [noMatchIn, Bool.and_eq_true] at h
    rw [mE_alt, iha h.1 i, ihb h.2 i]
    rfl
  | star a iha => intro h; cases h
  | nla a iha => intro h; cases h
  | wb => intro h; cases h
  | caret => intro h; cases h
  | dollar => intro h; cases h

theorem scanFromAux_none (ci : Bool) (re : RE) (s : List Char) (j : Nat)
    (hall : ∀ i, j ≤ i → matchEnds ci s re i = []) :
    ∀ (k i : Nat), j ≤ i → scanFromAux ci re s k i = none := by
  intro k
  induction k with
  | zero => intro i _; rfl
  | succ k ih =>
    intro i hi
    have hfe : firstEnd ci re s i = none := by
      unfold firstEnd; rw [hall i hi]; rfl
    unfold scanFromAux
    rw [hfe]
    split
    · exact ih (i + 1) (Nat.le_succ_of_le hi)
    · rfl

/-- A pattern with no match at any position finds nothing under `matchAll`. -/
theorem matchAll_nil (ci : Bool) (re : RE) (s : List Char)
    (h : ∀ i, matchEnds ci s re i = []) : matchAll ci re s = [] := by
  unfold matchAll matchAllAux
  rw [show scanFrom ci re s 0 = none from
    scanFromAux_none ci re s 0 (fun i _ => h i) _ 0 (Nat.zero_le 0)]
  rfl

/-- `noMatchIn` kills a whole global scan. -/
theorem matchAll_nil_of_noMatchIn (ci : Bool) (re : RE) (s : List Char)
    (S : List Char) (hS : ∀ c ∈ s, c ∈ S) (h : noMatchIn ci re S = true) :
    matchAll ci re s = [] :=
  matchAll_nil ci re s (noMatchIn_sound ci s S hS re h)

/-- A pattern longer than the string kills a whole global scan. -/
theorem matchEnds_nil_of_minLen (ci : Bool) (re : RE) (s : List Char)
    (h : s.length < minLen re) : ∀ i, matchEnds ci s re i = [] := by
  intro i
  cases hme : matchEnds ci s re i with
  | nil => rfl
  | cons e t =>
    have hmem : e ∈ matchEnds ci s re i := by
      rw [hme]; exact List.mem_cons_self e t
    have h1 := minLen_sound ci s re i e hmem
    have h2 := matchEnds_le_len ci s re i e hmem (by omega)
    omega

theorem matchAll_nil_of_minLen (ci : Bool) (re : RE) (s : List Char)
    (h : s.length < minLen re) : matchAll ci re s = [] :=
  matchAll_nil ci re s (matchEnds_nil_of_minLen ci re s h)

/-! ### Shift invariance

Matching of a pattern with no `^` and no `\b` at position `u.length + j` of
`u ++ v` is the matching at position `j` of `v`, shifted. -/

theorem starEnds_zero (f : Nat → List Nat) (i : Nat) : starEnds f 0 i = [i] := rfl

theorem starEnds_succ (f : Nat → List Nat) (k i : Nat) :
    starEnds f (k + 1) i =
      (((f i).filter fun e => i < e).flatMap fun e => starEnds f k e) ++ [i] := rfl

theorem litAt_shift (ci : Bool) (u v : List Char) :
    ∀ (l : List Char) (j : Nat),
      litAt ci (u ++ v) l (u.length + j) = litAt ci v l j := by
  intro l
  induction l with
  | nil => intro j; rfl
  | cons p ps ih =>
    intro j
    unfold litAt
    rw [List.get?_append_right (by omega),
      show u.length + j - u.length = j by omega]
    cases v.get? j with
    | none => rfl
    | some c =>
      rw [show u.length + j + 1 = u.length + (j + 1) by omega, ih (j + 1)]

theorem starEnds_shift (f g : Nat → List Nat) (d : Nat)
    (hfg : ∀ j, g (d + j) = (f j).map (d + ·)) :
    ∀ (k j : Nat), starEnds g k (d + j) = (starEnds f k j).map (d + ·) := by
  intro k
  induction k with
  | zero => intro j; rfl
  | succ k ih =>
    intro j
    rw [starEnds_succ, starEnds_succ, hfg j, List.map_append]
    congr 1
    · rw [List.filter_map, List.flatMap_map]
      have hfil : ((f j).filter ((fun e => decide (d + j < e)) ∘ (d + ·))) =
          (f j).filter (fun e => decide (j < e)) := by
        apply List.filter_congr
        intro x _
        simp only [Function.comp]
        by_cases hx : j < x
        · rw [decide_eq_true hx, decide_eq_true (by omega)]
        · rw [decide_eq_false hx, decide_eq_false (by omega)]
      rw [hfil, List.map_flatMap]
      apply List.flatMap_congr
      intro x _
      exact ih x

theorem matchEnds_shift (ci : Bool) (u v : List Char) :
    ∀ (re : RE), Shiftable re = true → ∀ (j : Nat),
      matchEnds ci (u ++ v) re (u.length + j) =
        (matchEnds ci v re j).map (u.length + ·) := by
  intro re
  induction re with
  | fail => intro _ j; rfl
  | eps => intro _ j; rfl
  | cls k =>
    intro _ j
    have hg : (u ++ v).get? (u.length + j) = v.get? j := by
      rw [List.get?_append_right (by omega),
        show u.length + j - u.length = j by omega]
    rcases hvj : v.get? j with _ | c
    · rw [mE_cls_none ci _ k _ (hg.trans hvj), mE_cls_none ci v k j hvj]
      rfl
    · rw [mE_cls_some ci _ k _ c (hg.trans hvj), mE_cls_some ci v k j c hvj]
      split
      · rw [show u.length + j + 1 = u.length + (j + 1) by omega]
        rfl
      · rfl
  | lit l =>
    intro _ j
    rw [mE_lit, mE_lit, litAt_shift]
    split
    · rw [show u.length + j + l.length = u.length + (j + l.length) by omega]
      rfl
    · rfl
  | seq a b iha ihb =>
    intro hsh j
    rw [Shiftable, Bool.and_eq_true] at hsh
    rw [mE_seq, mE_seq, iha hsh.1 j, List.flatMap_map, List.map_flatMap]
    apply List.flatMap_congr
    intro x _
    exact ihb hsh.2 x
  | alt a b iha ihb =>
    intro hsh j
    rw [Shiftable, Bool.and_eq_true] at hsh
    rw [mE_alt, mE_alt, iha hsh.1 j, ihb hsh.2 j, List.map_append]
  | star a iha =>
    intro hsh j
    rw [Shiftable] at hsh
    rw [mE_star, mE_star]
    rw [show (u ++ v).length + 1 - (u.length + j) = v.length + 1 - j by
      rw [List.length_append]; omega]
    exact starEnds_shift (matchEnds ci v a) (matchEnds ci (u ++ v) a)
      u.length (iha hsh) _ j
  | nla a iha =>
    intro hsh j
    rw [Shiftable] at hsh
    rw [mE_nla, mE_nla, iha hsh j]
    rcases hma : matchEnds ci v a j with _ | ⟨x, t⟩
    · rfl
    · rfl
  | wb => intro h; cases h
  | caret => intro h; cases h
  | dollar =>
    intro _ j
    rw [mE_dollar, mE_dollar]
    by_cases hj : j = v.length
    · rw [if_pos hj, if_pos (by rw [List.length_append]; omega)]
      rfl
    · rw [if_neg hj, if_neg (by rw [List.length_append]; omega)]
      rfl

/-- Head version of shift invariance. -/
theorem head_shift (ci : Bool) (u v : List Char) (re : RE) (e : Nat)
    (hsh : Shiftable re = true)
    (h : (matchEnds ci v re 0).head? = some e) :
    (matchEnds ci (u ++ v) re u.length).head? = some (u.length + e) := by
  have hs := matchEnds_shift ci u v re hsh 0
  rw [Nat.add_zero] at hs
  rw [hs, List.head?_map, h]
  rfl

theorem scanFromAux_shift (ci : Bool) (re : RE) (u v : List Char)
    (hsh : Shiftable re = true) :
    ∀ (k j : Nat), scanFromAux ci re (u ++ v) k (u.length + j) =
      (scanFromAux ci re v k j).map
        (fun pe => (u.length + pe.1, u.length + pe.2)) := by
  intro k
  induction k with
  | zero => intro j; rfl
  | succ k ih =>
    intro j
    unfold scanFromAux
    by_cases hj : j ≤ v.length
    · rw [if_pos (by rw [List.length_append]; omega), if_pos hj]
      have hfe : firstEnd ci re (u ++ v) (u.length + j) =
          (firstEnd ci re v j).map (u.length + ·) := by
        unfold firstEnd
        rw [matchEnds_shift ci u v re hsh j, List.head?_map]
      rcases hf : firstEnd ci re v j with _ | e
      · rw [hfe, hf]
        rw [show u.length + j + 1 = u.length + (j + 1) by omega]
        exact ih (j + 1)
      · rw [hfe, hf]
        rfl
    · rw [if_neg (by rw [List.length_append]; omega), if_neg hj]
      rfl

theorem scanFrom_shift (ci : Bool) (re : RE) (u v : List Char)
    (hsh : Shiftable re = true) (j : Nat) :
    scanFrom ci re (u ++ v) (u.length + j) =
      (scanFrom ci re v j).map
        (fun pe => (u.length + pe.1, u.length + pe.2)) := by
  unfold scanFrom
  rw [show (u ++ v).length + 1 - (u.length + j) = v.length + 1 - j by
    rw [List.length_append]; omega]
  exact scanFromAux_shift ci re u v hsh _ j

theorem slice_shift (u v : List Char) (a b : Nat) :
    slice (u ++ v) (u.length + a) (u.length + b) = slice v a b := by
  unfold slice
  rw [List.drop_append a, show u.length + b - (u.length + a) = b - a by omega]

theorem replaceAllAux_shift (ci : Bool) (re : RE) (u v : List Char)
    (r : List Char) (hsh : Shiftable re = true) :
    ∀ (k j : Nat), replaceAllAux ci re (u ++ v) r k (u.length + j) =
      replaceAllAux ci re v r k j := by
  intro k
  induction k with
  | zero =>
    intro j
    unfold replaceAllAux
    exact List.drop_append j
  | succ k ih =>
    intro j
    unfold replaceAllAux
    rw [scanFrom_shift ci re u v hsh j]
    rcases hf : scanFrom ci re v j with _ | ⟨p, e⟩
    · exact List.drop_append j
    · rw [show Option.map (fun pe => (u.length + pe.1, u.length + pe.2))
        (some (p, e)) = some (u.length + p, u.length + e) from rfl]
      dsimp only
      by_cases hpe : p < e
      · rw [if_pos (show u.length + p < u.length + e by omega), if_pos hpe,
          slice_shift, ih e]
      · rw [if_neg (show ¬(u.length + p < u.length + e) by omega), if_neg hpe,
          show u.length + p + 1 = u.length + (p + 1) by omega, slice_shift,
          ih (p + 1)]

/-! ### Character facts and small-step computation lemmas -/

theorem char_le_iff {a b : Char} : a ≤ b ↔ a.val.toNat ≤ b.val.toNat := by
  rw [Char.le_def]
  exact UInt32.le_def

theorem char_eq_of_toNat {c : Char} {n : Nat} (d : Char) (h : c.val.toNat = n)
    (hd : d.val.toNat = n) : c = d :=
  Char.ext (UInt32.ext (by rw [h, hd]))

theorem isDigit_iff {c : Char} :
    c.isDigit = true ↔ 48 ≤ c.val.toNat ∧ c.val.toNat ≤ 57 := by
  simp only [Char.isDigit, ge_iff_le, Bool.and_eq_true, decide_eq_true_eq,
    UInt32.le_def]
  constructor
  · intro ⟨h1, h2⟩
    exact ⟨h1, h2⟩
  · intro ⟨h1, h2⟩
    exact ⟨h1, h2⟩

theorem digit_mem_list {c : Char} (h : c.isDigit = true) :
    c ∈ ['0', '1', '2', '3', '4', '5', '6', '7', '8', '9'] := by
  have h2 := isDigit_iff.1 h
  have h3 : c.val.toNat = 48 ∨ c.val.toNat = 49 ∨ c.val.toNat = 50 ∨
      c.val.toNat = 51 ∨ c.val.toNat = 52 ∨ c.val.toNat = 53 ∨
      c.val.toNat = 54 ∨ c.val.toNat = 55 ∨ c.val.toNat = 56 ∨
      c.val.toNat = 57 := by omega
  rcases h3 with h3 | h3 | h3 | h3 | h3 | h3 | h3 | h3 | h3 | h3
  · rw [char_eq_of_toNat '0' h3 (by decide)]; decide
  · rw [char_eq_of_toNat '1' h3 (by decide)]; decide
  · rw [char_eq_of_toNat '2' h3 (by decide)]; decide
  · rw [char_eq_of_toNat '3' h3 (by decide)]; decide
  · rw [char_eq_of_toNat '4' h3 (by decide)]; decide
  · rw [char_eq_of_toNat '5' h3 (by decide)]; decide
  · rw [char_eq_of_toNat '6' h3 (by decide)]; decide
  · rw [char_eq_of_toNat '7' h3 (by decide)]; decide
  · rw [char_eq_of_toNat '8' h3 (by decide)]; decide
  · rw [char_eq_of_toNat '9' h3 (by decide)]; decide

theorem mem_range_iff {lo hi c : Char} :
    (CC.range lo hi).mem c = true ↔ lo ≤ c ∧ c ≤ hi := by
  simp only [CC.mem, Bool.and_eq_true, decide_eq_true_eq]

theorem range_not_mem_of_not_digit {lo hi c : Char} (hlo : '0' ≤ lo)
    (hhi : hi ≤ '9') (hc : c.isDigit = false) :
    (CC.range lo hi).mem c = false := by
  rw [Bool.eq_false_iff]
  intro hmem
  obtain ⟨h1, h2⟩ := mem_range_iff.1 hmem
  rw [char_le_iff] at h1 h2 hlo hhi
  have : c.isDigit = true := isDigit_iff.2 (by
    have : ('0' : Char).val.toNat = 48 := by decide
    have : ('9' : Char).val.toNat = 57 := by decide
    omega)
  rw [hc] at this
  cases this

theorem mem_digitC_of_digit {c : Char} (h : c.isDigit = true) :
    digitC.mem c = true := by
  obtain ⟨h1, h2⟩ := isDigit_iff.1 h
  exact mem_range_iff.2 ⟨char_le_iff.2 (by simpa using h1),
    char_le_iff.2 (by simpa using h2)⟩

theorem charEq_refl (a : Char) : charEqCase false a a = true := by
  simp [charEqCase]

theorem charEq_of_ne {p c : Char} (h : p ≠ c) : charEqCase false p c = false := by
  simp [charEqCase, h]

theorem memCase_false (k : CC) (c : Char) : CC.memCase false k c = k.mem c := by
  simp [CC.memCase]

theorem litAt_nil (ci : Bool) (s : List Char) (i : Nat) :
    litAt ci s [] i = true := rfl

theorem litAt_cons_some (ci : Bool) (s : List Char) (p : Char) (ps : List Char)
    (i : Nat) (c : Char) (hg : s.get? i = some c) :
    litAt ci s (p :: ps) i = (charEqCase ci p c && litAt ci s ps (i + 1)) := by
  rw [show litAt ci s (p :: ps) i =
    (match s.get? i with
     | some c => charEqCase ci p c && litAt ci s ps (i + 1)
     | none => false) from rfl, hg]

theorem litAt_cons_none (ci : Bool) (s : List Char) (p : Char) (ps : List Char)
    (i : Nat) (hg : s.get? i = none) :
    litAt ci s (p :: ps) i = false := by
  rw [show litAt ci s (p :: ps) i =
    (match s.get? i with
     | some c => charEqCase ci p c && litAt ci s ps (i + 1)
     | none => false) from rfl, hg]

theorem mem_of_head? {l : List Nat} {a : Nat} (h : l.head? = some a) :
    a ∈ l := by
  cases l with
  | nil => cases h
  | cons x t =>
    simp only [List.head?] at h
    injection h with h2
    rw [← h2]
    exact List.mem_cons_self _ _

/-! ### Computation of matches along the greedy path -/

theorem opt_ends (ci : Bool) (s : List Char) (a : RE) (i : Nat) :
    matchEnds ci s (RE.opt a) i = matchEnds ci s a i ++ [i] := by
  unfold RE.opt
  rw [mE_alt, mE_eps]

theorem seq_nil_left (ci : Bool) (s : List Char) (a b : RE) (i : Nat)
    (h : matchEnds ci s a i = []) : matchEnds ci s (RE.seq a b) i = [] := by
  rw [mE_seq, h]
  rfl

theorem lit_nil (ci : Bool) (s : List Char) (l : List Char) (i : Nat)
    (h : litAt ci s l i = false) : matchEnds ci s (RE.lit l) i = [] := by
  rw [mE_lit, h]
  rfl

theorem lit_yes (ci : Bool) (s : List Char) (l : List Char) (i : Nat)
    (h : litAt ci s l i = true) :
    matchEnds ci s (RE.lit l) i = [i + l.length] := by
  rw [mE_lit, h]
  rfl

theorem cls_yes (ci : Bool) (s : List Char) (k : CC) (i : Nat) (c : Char)
    (hg : s.get? i = some c) (hm : CC.memCase ci k c = true) :
    matchEnds ci s (RE.cls k) i = [i + 1] := by
  rw [mE_cls_some ci s k i c hg, if_pos hm]

theorem cls_no (ci : Bool) (s : List Char) (k : CC) (i : Nat) (c : Char)
    (hg : s.get? i = some c) (hm : CC.memCase ci k c = false) :
    matchEnds ci s (RE.cls k) i = [] := by
  rw [mE_cls_some ci s k i c hg, if_neg (by rw [hm]; exact Bool.false_ne_true)]

theorem wb_yes (ci : Bool) (s : List Char) (i : Nat)
    (h : wordBoundary s i = true) : matchEnds ci s RE.wb i = [i] := by
  rw [mE_wb, h]
  rfl

theorem wb_no (ci : Bool) (s : List Char) (i : Nat)
    (h : wordBoundary s i = false) : matchEnds ci s RE.wb i = [] := by
  rw [mE_wb, h]
  rfl

theorem nla_yes (ci : Bool) (s : List Char) (a : RE) (i : Nat)
    (h : matchEnds ci s a i = []) : matchEnds ci s (RE.nla a) i = [i] := by
  rw [mE_nla, h]
  rfl

theorem head_seq (ci : Bool) (s : List Char) (a b : RE) (i e1 e : Nat)
    (h1 : (matchEnds ci s a i).head? = some e1)
    (h2 : (matchEnds ci s b e1).head? = some e) :
    (matchEnds ci s (RE.seq a b) i).head? = some e := by
  rw [mE_seq]
  obtain ⟨t, ht⟩ : ∃ t, matchEnds ci s a i = e1 :: t := by
    cases hma : matchEnds ci s a i with
    | nil => rw [hma] at h1; cases h1
    | cons x t =>
      rw [hma] at h1
      simp only [List.head?] at h1
      cases h1
      exact ⟨t, rfl⟩
  obtain ⟨t2, ht2⟩ : ∃ t2, matchEnds ci s b e1 = e :: t2 := by
    cases hmb : matchEnds ci s b e1 with
    | nil => rw [hmb] at h2; cases h2
    | cons x t2 =>
      rw [hmb] at h2
      simp only [List.head?] at h2
      cases h2
      exact ⟨t2, rfl⟩
  rw [ht, List.flatMap_cons, ht2]
  rfl

theorem head_alt_l (ci : Bool) (s : List Char) (a b : RE) (i e : Nat)
    (h : (matchEnds ci s a i).head? = some e) :
    (matchEnds ci s (RE.alt a b) i).head? = some e := by
  rw [mE_alt]
  cases hma : matchEnds ci s a i with
  | nil => rw [hma] at h; cases h
  | cons x t =>
    rw [hma] at h
    rw [List.cons_append]
    exact h

theorem head_alt_r (ci : Bool) (s : List Char) (a b : RE) (i e : Nat)
    (h0 : matchEnds ci s a i = [])
    (h : (matchEnds ci s b i).head? = some e) :
    (matchEnds ci s (RE.alt a b) i).head? = some e := by
  rw [mE_alt, h0, List.nil_append]
  exact h

theorem flatMap_eps (ci : Bool) (s : List Char) (l : List Nat) :
    l.flatMap (fun e => matchEnds ci s RE.eps e) = l := by
  induction l with
  | nil => rfl
  | cons x t ih =>
    rw [List.flatMap_cons, mE_eps, ih]
    rfl

theorem cat2_ends (ci : Bool) (s : List Char) (x y : RE) (i : Nat) :
    matchEnds ci s (cat [x, y]) i =
      (matchEnds ci s x i).flatMap (fun e => matchEnds ci s y e) := by
  show matchEnds ci s (RE.seq x (RE.seq y RE.eps)) i = _
  rw [mE_seq]
  apply List.flatMap_congr
  intro e _
  rw [mE_seq, flatMap_eps]

theorem cat3_ends (ci : Bool) (s : List Char) (x y z : RE) (i : Nat) :
    matchEnds ci s (cat [x, y, z]) i =
      (matchEnds ci s x i).flatMap (fun e1 =>
        (matchEnds ci s y e1).flatMap (fun e2 => matchEnds ci s z e2)) := by
  show matchEnds ci s (RE.seq x (RE.seq y (RE.seq z RE.eps))) i = _
  rw [mE_seq]
  apply List.flatMap_congr
  intro e1 _
  rw [mE_seq]
  apply List.flatMap_congr
  intro e2 _
  rw [mE_seq, flatMap_eps]

theorem altL3_ends (ci : Bool) (s : List Char) (x y z : RE) (i : Nat) :
    matchEnds ci s (altL [x, y, z]) i =
      matchEnds ci s x i ++ (matchEnds ci s y i ++ matchEnds ci s z i) := by
  show matchEnds ci s (RE.alt x (RE.alt y (RE.alt z RE.fail))) i = _
  rw [mE_alt, mE_alt, mE_alt, mE_fail, List.append_nil]

theorem digit_ne {p c : Char} (hp : p.isDigit = true) (hc : c.isDigit = false) :
    p ≠ c := by
  intro h
  rw [h, hc] at hp
  cases hp

theorem flatMap_single (f : Nat → List Nat) (x : Nat) :
    [x].flatMap f = f x := by simp

theorem flatMap_pair (f : Nat → List Nat) (x y : Nat) :
    [x, y].flatMap f = f x ++ f y := by simp

/-- The greedy (first-reported) match of the octet sub-pattern on an octet
token followed by a non-digit (or nothing) consumes exactly the token. -/
theorem octet_head (tok rest : List Char) (h : isOct tok = true)
    (hrest : digitAt rest 0 = false) :
    (matchEnds false (tok ++ rest) octetRE 0).head? = some tok.length := by
  have hoct : octetRE =
      altL [cat [litS "25", RE.cls (CC.range '0' '5')],
            cat [litS "2", RE.cls (CC.range '0' '4'), RE.cls digitC],
            cat [RE.opt (RE.cls (cc2 '0' '1')), RE.cls digitC,
                 RE.opt (RE.cls digitC)]] := rfl
  cases tok with
  | nil => cases h
  | cons a tok1 =>
  cases tok1 with
  | cons b tok2 =>
    cases tok2 with
    | cons c tok3 =>
      cases tok3 with
      | cons d tok4 => cases h
      | nil =>
        -- three-digit token [a, b, c]
        simp only [isOct, Bool.and_eq_true, Bool.or_eq_true,
          decide_eq_true_eq] at h
        obtain ⟨⟨⟨ha, hb⟩, hc⟩, hdisj⟩ := h
        have hg0 : (a :: b :: c :: rest).get? 0 = some a := rfl
        have hg1 : (a :: b :: c :: rest).get? 1 = some b := rfl
        have hg2 : (a :: b :: c :: rest).get? 2 = some c := rfl
        have hg3 : (a :: b :: c :: rest).get? 3 = rest.get? 0 := rfl
        have hclsB : ∀ (lo hi : Char), '0' ≤ lo → hi ≤ '9' →
            matchEnds false (a :: b :: c :: rest)
              (RE.cls (CC.range lo hi)) 3 = [] := by
          intro lo hi hlo hhi
          rcases hr : rest.get? 0 with _ | c0
          · exact mE_cls_none _ _ _ _ (hg3.trans hr)
          · have hc0 : c0.isDigit = false := by
              unfold digitAt at hrest
              rw [hr] at hrest
              exact hrest
            exact cls_no _ _ _ _ c0 (hg3.trans hr)
              (by rw [memCase_false]
                  exact range_not_mem_of_not_digit hlo hhi hc0)
        show (matchEnds false (a :: b :: c :: rest) octetRE 0).head? = some 3
        rw [hoct, altL3_ends]
        rcases hdisj with ((⟨⟨ha2, hb5⟩, hc5⟩ | ⟨ha2, hb4⟩) | ha0) | ha1
        · -- 25x with x ≤ 5: the first alternative wins whole
          have hlit : litAt false (a :: b :: c :: rest) ['2', '5'] 0 = true := by
            rw [litAt_cons_some _ _ _ _ _ a hg0,
              show charEqCase false '2' a = true from by
                rw [ha2]; exact charEq_refl '2',
              litAt_cons_some _ _ _ _ _ b hg1,
              show charEqCase false '5' b = true from by
                rw [hb5]; exact charEq_refl '5']
            rfl
          have hA1 : matchEnds false (a :: b :: c :: rest)
              (cat [litS "25", RE.cls (CC.range '0' '5')]) 0 = [3] := by
            rw [cat2_ends, show litS "25" = RE.lit ['2', '5'] from rfl,
              lit_yes _ _ _ _ hlit,
              show (0 + List.length ['2', '5'] : Nat) = 2 from rfl,
              flatMap_single,
              cls_yes _ _ _ _ c hg2 (by
                rw [memCase_false]
                refine mem_range_iff.2 ⟨?_, hc5⟩
                rw [char_le_iff]
                have := isDigit_iff.1 hc
                have h0 : ('0' : Char).val.toNat = 48 := by decide
                omega)]
          rw [hA1]
          rfl
        · -- 2yx with y ≤ 4: the second alternative wins whole
          have hA1 : matchEnds false (a :: b :: c :: rest)
              (cat [litS "25", RE.cls (CC.range '0' '5')]) 0 = [] := by
            have hb5 : b ≠ '5' := by
              intro hh
              rw [hh] at hb4
              exact absurd hb4 (by decide)
            have hlit : litAt false (a :: b :: c :: rest) ['2', '5'] 0 = false := by
              rw [litAt_cons_some _ _ _ _ _ a hg0,
                show charEqCase false '2' a = true from by
                  rw [ha2]; exact charEq_refl '2',
                litAt_cons_some _ _ _ _ _ b hg1,
                charEq_of_ne (fun hh => hb5 hh.symm)]
              rfl
            rw [cat2_ends, show litS "25" = RE.lit ['2', '5'] from rfl,
              lit_nil _ _ _ _ hlit]
            rfl
          have hA2 : matchEnds false (a :: b :: c :: rest)
              (cat [litS "2", RE.cls (CC.range '0' '4'), RE.cls digitC]) 0 =
              [3] := by
            have hlit : litAt false (a :: b :: c :: rest) ['2'] 0 = true := by
              rw [litAt_cons_some _ _ _ _ _ a hg0,
                show charEqCase false '2' a = true from by
                  rw [ha2]; exact charEq_refl '2']
              rfl
            rw [cat3_ends, show litS "2" = RE.lit ['2'] from rfl,
              lit_yes _ _ _ _ hlit,
              show (0 + List.length ['2'] : Nat) = 1 from rfl,
              flatMap_single,
              cls_yes _ _ _ _ b hg1 (by
                rw [memCase_false]
                refine mem_range_iff.2 ⟨?_, hb4⟩
                rw [char_le_iff]
                have := isDigit_iff.1 hb
                have h0 : ('0' : Char).val.toNat = 48 := by decide
                omega),
              show ((1 : Nat) + 1) = 2 from rfl,
              flatMap_single,
              cls_yes _ _ _ _ c hg2 (by
                rw [memCase_false]
                exact mem_digitC_of_digit hc)]
          rw [hA1, hA2, List.nil_append]
          rfl
        · -- 0xx: the third alternative wins whole
          have hne2 : a ≠ '2' := by rw [ha0]; decide
          have hA1 : matchEnds false (a :: b :: c :: rest)
              (cat [litS "25", RE.cls (CC.range '0' '5')]) 0 = [] := by
            rw [cat2_ends, show litS "25" = RE.lit ['2', '5'] from rfl,
              lit_nil _ _ _ _ (by
                rw [litAt_cons_some _ _ _ _ _ a hg0,
                  charEq_of_ne (fun hh => hne2 hh.symm)]
                rfl)]
            rfl
          have hA2 : matchEnds false (a :: b :: c :: rest)
              (cat [litS "2", RE.cls (CC.range '0' '4'), RE.cls digitC]) 0 =
              [] := by
            rw [cat3_ends, show litS "2" = RE.lit ['2'] from rfl,
              lit_nil _ _ _ _ (by
                rw [litAt_cons_some _ _ _ _ _ a hg0,
                  charEq_of_ne (fun hh => hne2 hh.symm)]
                rfl)]
            rfl
          rw [hA1, hA2, List.nil_append, List.nil_append, cat3_ends, opt_ends,
            cls_yes _ _ _ _ a hg0 (by
              rw [memCase_false, ha0]
              decide),
            show ((0 : Nat) + 1) = 1 from rfl,
            List.flatMap_append, flatMap_single, flatMap_single,
            cls_yes _ _ _ _ b hg1 (by
              rw [memCase_false]; exact mem_digitC_of_digit hb),
            show ((1 : Nat) + 1) = 2 from rfl,
            flatMap_single, opt_ends,
            cls_yes _ _ _ _ c hg2 (by
              rw [memCase_false]; exact mem_digitC_of_digit hc)]
          rfl
        · -- 1xx: same as 0xx
          have hne2 : a ≠ '2' := by rw [ha1]; decide
          have hA1 : matchEnds false (a :: b :: c :: rest)
              (cat [litS "25", RE.cls (CC.range '0' '5')]) 0 = [] := by
            rw [cat2_ends, show litS "25" = RE.lit ['2', '5'] from rfl,
              lit_nil _ _ _ _ (by
                rw [litAt_cons_some _ _ _ _ _ a hg0,
                  charEq_of_ne (fun hh => hne2 hh.symm)]
                rfl)]
            rfl
          have hA2 : matchEnds false (a :: b :: c :: rest)
              (cat [litS "2", RE.cls (CC.range '0' '4'), RE.cls digitC]) 0 =
              [] := by
            rw [cat3_ends, show litS "2" = RE.lit ['2'] from rfl,
              lit_nil _ _ _ _ (by
                rw [litAt_cons_some _ _ _ _ _ a hg0,
                  charEq_of_ne (fun hh => hne2 hh.symm)]
                rfl)]
            rfl
          rw [hA1, hA2, List.nil_append, List.nil_append, cat3_ends, opt_ends,
            cls_yes _ _ _ _ a hg0 (by
              rw [memCase_false, ha1]
              decide),
            show ((0 : Nat) + 1) = 1 from rfl,
            List.flatMap_append, flatMap_single, flatMap_single,
            cls_yes _ _ _ _ b hg1 (by
              rw [memCase_false]; exact mem_digitC_of_digit hb),
            show ((1 : Nat) + 1) = 2 from rfl,
            flatMap_single, opt_ends,
            cls_yes _ _ _ _ c hg2 (by
              rw [memCase_false]; exact mem_digitC_of_digit hc)]
          rfl
    | nil =>
      -- two-digit token [a, b]
      simp only [isOct, Bool.and_eq_true] at h
      obtain ⟨ha, hb⟩ := h
      have hg0 : (a :: b :: rest).get? 0 = some a := rfl
      have hg1 : (a :: b :: rest).get? 1 = some b := rfl
      have hg2 : (a :: b :: rest).get? 2 = rest.get? 0 := rfl
      have hndB : ∀ c0, rest.get? 0 = some c0 → c0.isDigit = false := by
        intro c0 hr
        unfold digitAt at hrest
        rw [hr] at hrest
        exact hrest
      have hclsB : ∀ (lo hi : Char), '0' ≤ lo → hi ≤ '9' →
          matchEnds false (a :: b :: rest)
            (RE.cls (CC.range lo hi)) 2 = [] := by
        intro lo hi hlo hhi
        rcases hr : rest.get? 0 with _ | c0
        · exact mE_cls_none _ _ _ _ (hg2.trans hr)
        · exact cls_no _ _ _ _ c0 (hg2.trans hr)
            (by rw [memCase_false]
                exact range_not_mem_of_not_digit hlo hhi (hndB c0 hr))
      have h2dig : matchEnds false (a :: b :: rest) (RE.cls digitC) 2 = [] :=
        hclsB '0' '9' (by decide) (by decide)
      have hlitB : ∀ (p : Char), p.isDigit = true → ∀ ps,
          litAt false (a :: b :: rest) (p :: ps) 2 = false := by
        intro p hp ps
        rcases hr : rest.get? 0 with _ | c0
        · exact litAt_cons_none _ _ _ _ _ (hg2.trans hr)
        · rw [litAt_cons_some _ _ _ _ _ c0 (hg2.trans hr),
            charEq_of_ne (digit_ne hp (hndB c0 hr))]
          rfl
      show (matchEnds false (a :: b :: rest) octetRE 0).head? = some 2
      rw [hoct, altL3_ends]
      have hA1 : matchEnds false (a :: b :: rest)
          (cat [litS "25", RE.cls (CC.range '0' '5')]) 0 = [] := by
        rw [cat2_ends, show litS "25" = RE.lit ['2', '5'] from rfl]
        by_cases ha2 : a = '2'
        · by_cases hb5 : b = '5'
          · rw [lit_yes _ _ _ _ (by
                rw [litAt_cons_some _ _ _ _ _ a hg0,
                  show charEqCase false '2' a = true from by
                    rw [ha2]; exact charEq_refl '2',
                  litAt_cons_some _ _ _ _ _ b hg1,
                  show charEqCase false '5' b = true from by
                    rw [hb5]; exact charEq_refl '5']
                rfl),
              show (0 + List.length ['2', '5'] : Nat) = 2 from rfl,
              flatMap_single, hclsB '0' '5' (by decide) (by decide)]
          · rw [lit_nil _ _ _ _ (by
                rw [litAt_cons_some _ _ _ _ _ a hg0,
                  show charEqCase false '2' a = true from by
                    rw [ha2]; exact charEq_refl '2',
                  litAt_cons_some _ _ _ _ _ b hg1,
                  charEq_of_ne (fun hh => hb5 hh.symm)]
                rfl)]
            rfl
        · rw [lit_nil _ _ _ _ (by
              rw [litAt_cons_some _ _ _ _ _ a hg0,
                charEq_of_ne (fun hh => ha2 hh.symm)]
              rfl)]
          rfl
      have hA2 : matchEnds false (a :: b :: rest)
          (cat [litS "2", RE.cls (CC.range '0' '4'), RE.cls digitC]) 0 = [] := by
        rw [cat3_ends, show litS "2" = RE.lit ['2'] from rfl]
        by_cases ha2 : a = '2'
        · rw [lit_yes _ _ _ _ (by
              rw [litAt_cons_some _ _ _ _ _ a hg0,
                show charEqCase false '2' a = true from by
                  rw [ha2]; exact charEq_refl '2']
              rfl),
            show (0 + List.length ['2'] : Nat) = 1 from rfl,
            flatMap_single]
          by_cases hb4 : (CC.range '0' '4').mem b = true
          · rw [cls_yes _ _ _ _ b hg1 (by rw [memCase_false]; exact hb4),
              show ((1 : Nat) + 1) = 2 from rfl,
              flatMap_single, h2dig]
          · rw [cls_no _ _ _ _ b hg1 (by
                rw [memCase_false]
                rw [Bool.eq_false_iff]
                exact hb4)]
            rfl
        · rw [lit_nil _ _ _ _ (by
              rw [litAt_cons_some _ _ _ _ _ a hg0,
                charEq_of_ne (fun hh => ha2 hh.symm)]
              rfl)]
          rfl
      rw [hA1, hA2, List.nil_append, List.nil_append, cat3_ends, opt_ends]
      have h09a : matchEnds false (a :: b :: rest) (RE.cls digitC) 0 = [1] :=
        cls_yes _ _ _ _ a hg0 (by
          rw [memCase_false]; exact mem_digitC_of_digit ha)
      have h09b : matchEnds false (a :: b :: rest) (RE.cls digitC) 1 = [2] :=
        cls_yes _ _ _ _ b hg1 (by
          rw [memCase_false]; exact mem_digitC_of_digit hb)
      have h09B : matchEnds false (a :: b :: rest) (RE.cls digitC) 2 = [] :=
        hclsB '0' '9' (by decide) (by decide)
      have hoptB : matchEnds false (a :: b :: rest)
          (RE.opt (RE.cls digitC)) 2 = [2] := by
        rw [opt_ends, h09B]
        rfl
      by_cases h01 : (cc2 '0' '1').mem a = true
      · rw [cls_yes _ _ _ _ a hg0 (by rw [memCase_false]; exact h01),
          show ((0 : Nat) + 1) = 1 from rfl, List.flatMap_append,
          flatMap_single, flatMap_single, h09b, flatMap_single, hoptB, h09a,
          flatMap_single, opt_ends, h09b]
        rfl
      · rw [cls_no _ _ _ _ a hg0 (by
            rw [memCase_false, Bool.eq_false_iff]
            exact h01),
          List.nil_append, flatMap_single, h09a, flatMap_single, opt_ends,
          h09b]
        rfl
  | nil =>
    -- one-digit token [a]
    simp only [isOct] at h
    have hg0 : (a :: rest).get? 0 = some a := rfl
    have hg1 : (a :: rest).get? 1 = rest.get? 0 := rfl
    have hndB : ∀ c0, rest.get? 0 = some c0 → c0.isDigit = false := by
      intro c0 hr
      unfold digitAt at hrest
      rw [hr] at hrest
      exact hrest
    have hclsB : ∀ (lo hi : Char), '0' ≤ lo → hi ≤ '9' →
        matchEnds false (a :: rest) (RE.cls (CC.range lo hi)) 1 = [] := by
      intro lo hi hlo hhi
      rcases hr : rest.get? 0 with _ | c0
      · exact mE_cls_none _ _ _ _ (hg1.trans hr)
      · exact cls_no _ _ _ _ c0 (hg1.trans hr)
          (by rw [memCase_false]
              exact range_not_mem_of_not_digit hlo hhi (hndB c0 hr))
    show (matchEnds false (a :: rest) octetRE 0).head? = some 1
    rw [hoct, altL3_ends]
    have hA1 : matchEnds false (a :: rest)
        (cat [litS "25", RE.cls (CC.range '0' '5')]) 0 = [] := by
      rw [cat2_ends, show litS "25" = RE.lit ['2', '5'] from rfl]
      by_cases ha2 : a = '2'
      · rw [lit_nil _ _ _ _ (by
            rw [litAt_cons_some _ _ _ _ _ a hg0,
              show charEqCase false '2' a = true from by
                rw [ha2]; exact charEq_refl '2']
            rcases hr : rest.get? 0 with _ | c0
            · rw [litAt_cons_none _ _ _ _ _ (hg1.trans hr)]
              rfl
            · rw [litAt_cons_some _ _ _ _ _ c0 (hg1.trans hr),
                charEq_of_ne (digit_ne (by decide) (hndB c0 hr))]
              rfl)]
        rfl
      · rw [lit_nil _ _ _ _ (by
            rw [litAt_cons_some _ _ _ _ _ a hg0,
              charEq_of_ne (fun hh => ha2 hh.symm)]
            rfl)]
        rfl
    have hA2 : matchEnds false (a :: rest)
        (cat [litS "2", RE.cls (CC.range '0' '4'), RE.cls digitC]) 0 = [] := by
      rw [cat3_ends, show litS "2" = RE.lit ['2'] from rfl]
      by_cases ha2 : a = '2'
      · rw [lit_yes _ _ _ _ (by
            rw [litAt_cons_some _ _ _ _ _ a hg0,
              show charEqCase false '2' a = true from by
                rw [ha2]; exact charEq_refl '2']
            rfl),
          show (0 + List.length ['2'] : Nat) = 1 from rfl,
          flatMap_single, hclsB '0' '4' (by decide) (by decide)]
        rfl
      · rw [lit_nil _ _ _ _ (by
            rw [litAt_cons_some _ _ _ _ _ a hg0,
              charEq_of_ne (fun hh => ha2 hh.symm)]
            rfl)]
        rfl
    rw [hA1, hA2, List.nil_append, List.nil_append, cat3_ends, opt_ends]
    have h09a : matchEnds false (a :: rest) (RE.cls digitC) 0 = [1] :=
      cls_yes _ _ _ _ a hg0 (by
        rw [memCase_false]; exact mem_digitC_of_digit h)
    have h09B : matchEnds false (a :: rest) (RE.cls digitC) 1 = [] :=
      hclsB '0' '9' (by decide) (by decide)
    have hoptB : matchEnds false (a :: rest) (RE.opt (RE.cls digitC)) 1 =
        [1] := by
      rw [opt_ends, h09B]
      rfl
    by_cases h01 : (cc2 '0' '1').mem a = true
    · rw [cls_yes _ _ _ _ a hg0 (by rw [memCase_false]; exact h01),
        show ((0 : Nat) + 1) = 1 from rfl, List.flatMap_append,
        flatMap_single, flatMap_single, h09B, h09a, flatMap_single, hoptB]
      rfl
    · rw [cls_no _ _ _ _ a hg0 (by
          rw [memCase_false, Bool.eq_false_iff]
          exact h01),
        List.nil_append, flatMap_single, h09a, flatMap_single, hoptB]
      rfl

/-! ### Word boundaries and token facts -/

theorem isWordJS_of_digit {c : Char} (h : c.isDigit = true) :
    isWordJS c = true := by
  obtain ⟨h1, h2⟩ := isDigit_iff.1 h
  unfold isWordJS
  have g1 : ('0' : Char) ≤ c := char_le_iff.2 (by simpa using h1)
  have g2 : c ≤ ('9' : Char) := char_le_iff.2 (by simpa using h2)
  rw [show (('0' ≤ c : Bool) && (c ≤ '9' : Bool)) = true from by
    simp [g1, g2]]
  simp

theorem digit_not_word_ne {c d : Char} (hc : c.isDigit = true)
    (hd : isWordJS d = false) : c ≠ d := by
  intro h
  rw [h] at hc
  rw [isWordJS_of_digit hc] at hd
  cases hd

theorem wordBoundary_zero (s : List Char) :
    wordBoundary s 0 = wordAt s 0 := by
  unfold wordBoundary
  simp

theorem wordBoundary_mid (s : List Char) (i : Nat) (h0 : 0 < i) (d : Char)
    (hprev : s.get? (i - 1) = some d) (hd : d.isDigit = true)
    (hcur : wordAt s i = false) : wordBoundary s i = true := by
  unfold wordBoundary
  rw [hcur]
  have : wordAt s (i - 1) = true := by
    unfold wordAt
    rw [hprev]
    exact isWordJS_of_digit hd
  rw [this, decide_eq_true (by omega : i ≠ 0)]
  rfl

theorem wordAt_append (u v : List Char) (j : Nat) :
    wordAt (u ++ v) (u.length + j) = wordAt v j := by
  unfold wordAt
  rw [List.get?_append_right (by omega),
    show u.length + j - u.length = j by omega]

theorem isOct_shape (l : List Char) (h : isOct l = true) :
    0 < l.length ∧ l.length ≤ 3 ∧
      (∃ a, l.get? 0 = some a ∧ a.isDigit = true) ∧
      (∃ z, l.get? (l.length - 1) = some z ∧ z.isDigit = true) := by
  match l with
  | [a] =>
    simp only [isOct] at h
    exact ⟨by simp, by simp, ⟨a, rfl, h⟩, ⟨a, rfl, h⟩⟩
  | [a, b] =>
    simp only [isOct, Bool.and_eq_true] at h
    exact ⟨by simp, by simp, ⟨a, rfl, h.1⟩, ⟨b, rfl, h.2⟩⟩
  | [a, b, c] =>
    simp only [isOct, Bool.and_eq_true] at h
    exact ⟨by simp, by simp, ⟨a, rfl, h.1.1.1⟩, ⟨c, rfl, h.1.2⟩⟩
  | [] => cases h
  | a :: b :: c :: d :: t => cases h

theorem isMaskTok_shape (l : List Char) (h : isMaskTok l = true) :
    0 < l.length ∧ l.length ≤ 2 := by
  match l with
  | [a] => exact ⟨by simp, by simp⟩
  | [a, b] => exact ⟨by simp, by simp⟩
  | [] => cases h
  | a :: b :: c :: t => cases h

/-- A separator marker of the Defanged-IP pattern. -/
theorem sep_head (m rest : List Char)
    (hm : m = ".".data ∨ m = "[.]".data ∨ m = "(.)".data) :
    (matchEnds false (m ++ rest) defangSepRE 0).head? = some m.length := by
  rcases hm with rfl | rfl | rfl
  · have h1 : (matchEnds false ('.' :: rest)
        (RE.alt (RE.lit ['.']) (RE.alt (RE.lit ['[', '.', ']'])
          (RE.alt (RE.lit ['(', '.', ')']) RE.fail))) 0).head? = some 1 := by
      rw [mE_alt,
        lit_yes _ _ _ _ (show litAt false ('.' :: rest) ['.'] 0 = true from rfl)]
      rfl
    exact h1
  · have h1 : (matchEnds false ('[' :: '.' :: ']' :: rest)
        (RE.alt (RE.lit ['.']) (RE.alt (RE.lit ['[', '.', ']'])
          (RE.alt (RE.lit ['(', '.', ')']) RE.fail))) 0).head? = some 3 := by
      rw [mE_alt,
        lit_nil _ _ _ _
          (show litAt false ('[' :: '.' :: ']' :: rest) ['.'] 0 = false from rfl),
        List.nil_append, mE_alt,
        lit_yes _ _ _ _
          (show litAt false ('[' :: '.' :: ']' :: rest) ['[', '.', ']'] 0 = true
            from rfl)]
      rfl
    exact h1
  · have h1 : (matchEnds false ('(' :: '.' :: ')' :: rest)
        (RE.alt (RE.lit ['.']) (RE.alt (RE.lit ['[', '.', ']'])
          (RE.alt (RE.lit ['(', '.', ')']) RE.fail))) 0).head? = some 3 := by
      rw [mE_alt,
        lit_nil _ _ _ _
          (show litAt false ('(' :: '.' :: ')' :: rest) ['.'] 0 = false from rfl),
        List.nil_append, mE_alt,
        lit_nil _ _ _ _
          (show litAt false ('(' :: '.' :: ')' :: rest) ['[', '.', ']'] 0 = false
            from rfl),
        List.nil_append, mE_alt,
        lit_yes _ _ _ _
          (show litAt false ('(' :: '.' :: ')' :: rest) ['(', '.', ')'] 0 = true
            from rfl)]
      rfl
    exact h1

theorem sep_first_not_digit (m rest : List Char)
    (hm : m = ".".data ∨ m = "[.]".data ∨ m = "(.)".data) :
    digitAt (m ++ rest) 0 = false := by
  rcases hm with rfl | rfl | rfl <;> rfl

/-- One `(octet)(separator)` unit, greedily. -/
theorem octSep_head (o m rest : List Char) (ho : isOct o = true)
    (hm : m = ".".data ∨ m = "[.]".data ∨ m = "(.)".data) :
    (matchEnds false (o ++ (m ++ rest)) (RE.seq octetRE defangSepRE) 0).head? =
      some (o.length + m.length) := by
  apply head_seq false _ octetRE defangSepRE 0 o.length
  · exact octet_head o (m ++ rest) ho (sep_first_not_digit m rest hm)
  · rw [show o.length = o.length + 0 by omega]
    have := head_shift false o (m ++ rest) defangSepRE m.length
      (by decide) (sep_head m rest hm)
    rw [Nat.add_zero]
    exact this

theorem digitAt_false_of_wordAt_false (s : List Char) (i : Nat)
    (h : wordAt s i = false) : digitAt s i = false := by
  unfold wordAt at h
  unfold digitAt
  cases hg : s.get? i with
  | none => rfl
  | some c =>
    rw [hg] at h
    have h2 : isWordJS c = false := h
    show c.isDigit = false
    cases hd : c.isDigit with
    | false => rfl
    | true => rw [isWordJS_of_digit hd] at h2; cases h2

theorem wordAt_append_left (u v : List Char) (j : Nat) (h : j < u.length) :
    wordAt (u ++ v) j = wordAt u j := by
  unfold wordAt
  rw [List.get?_append h]

theorem get?_last_append (w v : List Char) (z : Char) (hv : 0 < v.length)
    (hz : v.get? (v.length - 1) = some z) :
    (w ++ v).get? ((w ++ v).length - 1) = some z := by
  rw [List.length_append, List.get?_append_right (by omega),
    show w.length + v.length - 1 - w.length = v.length - 1 from by omega]
  exact hz

/-- A word boundary sits right after a digit-final token when what follows
starts with a non-word character (or nothing). -/
theorem wb_after (u v : List Char) (z : Char) (h0 : 0 < u.length)
    (hzu : u.get? (u.length - 1) = some z) (hz : z.isDigit = true)
    (hw : wordAt v 0 = false) : wordBoundary (u ++ v) u.length = true := by
  have hcur : wordAt (u ++ v) u.length = false := by
    have h := wordAt_append u v 0
    rw [Nat.add_zero] at h
    rw [h]
    exact hw
  exact wordBoundary_mid (u ++ v) u.length (by omega) z
    (by rw [List.get?_append (by omega)]; exact hzu) hz hcur

/-- The greedy match of the Defanged-IP pattern on a well-formed
octet/marker quad consumes the whole quad. -/
theorem defangedIP_head (o1 m1 o2 m2 o3 m3 o4 tail : List Char)
    (h1 : isOct o1 = true) (h2 : isOct o2 = true) (h3 : isOct o3 = true)
    (h4 : isOct o4 = true)
    (hm1 : m1 = ".".data ∨ m1 = "[.]".data ∨ m1 = "(.)".data)
    (hm2 : m2 = ".".data ∨ m2 = "[.]".data ∨ m2 = "(.)".data)
    (hm3 : m3 = ".".data ∨ m3 = "[.]".data ∨ m3 = "(.)".data)
    (hw : wordAt tail 0 = false) :
    (matchEnds false (o1 ++ (m1 ++ (o2 ++ (m2 ++ (o3 ++ (m3 ++ (o4 ++ tail)))))))
        defangedIPRE 0).head? =
      some (o1.length + m1.length + (o2.length + m2.length) +
        (o3.length + m3.length) + o4.length) := by
  obtain ⟨h1pos, -, ⟨a1, ha1, ha1d⟩, -⟩ := isOct_shape o1 h1
  obtain ⟨h4pos, -, -, ⟨z4, hz4, hz4d⟩⟩ := isOct_shape o4 h4
  have hX1 : (matchEnds false
      (o1 ++ (m1 ++ (o2 ++ (m2 ++ (o3 ++ (m3 ++ (o4 ++ tail)))))))
      (RE.seq octetRE defangSepRE) 0).head? = some (o1.length + m1.length) :=
    octSep_head o1 m1 (o2 ++ (m2 ++ (o3 ++ (m3 ++ (o4 ++ tail))))) h1 hm1
  have hX2 : (matchEnds false
      (o1 ++ (m1 ++ (o2 ++ (m2 ++ (o3 ++ (m3 ++ (o4 ++ tail)))))))
      (RE.seq octetRE defangSepRE) (o1.length + m1.length)).head? =
      some (o1.length + m1.length + (o2.length + m2.length)) := by
    have h := head_shift false (o1 ++ m1)
      (o2 ++ (m2 ++ (o3 ++ (m3 ++ (o4 ++ tail)))))
      (RE.seq octetRE defangSepRE) (o2.length + m2.length) (by decide)
      (octSep_head o2 m2 (o3 ++ (m3 ++ (o4 ++ tail))) h2 hm2)
    simp only [List.append_assoc, List.length_append] at h
    exact h
  have hX3 : (matchEnds false
      (o1 ++ (m1 ++ (o2 ++ (m2 ++ (o3 ++ (m3 ++ (o4 ++ tail)))))))
      (RE.seq octetRE defangSepRE)
      (o1.length + m1.length + (o2.length + m2.length))).head? =
      some (o1.length + m1.length + (o2.length + m2.length) +
        (o3.length + m3.length)) := by
    have h := head_shift false ((o1 ++ m1) ++ (o2 ++ m2))
      (o3 ++ (m3 ++ (o4 ++ tail)))
      (RE.seq octetRE defangSepRE) (o3.length + m3.length) (by decide)
      (octSep_head o3 m3 (o4 ++ tail) h3 hm3)
    simp only [List.append_assoc, List.length_append] at h
    rw [show o1.length + (m1.length + (o2.length + m2.length)) =
      o1.length + m1.length + (o2.length + m2.length) from by omega] at h
    exact h
  have hX4 : (matchEnds false
      (o1 ++ (m1 ++ (o2 ++ (m2 ++ (o3 ++ (m3 ++ (o4 ++ tail)))))))
      octetRE
      (o1.length + m1.length + (o2.length + m2.length) +
        (o3.length + m3.length))).head? =
      some (o1.length + m1.length + (o2.length + m2.length) +
        (o3.length + m3.length) + o4.length) := by
    have h := head_shift false (((o1 ++ m1) ++ (o2 ++ m2)) ++ (o3 ++ m3))
      (o4 ++ tail) octetRE o4.length (by decide)
      (octet_head o4 tail h4 (digitAt_false_of_wordAt_false tail 0 hw))
    simp only [List.append_assoc, List.length_append] at h
    rw [show o1.length + (m1.length + (o2.length + (m2.length +
        (o3.length + m3.length)))) =
      o1.length + m1.length + (o2.length + m2.length) +
        (o3.length + m3.length) from by omega] at h
    exact h
  have hbnd : wordBoundary
      (o1 ++ (m1 ++ (o2 ++ (m2 ++ (o3 ++ (m3 ++ (o4 ++ tail)))))))
      (o1.length + m1.length + (o2.length + m2.length) +
        (o3.length + m3.length) + o4.length) = true := by
    have hb := wb_after ((((((o1 ++ m1) ++ o2) ++ m2) ++ o3) ++ m3) ++ o4)
      tail z4 (by simp only [List.length_append]; omega)
      (get?_last_append (((((o1 ++ m1) ++ o2) ++ m2) ++ o3) ++ m3) o4 z4
        h4pos hz4) hz4d hw
    rw [show ((((((o1 ++ m1) ++ o2) ++ m2) ++ o3) ++ m3) ++ o4) ++ tail =
        o1 ++ (m1 ++ (o2 ++ (m2 ++ (o3 ++ (m3 ++ (o4 ++ tail)))))) from by
          simp [List.append_assoc],
      show ((((((o1 ++ m1) ++ o2) ++ m2) ++ o3) ++ m3) ++ o4).length =
        o1.length + m1.length + (o2.length + m2.length) +
          (o3.length + m3.length) + o4.length from by
          simp only [List.length_append]; omega] at hb
    exact hb
  have hWBend : (matchEnds false
      (o1 ++ (m1 ++ (o2 ++ (m2 ++ (o3 ++ (m3 ++ (o4 ++ tail)))))))
      (RE.seq RE.wb RE.eps)
      (o1.length + m1.length + (o2.length + m2.length) +
        (o3.length + m3.length) + o4.length)).head? =
      some (o1.length + m1.length + (o2.length + m2.length) +
        (o3.length + m3.length) + o4.length) := by
    rw [mE_seq, wb_yes _ _ _ hbnd, flatMap_single, mE_eps]
    rfl
  have hWB0 : (matchEnds false
      (o1 ++ (m1 ++ (o2 ++ (m2 ++ (o3 ++ (m3 ++ (o4 ++ tail)))))))
      RE.wb 0).head? = some 0 := by
    have hb : wordBoundary
        (o1 ++ (m1 ++ (o2 ++ (m2 ++ (o3 ++ (m3 ++ (o4 ++ tail))))))) 0 = true := by
      rw [wordBoundary_zero, wordAt_append_left o1 _ 0 h1pos]
      unfold wordAt
      rw [ha1]
      exact isWordJS_of_digit ha1d
    rw [wb_yes _ _ _ hb]
    rfl
  have hEps3 : (matchEnds false
      (o1 ++ (m1 ++ (o2 ++ (m2 ++ (o3 ++ (m3 ++ (o4 ++ tail)))))))
      RE.eps
      (o1.length + m1.length + (o2.length + m2.length) +
        (o3.length + m3.length))).head? =
      some (o1.length + m1.length + (o2.length + m2.length) +
        (o3.length + m3.length)) := by
    rw [mE_eps]
    rfl
  have hREP3 : (matchEnds false
      (o1 ++ (m1 ++ (o2 ++ (m2 ++ (o3 ++ (m3 ++ (o4 ++ tail)))))))
      (RE.rep (RE.seq octetRE defangSepRE) 3) 0).head? =
      some (o1.length + m1.length + (o2.length + m2.length) +
        (o3.length + m3.length)) :=
    head_seq _ _ _ _ _ _ _ hX1
      (head_seq _ _ _ _ _ _ _ hX2 (head_seq _ _ _ _ _ _ _ hX3 hEps3))
  exact head_seq _ _ _ _ _ _ _ hWB0
    (head_seq _ _ _ _ _ _ _ hREP3 (head_seq _ _ _ _ _ _ _ hX4 hWBend))

/-! ### A scan with exactly one match -/

theorem matchEnds_nil_pos (ci : Bool) (re : RE) (s : List Char) (i : Nat)
    (hml : 0 < minLen re) (h : s.length < i + minLen re) :
    matchEnds ci s re i = [] := by
  cases hme : matchEnds ci s re i with
  | nil => rfl
  | cons e t =>
    have hmem : e ∈ matchEnds ci s re i := by
      rw [hme]; exact List.mem_cons_self e t
    have h1 := minLen_sound ci s re i e hmem
    have h2 := matchEnds_le_len ci s re i e hmem (by omega)
    omega

theorem scanFromAux_hit (ci : Bool) (re : RE) (s : List Char) (k i e : Nat)
    (hi : i ≤ s.length) (h : firstEnd ci re s i = some e) :
    scanFromAux ci re s (k + 1) i = some (i, e) := by
  unfold scanFromAux
  rw [if_pos hi, h]

theorem matchAllAux_nil (ci : Bool) (re : RE) (s : List Char) (i : Nat)
    (h : scanFrom ci re s i = none) :
    ∀ k, matchAllAux ci re s k i = [] := by
  intro k
  cases k with
  | zero => rfl
  | succ k =>
    unfold matchAllAux
    rw [h]

/-- If the pattern matches greedily at 0 up to `e` and nowhere at or past
`e`, the global scan reports exactly that one match. -/
theorem matchAll_single (ci : Bool) (re : RE) (s : List Char) (e : Nat)
    (he : 0 < e) (h0 : (matchEnds ci s re 0).head? = some e)
    (hafter : ∀ i, e ≤ i → matchEnds ci s re i = []) :
    matchAll ci re s = [slice s 0 e] := by
  have hscan0 : scanFrom ci re s 0 = some (0, e) := by
    unfold scanFrom
    rw [Nat.sub_zero]
    exact scanFromAux_hit ci re s s.length 0 e (Nat.zero_le _)
      (show firstEnd ci re s 0 = some e from h0)
  have hscanE : scanFrom ci re s e = none := by
    unfold scanFrom
    exact scanFromAux_none ci re s e hafter _ e (Nat.le_refl e)
  unfold matchAll matchAllAux
  rw [hscan0]
  show (((0, e) :: matchAllAux ci re s s.length (if 0 < e then e else 0 + 1)).map
    fun pe => slice s pe.1 pe.2) = [slice s 0 e]
  rw [if_pos he, matchAllAux_nil ci re s e hscanE s.length]
  rfl

theorem slice_full (s : List Char) : slice s 0 s.length = s := by
  unfold slice
  rw [Nat.sub_zero, List.drop_zero, List.take_length]

theorem litAt_none (ci : Bool) (s : List Char) (p : Char) (ps : List Char)
    (i : Nat) (h : s.get? i = none) : litAt ci s (p :: ps) i = false := by
  unfold litAt
  rw [h]

/-- An octet token standing alone is consumed entirely. -/
theorem octet_whole (tok : List Char) (h : isOct tok = true) :
    (matchEnds false tok octetRE 0).head? = some tok.length := by
  have h2 := octet_head tok [] h rfl
  rwa [List.append_nil] at h2

/-- One `(octet)(dot)` unit of the plain IPv4 pattern, greedily. -/
theorem octDot_head (o rest : List Char) (ho : isOct o = true) :
    (matchEnds false (o ++ ('.' :: rest)) (RE.seq octetRE (litS ".")) 0).head? =
      some (o.length + 1) := by
  apply head_seq false _ octetRE (litS ".") 0 o.length
  · exact octet_head o ('.' :: rest) ho rfl
  · have h1 : (matchEnds false ('.' :: rest) (litS ".") 0).head? = some 1 := by
      rw [show litS "." = RE.lit ['.'] from rfl,
        lit_yes false ('.' :: rest) ['.'] 0 rfl]
      rfl
    exact head_shift false o ('.' :: rest) (litS ".") 1 (by decide) h1

/-- The greedy match of the plain IPv4 pattern on a whole-string dotted quad
consumes the whole string (the `(?!\/)` lookahead succeeds at the end). -/
theorem ipv4_head (o1 o2 o3 o4 : List Char)
    (h1 : isOct o1 = true) (h2 : isOct o2 = true) (h3 : isOct o3 = true)
    (h4 : isOct o4 = true) :
    (matchEnds false (o1 ++ ('.' :: (o2 ++ ('.' :: (o3 ++ ('.' :: o4))))))
        ipv4RE 0).head? =
      some (o1.length + 1 + (o2.length + 1) + (o3.length + 1) + o4.length) := by
  obtain ⟨h1pos, -, ⟨a1, ha1, ha1d⟩, -⟩ := isOct_shape o1 h1
  obtain ⟨h4pos, -, -, ⟨z4, hz4, hz4d⟩⟩ := isOct_shape o4 h4
  have hX1 : (matchEnds false
      (o1 ++ ('.' :: (o2 ++ ('.' :: (o3 ++ ('.' :: o4))))))
      (RE.seq octetRE (litS ".")) 0).head? = some (o1.length + 1) :=
    octDot_head o1 (o2 ++ ('.' :: (o3 ++ ('.' :: o4)))) h1
  have hX2 : (matchEnds false
      (o1 ++ ('.' :: (o2 ++ ('.' :: (o3 ++ ('.' :: o4))))))
      (RE.seq octetRE (litS ".")) (o1.length + 1)).head? =
      some (o1.length + 1 + (o2.length + 1)) := by
    have h := head_shift false (o1 ++ ['.']) (o2 ++ ('.' :: (o3 ++ ('.' :: o4))))
      (RE.seq octetRE (litS ".")) (o2.length + 1) (by decide)
      (octDot_head o2 (o3 ++ ('.' :: o4)) h2)
    simp only [List.append_assoc, List.cons_append, List.singleton_append,
      List.nil_append, List.length_append, List.length_cons, List.length_nil,
      Nat.zero_add] at h
    exact h
  have hX3 : (matchEnds false
      (o1 ++ ('.' :: (o2 ++ ('.' :: (o3 ++ ('.' :: o4))))))
      (RE.seq octetRE (litS ".")) (o1.length + 1 + (o2.length + 1))).head? =
      some (o1.length + 1 + (o2.length + 1) + (o3.length + 1)) := by
    have h := head_shift false ((o1 ++ ['.']) ++ (o2 ++ ['.']))
      (o3 ++ ('.' :: o4))
      (RE.seq octetRE (litS ".")) (o3.length + 1) (by decide)
      (octDot_head o3 o4 h3)
    simp only [List.append_assoc, List.cons_append, List.singleton_append,
      List.nil_append, List.length_append, List.length_cons, List.length_nil,
      Nat.zero_add] at h
    rw [show o1.length + (o2.length + 1 + 1) =
      o1.length + 1 + (o2.length + 1) from by omega] at h
    exact h
  have hX4 : (matchEnds false
      (o1 ++ ('.' :: (o2 ++ ('.' :: (o3 ++ ('.' :: o4))))))
      octetRE (o1.length + 1 + (o2.length + 1) + (o3.length + 1))).head? =
      some (o1.length + 1 + (o2.length + 1) + (o3.length + 1) + o4.length) := by
    have h := head_shift false (((o1 ++ ['.']) ++ (o2 ++ ['.'])) ++ (o3 ++ ['.']))
      o4 octetRE o4.length (by decide) (octet_whole o4 h4)
    simp only [List.append_assoc, List.cons_append, List.singleton_append,
      List.nil_append, List.length_append, List.length_cons, List.length_nil,
      Nat.zero_add] at h
    rw [show o1.length + (o2.length + (o3.length + 1 + 1) + 1) =
      o1.length + 1 + (o2.length + 1) + (o3.length + 1) from by omega] at h
    exact h
  have hgetE : (o1 ++ ('.' :: (o2 ++ ('.' :: (o3 ++ ('.' :: o4)))))).get?
      (o1.length + 1 + (o2.length + 1) + (o3.length + 1) + o4.length) = none := by
    rw [List.get?_eq_none]
    simp only [List.length_append, List.length_cons]
    omega
  have hNla : matchEnds false
      (o1 ++ ('.' :: (o2 ++ ('.' :: (o3 ++ ('.' :: o4))))))
      (RE.nla (litS "/"))
      (o1.length + 1 + (o2.length + 1) + (o3.length + 1) + o4.length) =
      [o1.length + 1 + (o2.length + 1) + (o3.length + 1) + o4.length] :=
    nla_yes _ _ _ _ (lit_nil _ _ _ _ (litAt_none _ _ _ _ _ hgetE))
  have hprev : (o1 ++ ('.' :: (o2 ++ ('.' :: (o3 ++ ('.' :: o4)))))).get?
      (o1.length + 1 + (o2.length + 1) + (o3.length + 1) + o4.length - 1) =
      some z4 := by
    have hp := get?_last_append (((o1 ++ ['.']) ++ (o2 ++ ['.'])) ++ (o3 ++ ['.']))
      o4 z4 h4pos hz4
    rw [show (((o1 ++ ['.']) ++ (o2 ++ ['.'])) ++ (o3 ++ ['.'])) ++ o4 =
      o1 ++ ('.' :: (o2 ++ ('.' :: (o3 ++ ('.' :: o4))))) from by
        simp [List.append_assoc]] at hp
    rw [show (o1 ++ ('.' :: (o2 ++ ('.' :: (o3 ++ ('.' :: o4)))))).length =
      o1.length + 1 + (o2.length + 1) + (o3.length + 1) + o4.length from by
        simp only [List.length_append, List.length_cons]; omega] at hp
    exact hp
  have hbnd : wordBoundary
      (o1 ++ ('.' :: (o2 ++ ('.' :: (o3 ++ ('.' :: o4))))))
      (o1.length + 1 + (o2.length + 1) + (o3.length + 1) + o4.length) = true := by
    apply wordBoundary_mid _ _ (by omega) z4 hprev hz4d
    unfold wordAt
    rw [hgetE]
  have hWbEnd : (matchEnds false
      (o1 ++ ('.' :: (o2 ++ ('.' :: (o3 ++ ('.' :: o4))))))
      (RE.seq RE.wb RE.eps)
      (o1.length + 1 + (o2.length + 1) + (o3.length + 1) + o4.length)).head? =
      some (o1.length + 1 + (o2.length + 1) + (o3.length + 1) + o4.length) := by
    rw [mE_seq, wb_yes _ _ _ hbnd, flatMap_single, mE_eps]
    rfl
  have hTail : (matchEnds false
      (o1 ++ ('.' :: (o2 ++ ('.' :: (o3 ++ ('.' :: o4))))))
      (RE.seq (RE.nla (litS "/")) (RE.seq RE.wb RE.eps))
      (o1.length + 1 + (o2.length + 1) + (o3.length + 1) + o4.length)).head? =
      some (o1.length + 1 + (o2.length + 1) + (o3.length + 1) + o4.length) :=
    head_seq _ _ _ _ _ _ _ (by rw [hNla]; rfl) hWbEnd
  have hWB0 : (matchEnds false
      (o1 ++ ('.' :: (o2 ++ ('.' :: (o3 ++ ('.' :: o4)))))) RE.wb 0).head? =
      some 0 := by
    have hb : wordBoundary
        (o1 ++ ('.' :: (o2 ++ ('.' :: (o3 ++ ('.' :: o4)))))) 0 = true := by
      rw [wordBoundary_zero, wordAt_append_left o1 _ 0 h1pos]
      unfold wordAt
      rw [ha1]
      exact isWordJS_of_digit ha1d
    rw [wb_yes _ _ _ hb]
    rfl
  have hEps3 : (matchEnds false
      (o1 ++ ('.' :: (o2 ++ ('.' :: (o3 ++ ('.' :: o4)))))) RE.eps
      (o1.length + 1 + (o2.length + 1) + (o3.length + 1))).head? =
      some (o1.length + 1 + (o2.length + 1) + (o3.length + 1)) := by
    rw [mE_eps]
    rfl
  have hREP3 : (matchEnds false
      (o1 ++ ('.' :: (o2 ++ ('.' :: (o3 ++ ('.' :: o4))))))
      (RE.rep (RE.seq octetRE (litS ".")) 3) 0).head? =
      some (o1.length + 1 + (o2.length + 1) + (o3.length + 1)) :=
    head_seq _ _ _ _ _ _ _ hX1
      (head_seq _ _ _ _ _ _ _ hX2 (head_seq _ _ _ _ _ _ _ hX3 hEps3))
  exact head_seq _ _ _ _ _ _ _ hWB0
    (head_seq _ _ _ _ _ _ _ hREP3 (head_seq _ _ _ _ _ _ _ hX4 hTail))

/-- The greedy match of `(?:octet\.){3}` on a dotted quad, and of the final
octet after it, for an arbitrary tail that does not start with a digit. -/
theorem rep3_quad_head (o1 o2 o3 o4 tail : List Char)
    (h1 : isOct o1 = true) (h2 : isOct o2 = true) (h3 : isOct o3 = true)
    (h4 : isOct o4 = true) (hd : digitAt tail 0 = false) :
    (matchEnds false (o1 ++ ('.' :: (o2 ++ ('.' :: (o3 ++ ('.' :: (o4 ++ tail)))))))
        (RE.rep (RE.seq octetRE (litS ".")) 3) 0).head? =
      some (o1.length + 1 + (o2.length + 1) + (o3.length + 1)) ∧
    (matchEnds false (o1 ++ ('.' :: (o2 ++ ('.' :: (o3 ++ ('.' :: (o4 ++ tail)))))))
        octetRE (o1.length + 1 + (o2.length + 1) + (o3.length + 1))).head? =
      some (o1.length + 1 + (o2.length + 1) + (o3.length + 1) + o4.length) := by
  have hX1 : (matchEnds false
      (o1 ++ ('.' :: (o2 ++ ('.' :: (o3 ++ ('.' :: (o4 ++ tail)))))))
      (RE.seq octetRE (litS ".")) 0).head? = some (o1.length + 1) :=
    octDot_head o1 (o2 ++ ('.' :: (o3 ++ ('.' :: (o4 ++ tail))))) h1
  have hX2 : (matchEnds false
      (o1 ++ ('.' :: (o2 ++ ('.' :: (o3 ++ ('.' :: (o4 ++ tail)))))))
      (RE.seq octetRE (litS ".")) (o1.length + 1)).head? =
      some (o1.length + 1 + (o2.length + 1)) := by
    have h := head_shift false (o1 ++ ['.'])
      (o2 ++ ('.' :: (o3 ++ ('.' :: (o4 ++ tail)))))
      (RE.seq octetRE (litS ".")) (o2.length + 1) (by decide)
      (octDot_head o2 (o3 ++ ('.' :: (o4 ++ tail))) h2)
    simp only [List.append_assoc, List.cons_append, List.singleton_append,
      List.nil_append, List.length_append, List.length_cons, List.length_nil,
      Nat.zero_add] at h
    exact h
  have hX3 : (matchEnds false
      (o1 ++ ('.' :: (o2 ++ ('.' :: (o3 ++ ('.' :: (o4 ++ tail)))))))
      (RE.seq octetRE (litS ".")) (o1.length + 1 + (o2.length + 1))).head? =
      some (o1.length + 1 + (o2.length + 1) + (o3.length + 1)) := by
    have h := head_shift false ((o1 ++ ['.']) ++ (o2 ++ ['.']))
      (o3 ++ ('.' :: (o4 ++ tail)))
      (RE.seq octetRE (litS ".")) (o3.length + 1) (by decide)
      (octDot_head o3 (o4 ++ tail) h3)
    simp only [List.append_assoc, List.cons_append, List.singleton_append,
      List.nil_append, List.length_append, List.length_cons, List.length_nil,
      Nat.zero_add] at h
    rw [show o1.length + (o2.length + 1 + 1) =
      o1.length + 1 + (o2.length + 1) from by omega] at h
    exact h
  have hX4 : (matchEnds false
      (o1 ++ ('.' :: (o2 ++ ('.' :: (o3 ++ ('.' :: (o4 ++ tail)))))))
      octetRE (o1.length + 1 + (o2.length + 1) + (o3.length + 1))).head? =
      some (o1.length + 1 + (o2.length + 1) + (o3.length + 1) + o4.length) := by
    have h := head_shift false (((o1 ++ ['.']) ++ (o2 ++ ['.'])) ++ (o3 ++ ['.']))
      (o4 ++ tail) octetRE o4.length (by decide) (octet_head o4 tail h4 hd)
    simp only [List.append_assoc, List.cons_append, List.singleton_append,
      List.nil_append, List.length_append, List.length_cons, List.length_nil,
      Nat.zero_add] at h
    rw [show o1.length + (o2.length + (o3.length + 1 + 1) + 1) =
      o1.length + 1 + (o2.length + 1) + (o3.length + 1) from by omega] at h
    exact h
  refine ⟨?_, hX4⟩
  have hEps3 : (matchEnds false
      (o1 ++ ('.' :: (o2 ++ ('.' :: (o3 ++ ('.' :: (o4 ++ tail))))))) RE.eps
      (o1.length + 1 + (o2.length + 1) + (o3.length + 1))).head? =
      some (o1.length + 1 + (o2.length + 1) + (o3.length + 1)) := by
    rw [mE_eps]
    rfl
  exact head_seq _ _ _ _ _ _ _ hX1
    (head_seq _ _ _ _ _ _ _ hX2 (head_seq _ _ _ _ _ _ _ hX3 hEps3))

theorem wordBoundary_ww (s : List Char) (i : Nat) (h0 : 0 < i) (c d : Char)
    (hp : s.get? (i - 1) = some c) (hcw : isWordJS c = true)
    (hc : s.get? i = some d) (hdw : isWordJS d = true) :
    wordBoundary s i = false := by
  unfold wordBoundary
  have hw1 : wordAt s (i - 1) = true := by
    unfold wordAt
    rw [hp]
    exact hcw
  have hw2 : wordAt s i = true := by
    unfold wordAt
    rw [hc]
    exact hdw
  rw [hw1, hw2, decide_eq_true (show i ≠ 0 from by omega)]
  rfl

/-- The mask part `(?:[0-9]|[12][0-9]|3[0-2])\b` at the very end of the
string consumes the whole mask token. -/
theorem maskEnd_head (u mk : List Char) (hm : isMaskTok mk = true) :
    (matchEnds false (u ++ mk) (RE.seq mask32RE (RE.seq RE.wb RE.eps))
      u.length).head? = some (u.length + mk.length) := by
  have hshift := matchEnds_shift false u mk mask32RE rfl 0
  rw [Nat.add_zero] at hshift
  match mk, hm with
  | [a], hm =>
    have ha : a.isDigit = true := hm
    have hm32 : matchEnds false [a] mask32RE 0 = [1] := by
      have h2 := digit_mem_list ha
      fin_cases h2 <;> decide
    rw [mE_seq, hshift, hm32,
      show List.map (u.length + ·) [1] = [u.length + 1] from rfl, flatMap_single]
    have hbnd : wordBoundary (u ++ [a]) (u.length + 1) = true := by
      apply wordBoundary_mid _ _ (by omega) a
      · rw [show u.length + 1 - 1 = u.length from by omega,
          List.get?_append_right (Nat.le_refl _),
          show u.length - u.length = 0 from by omega]
        rfl
      · exact ha
      · unfold wordAt
        rw [List.get?_eq_none.2 (by simp)]
    rw [mE_seq, wb_yes _ _ _ hbnd, flatMap_single, mE_eps]
    rfl
  | [a, b], hm =>
    have h' : ((a = '1' ∨ a = '2') ∧ b.isDigit = true) ∨
        ((a = '3' ∧ b.isDigit = true) ∧ b ≤ '2') := by
      simpa [isMaskTok, Bool.or_eq_true, Bool.and_eq_true,
        decide_eq_true_eq] using hm
    have hadig : a.isDigit = true := by
      rcases h' with ⟨h12, -⟩ | ⟨⟨rfl, -⟩, -⟩
      · rcases h12 with rfl | rfl <;> decide
      · decide
    have hbdig : b.isDigit = true := by
      rcases h' with ⟨-, hb⟩ | ⟨⟨-, hb⟩, -⟩ <;> exact hb
    have hm32 : matchEnds false [a, b] mask32RE 0 = [1, 2] := by
      rcases h' with ⟨h12, hbd⟩ | ⟨⟨rfl, hbd⟩, hble⟩
      · rcases h12 with rfl | rfl <;>
          (have h2 := digit_mem_list hbd; fin_cases h2 <;> decide)
      · have h2 := digit_mem_list hbd
        fin_cases h2 <;> first | decide | exact absurd hble (by decide)
    rw [mE_seq, hshift, hm32,
      show List.map (u.length + ·) [1, 2] = [u.length + 1, u.length + 2]
        from rfl,
      flatMap_pair]
    have hga : (u ++ [a, b]).get? u.length = some a := by
      rw [List.get?_append_right (Nat.le_refl _),
        show u.length - u.length = 0 from by omega]
      rfl
    have hgb : (u ++ [a, b]).get? (u.length + 1) = some b := by
      rw [List.get?_append_right (by omega),
        show u.length + 1 - u.length = 1 from by omega]
      rfl
    have hgn : (u ++ [a, b]).get? (u.length + 2) = none := by
      rw [List.get?_eq_none]
      simp
    have hb1 : wordBoundary (u ++ [a, b]) (u.length + 1) = false := by
      apply wordBoundary_ww _ _ (by omega) a b
      · rw [show u.length + 1 - 1 = u.length from by omega]
        exact hga
      · exact isWordJS_of_digit hadig
      · exact hgb
      · exact isWordJS_of_digit hbdig
    have hb2 : wordBoundary (u ++ [a, b]) (u.length + 2) = true := by
      apply wordBoundary_mid _ _ (by omega) b
      · rw [show u.length + 2 - 1 = u.length + 1 from by omega]
        exact hgb
      · exact hbdig
      · unfold wordAt
        rw [hgn]
    rw [mE_seq, mE_seq, wb_no _ _ _ hb1, wb_yes _ _ _ hb2, flatMap_single,
      mE_eps]
    rfl

/-- The greedy match of the CIDR pattern (first alternative) on a whole
`quad/mask` token consumes the whole string. -/
theorem cidr_head (o1 o2 o3 o4 mk : List Char)
    (h1 : isOct o1 = true) (h2 : isOct o2 = true) (h3 : isOct o3 = true)
    (h4 : isOct o4 = true) (hm : isMaskTok mk = true) :
    (matchEnds false
      (o1 ++ ('.' :: (o2 ++ ('.' :: (o3 ++ ('.' :: (o4 ++ ('/' :: mk))))))))
      cidrRE 0).head? =
      some (o1.length + 1 + (o2.length + 1) + (o3.length + 1) + o4.length +
        1 + mk.length) := by
  obtain ⟨h1pos, -, ⟨a1, ha1, ha1d⟩, -⟩ := isOct_shape o1 h1
  obtain ⟨hREP3, hOct⟩ := rep3_quad_head o1 o2 o3 o4 ('/' :: mk) h1 h2 h3 h4 rfl
  have hWB0 : (matchEnds false
      (o1 ++ ('.' :: (o2 ++ ('.' :: (o3 ++ ('.' :: (o4 ++ ('/' :: mk))))))))
      RE.wb 0).head? = some 0 := by
    have hb : wordBoundary
        (o1 ++ ('.' :: (o2 ++ ('.' :: (o3 ++ ('.' :: (o4 ++ ('/' :: mk))))))))
        0 = true := by
      rw [wordBoundary_zero, wordAt_append_left o1 _ 0 h1pos]
      unfold wordAt
      rw [ha1]
      exact isWordJS_of_digit ha1d
    rw [wb_yes _ _ _ hb]
    rfl
  have hslash : (matchEnds false
      (o1 ++ ('.' :: (o2 ++ ('.' :: (o3 ++ ('.' :: (o4 ++ ('/' :: mk))))))))
      (litS "/")
      (o1.length + 1 + (o2.length + 1) + (o3.length + 1) + o4.length)).head? =
      some (o1.length + 1 + (o2.length + 1) + (o3.length + 1) + o4.length + 1) := by
    have hin : (matchEnds false ('/' :: mk) (litS "/") 0).head? = some 1 := by
      rw [show litS "/" = RE.lit ['/'] from rfl,
        lit_yes false ('/' :: mk) ['/'] 0 rfl]
      rfl
    have h := head_shift false
      ((((o1 ++ ['.']) ++ (o2 ++ ['.'])) ++ (o3 ++ ['.'])) ++ o4)
      ('/' :: mk) (litS "/") 1 (by decide) hin
    simp only [List.append_assoc, List.cons_append, List.singleton_append,
      List.nil_append, List.length_append, List.length_cons, List.length_nil,
      Nat.zero_add] at h
    rw [show o1.length + (o2.length + (o3.length + (o4.length + 1) + 1) + 1) =
      o1.length + 1 + (o2.length + 1) + (o3.length + 1) + o4.length
        from by omega] at h
    exact h
  have hmask : (matchEnds false
      (o1 ++ ('.' :: (o2 ++ ('.' :: (o3 ++ ('.' :: (o4 ++ ('/' :: mk))))))))
      (RE.seq mask32RE (RE.seq RE.wb RE.eps))
      (o1.length + 1 + (o2.length + 1) + (o3.length + 1) + o4.length + 1)).head? =
      some (o1.length + 1 + (o2.length + 1) + (o3.length + 1) + o4.length +
        1 + mk.length) := by
    have h := maskEnd_head
      (((((o1 ++ ['.']) ++ (o2 ++ ['.'])) ++ (o3 ++ ['.'])) ++ o4) ++ ['/'])
      mk hm
    simp only [List.append_assoc, List.cons_append, List.singleton_append,
      List.nil_append, List.length_append, List.length_cons, List.length_nil,
      Nat.zero_add] at h
    rw [show o1.length + (o2.length + (o3.length + (o4.length + 1 + 1) + 1) + 1) =
      o1.length + 1 + (o2.length + 1) + (o3.length + 1) + o4.length + 1
        from by omega] at h
    exact h
  have hTail : (matchEnds false
      (o1 ++ ('.' :: (o2 ++ ('.' :: (o3 ++ ('.' :: (o4 ++ ('/' :: mk))))))))
      (RE.seq (litS "/") (RE.seq mask32RE (RE.seq RE.wb RE.eps)))
      (o1.length + 1 + (o2.length + 1) + (o3.length + 1) + o4.length)).head? =
      some (o1.length + 1 + (o2.length + 1) + (o3.length + 1) + o4.length +
        1 + mk.length) :=
    head_seq _ _ _ _ _ _ _ hslash hmask
  have hAlt1 : (matchEnds false
      (o1 ++ ('.' :: (o2 ++ ('.' :: (o3 ++ ('.' :: (o4 ++ ('/' :: mk))))))))
      cidrAlt1 0).head? =
      some (o1.length + 1 + (o2.length + 1) + (o3.length + 1) + o4.length +
        1 + mk.length) :=
    head_seq _ _ _ _ _ _ _ hWB0
      (head_seq _ _ _ _ _ _ _ hREP3 (head_seq _ _ _ _ _ _ _ hOct hTail))
  exact head_alt_l _ _ _ _ _ _ hAlt1

/-! ### Decimal octet renderings and the dotted-quad alphabet -/

set_option maxRecDepth 400000 in
/-- Every value 0–255 prints (via `Nat.repr`) as a string the octet
sub-pattern accepts in full. -/
theorem isOct_repr (n : Nat) (h : n < 256) : isOct (Nat.repr n).data = true := by
  have hall : ∀ m : Fin 256, isOct (Nat.repr m.val).data = true := by decide
  exact hall ⟨n, h⟩

theorem isOct_digits (l : List Char) (h : isOct l = true) :
    ∀ c ∈ l, c.isDigit = true := by
  match l with
  | [a] =>
    intro c hc
    rw [List.mem_singleton] at hc
    subst hc
    exact h
  | [a, b] =>
    have h2 : (a.isDigit && b.isDigit) = true := h
    rw [Bool.and_eq_true] at h2
    intro c hc
    simp only [List.mem_cons, List.not_mem_nil, or_false] at hc
    rcases hc with rfl | rfl
    · exact h2.1
    · exact h2.2
  | [a, b, c] =>
    have h2 : (a.isDigit && b.isDigit && c.isDigit &&
        ((a = '2' && b = '5' && c ≤ '5') || (a = '2' && b ≤ '4') ||
          a = '0' || a = '1')) = true := h
    rw [Bool.and_eq_true, Bool.and_eq_true, Bool.and_eq_true] at h2
    intro x hx
    simp only [List.mem_cons, List.not_mem_nil, or_false] at hx
    rcases hx with rfl | rfl | rfl
    · exact h2.1.1.1
    · exact h2.1.1.2
    · exact h2.1.2
  | [] => cases h
  | a :: b :: c :: d :: t => cases h

theorem strLen (s : String) : s.length = s.data.length := rfl

set_option maxRecDepth 100000 in
theorem quadStr_data (a b c d : Nat) :
    (quadStr a b c d).data =
      (Nat.repr a).data ++ ('.' :: ((Nat.repr b).data ++ ('.' ::
        ((Nat.repr c).data ++ ('.' :: (Nat.repr d).data))))) := by
  unfold quadStr defangQuad
  simp [String.data_append, show (".".data : List Char) = ['.'] from rfl]

theorem digit_mem_digitsDot {c : Char} (h : c.isDigit = true) :
    c ∈ digitsDot := by
  have h10 := digit_mem_list h
  simp only [List.mem_cons, List.not_mem_nil, or_false] at h10
  unfold digitsDot
  simp only [List.mem_cons, List.not_mem_nil, or_false]
  tauto

theorem dot_mem_digitsDot : '.' ∈ digitsDot := by decide

/-- Every character of a dotted quad of octet tokens is a digit or a dot. -/
theorem quad_chars (o1 o2 o3 o4 : List Char)
    (h1 : isOct o1 = true) (h2 : isOct o2 = true) (h3 : isOct o3 = true)
    (h4 : isOct o4 = true) :
    ∀ c ∈ o1 ++ ('.' :: (o2 ++ ('.' :: (o3 ++ ('.' :: o4))))), c ∈ digitsDot := by
  intro c hc
  simp only [List.mem_append, List.mem_cons] at hc
  rcases hc with hc | hc | hc | hc | hc | hc | hc
  · exact digit_mem_digitsDot (isOct_digits o1 h1 c hc)
  · subst hc; exact dot_mem_digitsDot
  · exact digit_mem_digitsDot (isOct_digits o2 h2 c hc)
  · subst hc; exact dot_mem_digitsDot
  · exact digit_mem_digitsDot (isOct_digits o3 h3 c hc)
  · subst hc; exact dot_mem_digitsDot
  · exact digit_mem_digitsDot (isOct_digits o4 h4 c hc)

/-! ### Trim and normalizer identity on clean strings -/

theorem dropWhile_id {p : Char → Bool} (l : List Char)
    (h : ∀ c ∈ l, p c = false) : l.dropWhile p = l := by
  cases l with
  | nil => rfl
  | cons a t =>
    rw [List.dropWhile_cons_of_neg]
    rw [h a (List.mem_cons_self a t)]
    exact Bool.false_ne_true

theorem mk_data (s : String) : String.mk s.data = s := rfl

/-- `trim` is the identity on a string with no whitespace characters. -/
theorem trimJS_id (s : String) (h : ∀ c ∈ s.data, isSpaceJS c = false) :
    trimJS s = s := by
  unfold trimJS
  rw [dropWhile_id s.data h,
    dropWhile_id s.data.reverse (fun c hc => h c (List.mem_reverse.1 hc)),
    List.reverse_reverse]

theorem digitsDot_not_space :
    ∀ c ∈ digitsDot, isSpaceJS c = false := by decide

/-! ### Per-type scan-step computation -/

theorem scanType_skip (text : String) (st : ScanState) (ty : String)
    (ci : Bool) (re : RE) (hty : IOC_PATTERNS ty = some (ci, re))
    (h : matchAll ci re text.data = []) : scanType text st ty = st := by
  unfold scanType
  rw [hty]
  show ((matchAll ci re text.data).map String.mk).foldl (processMatch ty) st = st
  rw [h]
  rfl

theorem scanType_whole (text : String) (st : ScanState) (ty : String)
    (ci : Bool) (re : RE) (hty : IOC_PATTERNS ty = some (ci, re))
    (h : matchAll ci re text.data = [text.data]) :
    scanType text st ty = processMatch ty st text := by
  unfold scanType
  rw [hty]
  show ((matchAll ci re text.data).map String.mk).foldl (processMatch ty) st =
    processMatch ty st text
  rw [h]
  show processMatch ty st (String.mk text.data) = processMatch ty st text
  rw [mk_data]

theorem scanType_single (text : String) (st : ScanState) (ty : String)
    (ci : Bool) (re : RE) (m : String)
    (hty : IOC_PATTERNS ty = some (ci, re))
    (h : matchAll ci re text.data = [m.data]) :
    scanType text st ty = processMatch ty st m := by
  unfold scanType
  rw [hty]
  show ((matchAll ci re text.data).map String.mk).foldl (processMatch ty) st =
    processMatch ty st m
  rw [h]
  show processMatch ty st (String.mk m.data) = processMatch ty st m
  rw [mk_data]

theorem processMatch_skip_found (ty : String) (st : ScanState) (m : String)
    (h : trimJS m ∈ st.found) : processMatch ty st m = st := by
  unfold processMatch
  rw [if_neg (by intro hA; exact hA.2 h)]

theorem processMatch_emit (ty : String) (st : ScanState) (m : String)
    (hlen : (trimJS m).length > 2)
    (hty4 : ty ≠ IOC_TYPES.IPV4) (hty6 : ty ≠ IOC_TYPES.IPV6)
    (htyU : ty ≠ IOC_TYPES.URL)
    (hnm : trimJS m ∉ st.found)
    (hfv : finalValueOf ty (trimJS m) ∉ st.found) :
    processMatch ty st m =
      { found := addFound (trimJS m)
          (addFound (finalValueOf ty (trimJS m)) st.found),
        recs := st.recs ++
          [{ type := ty, value := finalValueOf ty (trimJS m),
             originalValue := originalValueOf ty (trimJS m) }] } := by
  unfold processMatch
  rw [if_pos ⟨hlen, hnm⟩,
    if_neg (fun hA => by rcases hA.1 with h | h; exact hty4 h; exact hty6 h),
    if_neg (fun hA => htyU hA.1),
    if_neg (fun hA => by rcases hA.1 with h | h; exact hty4 h; exact hty6 h),
    if_pos ⟨hfv, hnm⟩]

theorem scanFrom_none_of_not_reTest (ci : Bool) (re : RE) (s : List Char)
    (h : reTest ci re s = false) : scanFrom ci re s 0 = none := by
  unfold reTest at h
  cases hs : scanFrom ci re s 0 with
  | none => rfl
  | some p => rw [hs] at h; cases h

/-- A regex that `.test` rejects leaves `replaceAll` as the identity. -/
theorem replaceAll_of_not_reTest (ci : Bool) (re : RE) (r : String) (s : String)
    (h : reTest ci re s.data = false) :
    replaceAll ci re r s = s := by
  unfold replaceAll replaceAllAux
  rw [scanFrom_none_of_not_reTest ci re s.data h]
  simp

/-- A regex that `.test` rejects leaves `replaceFirst` as the identity. -/
theorem replaceFirst_of_not_reTest (ci : Bool) (re : RE) (r : String) (s : String)
    (h : reTest ci re s.data = false) :
    replaceFirst ci re r s = s := by
  unfold replaceFirst
  rw [scanFrom_none_of_not_reTest ci re s.data h]

theorem reTest_false_of_noMatchIn (ci : Bool) (re : RE) (s : List Char)
    (S : List Char) (hS : ∀ c ∈ s, c ∈ S) (h : noMatchIn ci re S = true) :
    reTest ci re s = false := by
  unfold reTest scanFrom
  rw [scanFromAux_none ci re s 0 (fun i _ => noMatchIn_sound ci s S hS re h i)
    _ 0 (Nat.zero_le 0)]
  rfl

/-- The de-fanged-IP normalizer is the identity on a digits-and-dots
string: none of its six marker patterns can occur there. -/
theorem normalizeDefangedIP_id (y : String)
    (hy : ∀ c ∈ y.data, c ∈ digitsDot) : normalizeDefangedIP y = y := by
  show replaceAll false parSpacedRE "." (replaceAll false brSpacedRE "."
    (replaceAll true (litS "(dot)") "." (replaceAll true (litS "[dot]") "."
      (replaceAll false (litS "(.)") "."
        (replaceAll false (litS "[.]") "." y))))) = y
  rw [replaceAll_of_not_reTest _ _ _ _
      (reTest_false_of_noMatchIn false _ y.data digitsDot hy (by decide)),
    replaceAll_of_not_reTest _ _ _ _
      (reTest_false_of_noMatchIn false _ y.data digitsDot hy (by decide)),
    replaceAll_of_not_reTest _ _ _ _
      (reTest_false_of_noMatchIn true _ y.data digitsDot hy (by decide)),
    replaceAll_of_not_reTest _ _ _ _
      (reTest_false_of_noMatchIn true _ y.data digitsDot hy (by decide)),
    replaceAll_of_not_reTest _ _ _ _
      (reTest_false_of_noMatchIn false _ y.data digitsDot hy (by decide)),
    replaceAll_of_not_reTest _ _ _ _
      (reTest_false_of_noMatchIn false _ y.data digitsDot hy (by decide))]

/-- Evaluating the anchored wrapper `^X$` at position 0. -/
theorem matchEnds_anchored_zero (ci : Bool) (X : RE) (s : List Char) :
    matchEnds ci s (cat [RE.caret, X, RE.dollar]) 0 =
      (matchEnds ci s X 0).flatMap
        (fun e => if e = s.length then [e] else []) := by
  show ((if (0 : Nat) = 0 then [(0 : Nat)] else []).flatMap _) = _
  rw [if_pos rfl]
  show matchEnds ci s (RE.seq X (RE.seq RE.dollar (cat []))) 0 ++ [] = _
  rw [List.append_nil]
  show (matchEnds ci s X 0).flatMap _ = _
  apply List.flatMap_congr
  intro e _
  show (if e = s.length then [e] else []).flatMap (fun j => [j]) = _
  split
  · rfl
  · rfl

/-- The anchored wrapper matches nowhere but position 0. -/
theorem matchEnds_anchored_pos (ci : Bool) (X : RE) (s : List Char)
    (i : Nat) (hi : i ≠ 0) :
    matchEnds ci s (cat [RE.caret, X, RE.dollar]) i = [] := by
  show ((if i = 0 then [i] else []).flatMap _) = []
  rw [if_neg hi]
  rfl

/-- `.test` of `^X$` holds exactly when `X` matches the whole string: the
caret restricts the scan to position 0 and the dollar keeps only the ends
equal to the string length. -/
theorem reTest_anchored (ci : Bool) (X : RE) (s : List Char) :
    reTest ci (cat [RE.caret, X, RE.dollar]) s =
      (matchEnds ci s X 0).contains s.length := by
  unfold reTest scanFrom
  have hfuel : s.length + 1 - 0 = s.length + 1 := by omega
  rw [hfuel]
  show (scanFromAux ci (cat [RE.caret, X, RE.dollar]) s (s.length + 1) 0).isSome = _
  unfold scanFromAux
  rw [if_pos (Nat.zero_le s.length)]
  by_cases hmem : s.length ∈ matchEnds ci s X 0
  · have hne : matchEnds ci s (cat [RE.caret, X, RE.dollar]) 0 ≠ [] := by
      rw [matchEnds_anchored_zero]
      intro hnil
      rw [List.flatMap_eq_nil_iff] at hnil
      have := hnil s.length hmem
      rw [if_pos rfl] at this
      cases this
    have : ∃ a t, matchEnds ci s (cat [RE.caret, X, RE.dollar]) 0 = a :: t := by
      cases hme : matchEnds ci s (cat [RE.caret, X, RE.dollar]) 0 with
      | nil => exact absurd hme hne
      | cons a t => exact ⟨a, t, rfl⟩
    obtain ⟨a, t, hme⟩ := this
    have hfe : firstEnd ci (cat [RE.caret, X, RE.dollar]) s 0 = some a := by
      unfold firstEnd; rw [hme]; rfl
    rw [hfe]
    have : (matchEnds ci s X 0).contains s.length = true := by
      show (matchEnds ci s X 0).elem s.length = true
      exact List.elem_iff.2 hmem
    rw [this]
    rfl
  · have hnil : matchEnds ci s (cat [RE.caret, X, RE.dollar]) 0 = [] := by
      rw [matchEnds_anchored_zero, List.flatMap_eq_nil_iff]
      intro e he
      have : e ≠ s.length := fun h => hmem (h ▸ he)
      rw [if_neg this]
    have hfe : firstEnd ci (cat [RE.caret, X, RE.dollar]) s 0 = none := by
      unfold firstEnd; rw [hnil]; rfl
    rw [hfe]
    rw [scanFromAux_none ci (cat [RE.caret, X, RE.dollar]) s 1
      (fun i hi => matchEnds_anchored_pos ci X s i (by omega)) s.length 1
      (Nat.le_refl 1)]
    have : (matchEnds ci s X 0).contains s.length = false := by
      show (matchEnds ci s X 0).elem s.length = false
      rw [Bool.eq_false_iff]
      intro habs
      exact hmem (List.elem_iff.1 habs)
    rw [this]
    rfl

/-! ### Computing global literal replacement on block-structured strings -/

theorem scanFromAux_some (ci : Bool) (re : RE) (s : List Char) :
    ∀ (k i p e : Nat), scanFromAux ci re s k i = some (p, e) →
      firstEnd ci re s p = some e := by
  intro k
  induction k with
  | zero => intro i p e h; cases h
  | succ k ih =>
    intro i p e h
    unfold scanFromAux at h
    by_cases hi : i ≤ s.length
    · rw [if_pos hi] at h
      cases hf : firstEnd ci re s i with
      | none =>
        rw [hf] at h
        exact ih (i + 1) p e h
      | some e' =>
        rw [hf] at h
        have h2 : (some (i, e') : Option (Nat × Nat)) = some (p, e) := h
        have h3 := Option.some.inj h2
        have hip : i = p := congrArg Prod.fst h3
        have hee : e' = e := congrArg Prod.snd h3
        rw [← hip, ← hee]
        exact hf
    · rw [if_neg hi] at h
      cases h

theorem firstEnd_lit_inv (ci : Bool) (L : List Char) (s : List Char)
    (p e : Nat) (h : firstEnd ci (RE.lit L) s p = some e) : e = p + L.length := by
  unfold firstEnd at h
  rw [mE_lit] at h
  cases hl : litAt ci s L p with
  | false => rw [hl] at h; cases h
  | true =>
    rw [hl] at h
    exact (Option.some.inj h).symm

theorem scanFrom_found (ci : Bool) (re : RE) (s : List Char) (i e : Nat)
    (hi : i ≤ s.length) (h : firstEnd ci re s i = some e) :
    scanFrom ci re s i = some (i, e) := by
  unfold scanFrom
  rw [show s.length + 1 - i = (s.length - i) + 1 from by omega]
  exact scanFromAux_hit ci re s (s.length - i) i e hi h

theorem scanFromAux_miss (ci : Bool) (re : RE) (s : List Char) (i k : Nat)
    (hi : i ≤ s.length) (h : firstEnd ci re s i = none) :
    scanFromAux ci re s (k + 1) i = scanFromAux ci re s k (i + 1) := by
  show (if i ≤ s.length then
      match firstEnd ci re s i with
      | some e => some (i, e)
      | none => scanFromAux ci re s k (i + 1)
    else none) = scanFromAux ci re s k (i + 1)
  rw [if_pos hi, h]

theorem scanFrom_step (ci : Bool) (re : RE) (s : List Char) (i : Nat)
    (hi : i ≤ s.length) (h : firstEnd ci re s i = none) :
    scanFrom ci re s i = scanFrom ci re s (i + 1) := by
  unfold scanFrom
  rw [show s.length + 1 - i = (s.length + 1 - (i + 1)) + 1 from by omega]
  exact scanFromAux_miss ci re s i (s.length + 1 - (i + 1)) hi h

theorem scanFrom_over (ci : Bool) (re : RE) (s : List Char) (i : Nat)
    (hi : s.length < i) : scanFrom ci re s i = none := by
  unfold scanFrom
  rw [show s.length + 1 - i = 0 from by omega]
  rfl

theorem scanFrom_skip_range (ci : Bool) (re : RE) (s : List Char) :
    ∀ (d i : Nat), (∀ j, i ≤ j → j < i + d → firstEnd ci re s j = none) →
      scanFrom ci re s i = scanFrom ci re s (i + d) := by
  intro d
  induction d with
  | zero => intro i _; rfl
  | succ d ih =>
    intro i h
    by_cases hi : i ≤ s.length
    · rw [scanFrom_step ci re s i hi (h i (Nat.le_refl i) (by omega)),
        ih (i + 1) (fun j hj1 hj2 => h j (by omega) (by omega)),
        show i + 1 + d = i + (d + 1) from by omega]
    · rw [scanFrom_over ci re s i (by omega),
        scanFrom_over ci re s (i + (d + 1)) (by omega)]

theorem slice0_take (s : List Char) (n : Nat) : slice s 0 n = s.take n := by
  unfold slice
  rw [List.drop_zero, Nat.sub_zero]

theorem charEqCase_false_ne (p c : Char) (h : p ≠ c) :
    charEqCase false p c = false := by
  unfold charEqCase
  simp [h]

theorem litAt_head_false (ci : Bool) (s : List Char) (p : Char) (ps : List Char)
    (j : Nat) (c : Char) (hg : s.get? j = some c)
    (hne : charEqCase ci p c = false) : litAt ci s (p :: ps) j = false := by
  unfold litAt
  rw [hg]
  show (charEqCase ci p c && litAt ci s ps (j + 1)) = false
  rw [hne]
  rfl

theorem firstEnd_lit_first_false (ci : Bool) (s : List Char) (p : Char)
    (ps : List Char) (j : Nat) (c : Char) (hg : s.get? j = some c)
    (hne : charEqCase ci p c = false) :
    firstEnd ci (RE.lit (p :: ps)) s j = none := by
  unfold firstEnd
  rw [mE_lit, litAt_head_false ci s p ps j c hg hne]
  rfl

theorem replaceAllAux_stop (ci : Bool) (re : RE) (s r : List Char) (i : Nat)
    (h : scanFrom ci re s i = none) :
    ∀ k, replaceAllAux ci re s r k i = s.drop i := by
  intro k
  cases k with
  | zero => rfl
  | succ k =>
    unfold replaceAllAux
    rw [h]

/-- Scanning a nonempty-literal pattern past a prefix where it cannot start
replaces only inside the suffix. -/
theorem replaceAllAux_skip_prefix (ci : Bool) (L : List Char) (hL : 0 < L.length)
    (b w r : List Char)
    (hb : ∀ j, j < b.length → firstEnd ci (RE.lit L) (b ++ w) j = none) :
    ∀ k, replaceAllAux ci (RE.lit L) (b ++ w) r k 0 =
      b ++ replaceAllAux ci (RE.lit L) w r k 0 := by
  have hsc : scanFrom ci (RE.lit L) (b ++ w) 0 =
      (scanFrom ci (RE.lit L) w 0).map
        (fun pe => (b.length + pe.1, b.length + pe.2)) := by
    have h1 := scanFrom_skip_range ci (RE.lit L) (b ++ w) b.length 0
      (fun j hj1 hj2 => hb j (by omega))
    rw [Nat.zero_add] at h1
    have h2 := scanFrom_shift ci (RE.lit L) b w rfl 0
    rw [Nat.add_zero] at h2
    rw [h1, h2]
  intro k
  cases hw : scanFrom ci (RE.lit L) w 0 with
  | none =>
    rw [hw] at hsc
    rw [replaceAllAux_stop ci (RE.lit L) (b ++ w) r 0 hsc k,
      replaceAllAux_stop ci (RE.lit L) w r 0 hw k,
      List.drop_zero, List.drop_zero]
  | some pe =>
    obtain ⟨p, e⟩ := pe
    rw [hw] at hsc
    have hfe : firstEnd ci (RE.lit L) w p = some e := by
      have h3 : scanFromAux ci (RE.lit L) w (w.length + 1 - 0) 0 = some (p, e) := hw
      exact scanFromAux_some ci (RE.lit L) w _ 0 p e h3
    have hpe : p < e := by
      rw [firstEnd_lit_inv ci L w p e hfe]
      omega
    cases k with
    | zero =>
      show (b ++ w).drop 0 = b ++ w.drop 0
      rw [List.drop_zero, List.drop_zero]
    | succ k =>
      unfold replaceAllAux
      rw [hsc, hw]
      show (if b.length + p < b.length + e then
          slice (b ++ w) 0 (b.length + p) ++ r ++
            replaceAllAux ci (RE.lit L) (b ++ w) r k (b.length + e)
        else _) = b ++ (if p < e then
          slice w 0 p ++ r ++ replaceAllAux ci (RE.lit L) w r k e else _)
      rw [if_pos (show b.length + p < b.length + e from by omega), if_pos hpe,
        slice0_take, slice0_take, List.take_append,
        replaceAllAux_shift ci (RE.lit L) b w r rfl k e]
      simp [List.append_assoc]

/-- One global pass of `replace(lit, ".")` over a string assembled from
digit-run and marker blocks rewrites exactly the blocks equal to the
literal. -/
theorem pass_blocks (L : List Char)
    (hL : L = "[.]".data ∨ L = "(.)".data) :
    ∀ (bs : List (List Char)),
      (∀ b ∈ bs, (∀ c ∈ b, c.isDigit = true) ∨ b = "[.]".data ∨
        b = "(.)".data ∨ b = ['.']) →
      ∀ k, bs.flatten.length < k →
      replaceAllAux false (RE.lit L) bs.flatten ['.'] k 0 =
        (bs.map fun b => if b = L then ['.'] else b).flatten := by
  have hLlen : 0 < L.length := by rcases hL with rfl | rfl <;> decide
  intro bs
  induction bs with
  | nil =>
    intro _ k _
    have hsc : scanFrom false (RE.lit L) ([] : List (List Char)).flatten 0 =
        none := by
      rcases hL with rfl | rfl <;> rfl
    rw [replaceAllAux_stop _ _ _ _ _ hsc k]
    rfl
  | cons b bs ih =>
    intro hgood k hk
    have hgb := hgood b (List.mem_cons_self b bs)
    have hgood' : ∀ x ∈ bs, (∀ c ∈ x, c.isDigit = true) ∨ x = "[.]".data ∨
        x = "(.)".data ∨ x = ['.'] :=
      fun x hx => hgood x (List.mem_cons_of_mem b hx)
    have hflat : (b :: bs).flatten = b ++ bs.flatten := rfl
    by_cases hbL : b = L
    · -- the block is the literal itself: replace it and continue after it
      have hlit : litAt false (L ++ bs.flatten) L 0 = true := by
        rcases hL with rfl | rfl <;> rfl
      have hsc : scanFrom false (RE.lit L) (L ++ bs.flatten) 0 =
          some (0, L.length) := by
        apply scanFrom_found false (RE.lit L) _ 0 L.length (Nat.zero_le _)
        unfold firstEnd
        rw [mE_lit, hlit]
        show some (0 + L.length) = some L.length
        rw [Nat.zero_add]
      cases k with
      | zero => omega
      | succ k =>
        rw [hflat, hbL]
        unfold replaceAllAux
        rw [hsc]
        show (if 0 < L.length then
            slice (L ++ bs.flatten) 0 0 ++ ['.'] ++
              replaceAllAux false (RE.lit L) (L ++ bs.flatten) ['.'] k L.length
          else _) = _
        rw [if_pos hLlen, slice0_take, List.take_zero]
        have hsh := replaceAllAux_shift false (RE.lit L) L bs.flatten ['.'] rfl k 0
        rw [Nat.add_zero] at hsh
        rw [hsh, ih hgood' k (by
            have hblen : 0 < b.length := by rw [hbL]; exact hLlen
            rw [hflat, List.length_append] at hk
            omega),
          List.map_cons, if_pos rfl, List.flatten_cons]
        rfl
    · -- the block cannot host a match start: skip it
      have hskip : ∀ j, j < b.length →
          firstEnd false (RE.lit L) (b ++ bs.flatten) j = none := by
        intro j hj
        have hgj : (b ++ bs.flatten).get? j = b.get? j := List.get?_append hj
        cases hbj : b.get? j with
        | none =>
          exfalso
          rw [List.get?_eq_none] at hbj
          omega
        | some c =>
          have hcb : c ∈ b := List.get?_mem hbj
          rcases hL with rfl | rfl
          · have hne : charEqCase false '[' c = false := by
              rcases hgb with hdig | rfl | rfl | rfl
              · exact charEqCase_false_ne _ _
                  (Ne.symm (digit_ne (hdig c hcb) (by decide)))
              · exact absurd rfl hbL
              · fin_cases hcb <;> decide
              · fin_cases hcb <;> decide
            exact firstEnd_lit_first_false false _ '[' ['.', ']'] j c
              (by rw [hgj, hbj]) hne
          · have hne : charEqCase false '(' c = false := by
              rcases hgb with hdig | rfl | rfl | rfl
              · exact charEqCase_false_ne _ _
                  (Ne.symm (digit_ne (hdig c hcb) (by decide)))
              · fin_cases hcb <;> decide
              · exact absurd rfl hbL
              · fin_cases hcb <;> decide
            exact firstEnd_lit_first_false false _ '(' ['.', ')'] j c
              (by rw [hgj, hbj]) hne
      rw [hflat,
        replaceAllAux_skip_prefix false L hLlen b bs.flatten ['.'] hskip k,
        ih hgood' k (by rw [hflat, List.length_append] at hk; omega),
        List.map_cons, if_neg hbL, List.flatten_cons]

theorem replaceAll_pass (L : List Char) (hL : L = "[.]".data ∨ L = "(.)".data)
    (bs : List (List Char))
    (hgood : ∀ b ∈ bs, (∀ c ∈ b, c.isDigit = true) ∨ b = "[.]".data ∨
      b = "(.)".data ∨ b = ['.']) :
    replaceAll false (RE.lit L) (String.mk ['.']) (String.mk bs.flatten) =
      String.mk ((bs.map fun b => if b = L then ['.'] else b).flatten) := by
  unfold replaceAll
  exact congrArg String.mk
    (pass_blocks L hL bs hgood (bs.flatten.length + 1) (by omega))

theorem digitRun_ne (l : List Char) (h : ∀ c ∈ l, c.isDigit = true) :
    l ≠ "[.]".data ∧ l ≠ "(.)".data := by
  constructor <;> intro he
  · have h2 := h '[' (by rw [he]; decide)
    exact absurd h2 (by decide)
  · have h2 := h '(' (by rw [he]; decide)
    exact absurd h2 (by decide)

theorem digit_not_space {c : Char} (h : c.isDigit = true) :
    isSpaceJS c = false := by
  have h2 := digit_mem_list h
  fin_cases h2 <;> decide

/-- The full de-fanged-IP normalizer turns a bracket/paren-marked quad into
the plain dotted quad. -/
theorem normalize_defangQuad (a b c d : Nat)
    (ha : a < 256) (hb : b < 256) (hc : c < 256) (hd : d < 256)
    (m1 m2 m3 : String)
    (hm1 : m1 = "[.]" ∨ m1 = "(.)") (hm2 : m2 = "[.]" ∨ m2 = "(.)")
    (hm3 : m3 = "[.]" ∨ m3 = "(.)") :
    normalizeDefangedIP (defangQuad a b c d m1 m2 m3) = quadStr a b c d := by
  have hdA := isOct_digits _ (isOct_repr a ha)
  have hdB := isOct_digits _ (isOct_repr b hb)
  have hdC := isOct_digits _ (isOct_repr c hc)
  have hdD := isOct_digits _ (isOct_repr d hd)
  have hTdata : (defangQuad a b c d m1 m2 m3).data =
      ([(Nat.repr a).data, m1.data, (Nat.repr b).data, m2.data,
        (Nat.repr c).data, m3.data, (Nat.repr d).data] :
        List (List Char)).flatten := by
    unfold defangQuad
    simp [String.data_append]
  have hT : defangQuad a b c d m1 m2 m3 =
      String.mk ([(Nat.repr a).data, m1.data, (Nat.repr b).data, m2.data,
        (Nat.repr c).data, m3.data, (Nat.repr d).data] :
        List (List Char)).flatten := by
    rw [← hTdata]
  have hmdata : ∀ m : String, m = "[.]" ∨ m = "(.)" →
      m.data = "[.]".data ∨ m.data = "(.)".data := by
    rintro m (rfl | rfl)
    · exact Or.inl rfl
    · exact Or.inr rfl
  have hgood : ∀ x ∈ ([(Nat.repr a).data, m1.data, (Nat.repr b).data, m2.data,
      (Nat.repr c).data, m3.data, (Nat.repr d).data] : List (List Char)),
      (∀ c' ∈ x, c'.isDigit = true) ∨ x = "[.]".data ∨
        x = "(.)".data ∨ x = ['.'] := by
    intro x hx
    simp only [List.mem_cons, List.not_mem_nil, or_false] at hx
    rcases hx with rfl | rfl | rfl | rfl | rfl | rfl | rfl
    · exact Or.inl hdA
    · rcases hmdata m1 hm1 with h | h
      · exact Or.inr (Or.inl h)
      · exact Or.inr (Or.inr (Or.inl h))
    · exact Or.inl hdB
    · rcases hmdata m2 hm2 with h | h
      · exact Or.inr (Or.inl h)
      · exact Or.inr (Or.inr (Or.inl h))
    · exact Or.inl hdC
    · rcases hmdata m3 hm3 with h | h
      · exact Or.inr (Or.inl h)
      · exact Or.inr (Or.inr (Or.inl h))
    · exact Or.inl hdD
  have hpass1 := replaceAll_pass "[.]".data (Or.inl rfl) _ hgood
  have hmap1 : (([(Nat.repr a).data, m1.data, (Nat.repr b).data, m2.data,
      (Nat.repr c).data, m3.data, (Nat.repr d).data] : List (List Char)).map
        fun x => if x = "[.]".data then ['.'] else x) =
      [(Nat.repr a).data, (if m1.data = "[.]".data then ['.'] else m1.data),
       (Nat.repr b).data, (if m2.data = "[.]".data then ['.'] else m2.data),
       (Nat.repr c).data, (if m3.data = "[.]".data then ['.'] else m3.data),
       (Nat.repr d).data] := by
    simp only [List.map_cons, List.map_nil]
    rw [if_neg (digitRun_ne _ hdA).1, if_neg (digitRun_ne _ hdB).1,
      if_neg (digitRun_ne _ hdC).1, if_neg (digitRun_ne _ hdD).1]
  have hgood1 : ∀ x ∈ ([(Nat.repr a).data,
      (if m1.data = "[.]".data then ['.'] else m1.data), (Nat.repr b).data,
      (if m2.data = "[.]".data then ['.'] else m2.data), (Nat.repr c).data,
      (if m3.data = "[.]".data then ['.'] else m3.data), (Nat.repr d).data] :
      List (List Char)),
      (∀ c' ∈ x, c'.isDigit = true) ∨ x = "[.]".data ∨
        x = "(.)".data ∨ x = ['.'] := by
    have hmk : ∀ m : String, m = "[.]" ∨ m = "(.)" →
        (∀ c' ∈ (if m.data = "[.]".data then ['.'] else m.data), c'.isDigit = true) ∨
        (if m.data = "[.]".data then ['.'] else m.data) = "[.]".data ∨
        (if m.data = "[.]".data then ['.'] else m.data) = "(.)".data ∨
        (if m.data = "[.]".data then ['.'] else m.data) = ['.'] := by
      rintro m (rfl | rfl)
      · rw [if_pos rfl]
        exact Or.inr (Or.inr (Or.inr rfl))
      · rw [if_neg (by decide)]
        exact Or.inr (Or.inr (Or.inl rfl))
    intro x hx
    simp only [List.mem_cons, List.not_mem_nil, or_false] at hx
    rcases hx with rfl | rfl | rfl | rfl | rfl | rfl | rfl
    · exact Or.inl hdA
    · exact hmk m1 hm1
    · exact Or.inl hdB
    · exact hmk m2 hm2
    · exact Or.inl hdC
    · exact hmk m3 hm3
    · exact Or.inl hdD
  have hpass2 := replaceAll_pass "(.)".data (Or.inr rfl) _ hgood1
  have hmap2 : (([(Nat.repr a).data,
      (if m1.data = "[.]".data then ['.'] else m1.data), (Nat.repr b).data,
      (if m2.data = "[.]".data then ['.'] else m2.data), (Nat.repr c).data,
      (if m3.data = "[.]".data then ['.'] else m3.data), (Nat.repr d).data] :
      List (List Char)).map
        fun x => if x = "(.)".data then ['.'] else x) =
      [(Nat.repr a).data, ['.'], (Nat.repr b).data, ['.'],
       (Nat.repr c).data, ['.'], (Nat.repr d).data] := by
    have hmm : ∀ m : String, m = "[.]" ∨ m = "(.)" →
        (if (if m.data = "[.]".data then ['.'] else m.data) = "(.)".data
          then ['.'] else (if m.data = "[.]".data then ['.'] else m.data)) =
          ['.'] := by
      rintro m (rfl | rfl) <;> decide
    simp only [List.map_cons, List.map_nil]
    rw [if_neg (digitRun_ne _ hdA).2, if_neg (digitRun_ne _ hdB).2,
      if_neg (digitRun_ne _ hdC).2, if_neg (digitRun_ne _ hdD).2,
      hmm m1 hm1, hmm m2 hm2, hmm m3 hm3]
  have hdots : (([(Nat.repr a).data, ['.'], (Nat.repr b).data, ['.'],
      (Nat.repr c).data, ['.'], (Nat.repr d).data] :
      List (List Char)).flatten) = (quadStr a b c d).data := by
    rw [quadStr_data]
    simp
  have hquadmem : ∀ c' ∈ (quadStr a b c d).data, c' ∈ digitsDot := by
    rw [quadStr_data]
    exact quad_chars _ _ _ _ (isOct_repr a ha) (isOct_repr b hb)
      (isOct_repr c hc) (isOct_repr d hd)
  show replaceAll false parSpacedRE "." (replaceAll false brSpacedRE "."
    (replaceAll true (litS "(dot)") "." (replaceAll true (litS "[dot]") "."
      (replaceAll false (litS "(.)") "."
        (replaceAll false (litS "[.]") "."
          (defangQuad a b c d m1 m2 m3)))))) = quadStr a b c d
  rw [show (litS "[.]" : RE) = RE.lit "[.]".data from rfl,
    show (litS "(.)" : RE) = RE.lit "(.)".data from rfl,
    show ("." : String) = String.mk ['.'] from rfl, hT, hpass1, hmap1,
    hpass2, hmap2,
    show String.mk (([(Nat.repr a).data, ['.'], (Nat.repr b).data, ['.'],
      (Nat.repr c).data, ['.'], (Nat.repr d).data] :
      List (List Char)).flatten) = quadStr a b c d from by
        rw [hdots],
    replaceAll_of_not_reTest _ _ _ _
      (reTest_false_of_noMatchIn true _ _ digitsDot hquadmem (by decide)),
    replaceAll_of_not_reTest _ _ _ _
      (reTest_false_of_noMatchIn true _ _ digitsDot hquadmem (by decide)),
    replaceAll_of_not_reTest _ _ _ _
      (reTest_false_of_noMatchIn false _ _ digitsDot hquadmem (by decide)),
    replaceAll_of_not_reTest _ _ _ _
      (reTest_false_of_noMatchIn false _ _ digitsDot hquadmem (by decide))]

theorem defangQuad_data (a b c d : Nat) (m1 m2 m3 : String) :
    (defangQuad a b c d m1 m2 m3).data =
      (Nat.repr a).data ++ (m1.data ++ ((Nat.repr b).data ++ (m2.data ++
        ((Nat.repr c).data ++ (m3.data ++ (Nat.repr d).data))))) := by
  unfold defangQuad
  simp [String.data_append]

/-! ### Structural lemmas about the scan state -/

theorem mem_addFound (v : String) (l : List String) : v ∈ addFound v l := by
  unfold addFound; split
  · assumption
  · simp

theorem mem_addFound_of_mem {x : String} (v : String) {l : List String}
    (h : x ∈ l) : x ∈ addFound v l := by
  unfold addFound; split
  · exact h
  · simp [h]

/-- `processMatch` either leaves the state unchanged, or appends exactly one
record whose `value` was not previously in `foundValues`, whose `type` is the
scanned type, and whose `originalValue` is governed by the de-fanged check;
the new `foundValues` extends the old one. -/
theorem processMatch_spec (ty : String) (st : ScanState) (m : String) :
    processMatch ty st m = st ∨
    ∃ nm fv : String, fv ∉ st.found ∧
      processMatch ty st m =
        { found := addFound nm (addFound fv st.found),
          recs := st.recs ++
            [{ type := ty, value := fv,
               originalValue := originalValueOf ty nm }] } := by
  unfold processMatch
  split_ifs with h1 h2 h3 h4 h5
  · exact Or.inl rfl
  · exact Or.inl rfl
  · exact Or.inl rfl
  · exact Or.inr ⟨trimJS m, finalValueOf ty (trimJS m), h5.1, rfl⟩
  · exact Or.inl rfl
  · exact Or.inl rfl

/-- A predicate preserved by a fold step is preserved by the fold. -/
theorem foldlInv {α : Type} (P : ScanState → Prop)
    (f : ScanState → α → ScanState) (hP : ∀ st m, P st → P (f st m)) :
    ∀ (ms : List α) (st : ScanState), P st → P (ms.foldl f st) := by
  intro ms
  induction ms with
  | nil => intro st h; exact h
  | cons m rest ih => intro st h; exact ih _ (hP _ _ h)

/-- Any invariant preserved by `processMatch` is preserved by `scanType`. -/
theorem scanTypeInv (P : ScanState → Prop)
    (hP : ∀ ty st m, P st → P (processMatch ty st m))
    (text : String) (st : ScanState) (ty : String) (h : P st) :
    P (scanType text st ty) := by
  unfold scanType
  cases IOC_PATTERNS ty with
  | none => exact h
  | some p => exact foldlInv P _ (hP ty) _ st h

/-- Any invariant preserved by `processMatch` holds of the final scan state. -/
theorem detectInv (P : ScanState → Prop)
    (hP : ∀ ty st m, P st → P (processMatch ty st m))
    (text : String) (hinit : P { found := [], recs := [] }) :
    P (detectionOrder.foldl (scanType text) { found := [], recs := [] }) :=
  foldlInv P _ (fun st ty h => scanTypeInv P hP text st ty h) _ _ hinit

/-- The combined record invariant used by the claims on the output shape:
every emitted value is in `foundValues`, values are pairwise distinct, and
`originalValue` is present exactly on the de-fanged types. -/
def RecInv (st : ScanState) : Prop :=
  (∀ r ∈ st.recs, r.value ∈ st.found) ∧
  st.recs.Pairwise (fun a b => a.value ≠ b.value) ∧
  (∀ r ∈ st.recs,
    r.originalValue.isSome = true ↔
      (r.type = IOC_TYPES.DEFANGED_IP ∨ r.type = IOC_TYPES.DEFANGED_URL))

theorem recInv_processMatch (ty : String) (st : ScanState) (m : String)
    (h : RecInv st) : RecInv (processMatch ty st m) := by
  rcases processMatch_spec ty st m with heq | ⟨nm, fv, hfv, heq⟩
  · rw [heq]; exact h
  · obtain ⟨hmem, hpw, horig⟩ := h
    rw [heq]
    refine ⟨?_, ?_, ?_⟩
    · intro r hr
      rcases List.mem_append.1 hr with hr | hr
      · exact mem_addFound_of_mem _ (mem_addFound_of_mem _ (hmem r hr))
      · simp only [List.mem_singleton] at hr
        subst hr
        exact mem_addFound_of_mem _ (mem_addFound _ _)
    · refine List.pairwise_append.2 ⟨hpw, by simp, ?_⟩
      intro a ha b hb
      simp only [List.mem_singleton] at hb
      subst hb
      intro hcontra
      apply hfv
      rw [← show a.value = fv from hcontra]
      exact hmem a ha
    · intro r hr
      rcases List.mem_append.1 hr with hr | hr
      · exact horig r hr
      · simp only [List.mem_singleton] at hr
        subst hr
        simp only [originalValueOf]
        split_ifs with hty
        · simpa using hty.symm
        · rw [not_or] at hty
          simp [hty.1, hty.2]

theorem recInv_detect (text : String) :
    RecInv (detectionOrder.foldl (scanType text) { found := [], recs := [] }) := by
  apply detectInv RecInv recInv_processMatch
  exact ⟨by simp, by simp, by simp⟩

theorem processMatch_recs_mono (ty : String) (st : ScanState) (m : String)
    (r : IOCRecord) (h : r ∈ st.recs) : r ∈ (processMatch ty st m).recs := by
  rcases processMatch_spec ty st m with heq | ⟨nm, fv, hnin, heq⟩ <;> rw [heq]
  · exact h
  · exact List.mem_append_left _ h

theorem scanType_recs_mono (text : String) (st : ScanState) (ty : String)
    (r : IOCRecord) (h : r ∈ st.recs) : r ∈ (scanType text st ty).recs := by
  unfold scanType
  cases hp : IOC_PATTERNS ty with
  | none => exact h
  | some p =>
    obtain ⟨ci, re⟩ := p
    exact foldlInv (fun s => r ∈ s.recs) (processMatch ty)
      (fun st m hm => processMatch_recs_mono ty st m r hm) _ st h

theorem fold_recs_mono (text : String) (tys : List String) (st : ScanState)
    (r : IOCRecord) (h : r ∈ st.recs) :
    r ∈ (tys.foldl (scanType text) st).recs :=
  foldlInv (fun s => r ∈ s.recs) (scanType text)
    (fun st ty hm => scanType_recs_mono text st ty r hm) tys st h

/-! ### Inverting and rebuilding hash matches -/

theorem matchAllAux_mem (ci : Bool) (re : RE) (s : List Char) :
    ∀ (k i p e : Nat), (p, e) ∈ matchAllAux ci re s k i →
      firstEnd ci re s p = some e := by
  intro k
  induction k with
  | zero => intro i p e h; cases h
  | succ k ih =>
    intro i p e h
    unfold matchAllAux at h
    cases hs : scanFrom ci re s i with
    | none => rw [hs] at h; cases h
    | some pe =>
      obtain ⟨p', e'⟩ := pe
      rw [hs] at h
      have h2 : (p, e) ∈ ((p', e') ::
          matchAllAux ci re s k (if p' < e' then e' else p' + 1)) := h
      rcases List.mem_cons.1 h2 with heq | hmem
      · have hp : p' = p := congrArg Prod.fst heq.symm
        have he : e' = e := congrArg Prod.snd heq.symm
        rw [← hp, ← he]
        exact scanFromAux_some ci re s _ i p' e' hs
      · exact ih _ p e hmem

theorem matchAll_mem (ci : Bool) (re : RE) (s : List Char) (m : List Char)
    (h : m ∈ matchAll ci re s) :
    ∃ p e, firstEnd ci re s p = some e ∧ m = slice s p e := by
  unfold matchAll at h
  rcases List.mem_map.1 h with ⟨⟨p, e⟩, hmem, rfl⟩
  exact ⟨p, e, matchAllAux_mem ci re s _ 0 p e hmem, rfl⟩

theorem rep_cls_inv (ci : Bool) (s : List Char) (k : CC) :
    ∀ (n i e : Nat), e ∈ matchEnds ci s (RE.rep (RE.cls k) n) i →
      e = i + n ∧ ∀ j, j < n → ∃ c, s.get? (i + j) = some c ∧
        CC.memCase ci k c = true := by
  intro n
  induction n with
  | zero =>
    intro i e h
    have h2 : e ∈ [i] := h
    rw [List.mem_singleton] at h2
    exact ⟨by omega, fun j hj => absurd hj (by omega)⟩
  | succ n ih =>
    intro i e h
    have h2 : e ∈ (matchEnds ci s (RE.cls k) i).flatMap
        (fun e1 => matchEnds ci s (RE.rep (RE.cls k) n) e1) := h
    rcases List.mem_flatMap.1 h2 with ⟨e1, he1, he⟩
    cases hg : s.get? i with
    | none => rw [mE_cls_none ci s k i hg] at he1; cases he1
    | some c =>
      rw [mE_cls_some ci s k i c hg] at he1
      by_cases hm : CC.memCase ci k c = true
      · rw [if_pos hm] at he1
        rw [List.mem_singleton] at he1
        subst he1
        obtain ⟨hsum, hchars⟩ := ih (i + 1) e he
        refine ⟨by omega, ?_⟩
        intro j hj
        cases j with
        | zero => exact ⟨c, by rw [Nat.add_zero]; exact hg, hm⟩
        | succ j =>
          obtain ⟨c', hc', hm'⟩ := hchars j (by omega)
          exact ⟨c', by
            rw [show i + (j + 1) = i + 1 + j from by omega]
            exact hc', hm'⟩
      · rw [if_neg hm] at he1
        cases he1

theorem wb_mem_eq (ci : Bool) (s : List Char) (p e1 : Nat)
    (h : e1 ∈ matchEnds ci s RE.wb p) : e1 = p := by
  have h2 : e1 ∈ (if wordBoundary s p then [p] else []) := h
  by_cases hw : wordBoundary s p
  · rw [if_pos hw] at h2
    exact List.mem_singleton.1 h2
  · rw [if_neg hw] at h2
    cases h2

/-- Inversion of a hash-pattern match: it spans exactly `n` positions, all
holding hex characters. -/
theorem hashRE_inv (ci : Bool) (s : List Char) (n p e : Nat)
    (h : e ∈ matchEnds ci s
      (cat [RE.wb, RE.rep (RE.cls hexHashC) n, RE.wb]) p) :
    e = p + n ∧ ∀ j, j < n → ∃ c, s.get? (p + j) = some c ∧
      CC.memCase ci hexHashC c = true := by
  have h2 : e ∈ (matchEnds ci s RE.wb p).flatMap (fun e1 =>
      (matchEnds ci s (RE.rep (RE.cls hexHashC) n) e1).flatMap (fun e2 =>
        (matchEnds ci s RE.wb e2).flatMap (fun e3 =>
          matchEnds ci s RE.eps e3))) := h
  rcases List.mem_flatMap.1 h2 with ⟨e1, he1, hrest⟩
  have he1p := wb_mem_eq ci s p e1 he1
  subst he1p
  rcases List.mem_flatMap.1 hrest with ⟨e2, he2, hrest2⟩
  obtain ⟨he2sum, hchars⟩ := rep_cls_inv ci s hexHashC n e1 e2 he2
  rcases List.mem_flatMap.1 hrest2 with ⟨e3, he3, hee⟩
  have he3e := wb_mem_eq ci s e2 e3 he3
  subst he3e
  have hee2 : e ∈ [e3] := hee
  rw [List.mem_singleton] at hee2
  subst hee2
  exact ⟨by omega, hchars⟩

theorem hex_char_list {c : Char} (h : CC.memCase false hexHashC c = true) :
    c ∈ ['a', 'b', 'c', '0', '1', '2', '3', '4', 'd', 'e', 'f',
         'A', 'B', 'C', '5', '6', '7', '8', '9', 'D', 'E', 'F'] := by
  rw [memCase_false] at h
  have h2 : ((CC.range 'a' 'f').mem c ||
      ((CC.range 'A' 'F').mem c || digitC.mem c)) = true := h
  rw [Bool.or_eq_true, Bool.or_eq_true] at h2
  rcases h2 with h3 | h3 | h3
  · obtain ⟨hlo, hhi⟩ := mem_range_iff.1 h3
    rw [char_le_iff] at hlo hhi
    have hga : ('a' : Char).val.toNat = 97 := by decide
    have hgf : ('f' : Char).val.toNat = 102 := by decide
    have hd : c.val.toNat = 97 ∨ c.val.toNat = 98 ∨ c.val.toNat = 99 ∨
        c.val.toNat = 100 ∨ c.val.toNat = 101 ∨ c.val.toNat = 102 := by omega
    rcases hd with h | h | h | h | h | h
    · rw [char_eq_of_toNat 'a' h (by decide)]; decide
    · rw [char_eq_of_toNat 'b' h (by decide)]; decide
    · rw [char_eq_of_toNat 'c' h (by decide)]; decide
    · rw [char_eq_of_toNat 'd' h (by decide)]; decide
    · rw [char_eq_of_toNat 'e' h (by decide)]; decide
    · rw [char_eq_of_toNat 'f' h (by decide)]; decide
  · obtain ⟨hlo, hhi⟩ := mem_range_iff.1 h3
    rw [char_le_iff] at hlo hhi
    have hga : ('A' : Char).val.toNat = 65 := by decide
    have hgf : ('F' : Char).val.toNat = 70 := by decide
    have hd : c.val.toNat = 65 ∨ c.val.toNat = 66 ∨ c.val.toNat = 67 ∨
        c.val.toNat = 68 ∨ c.val.toNat = 69 ∨ c.val.toNat = 70 := by omega
    rcases hd with h | h | h | h | h | h
    · rw [char_eq_of_toNat 'A' h (by decide)]; decide
    · rw [char_eq_of_toNat 'B' h (by decide)]; decide
    · rw [char_eq_of_toNat 'C' h (by decide)]; decide
    · rw [char_eq_of_toNat 'D' h (by decide)]; decide
    · rw [char_eq_of_toNat 'E' h (by decide)]; decide
    · rw [char_eq_of_toNat 'F' h (by decide)]; decide
  · obtain ⟨hlo, hhi⟩ := mem_range_iff.1 h3
    rw [char_le_iff] at hlo hhi
    have hga : ('0' : Char).val.toNat = 48 := by decide
    have hgf : ('9' : Char).val.toNat = 57 := by decide
    have hd : c.val.toNat = 48 ∨ c.val.toNat = 49 ∨ c.val.toNat = 50 ∨
        c.val.toNat = 51 ∨ c.val.toNat = 52 ∨ c.val.toNat = 53 ∨
        c.val.toNat = 54 ∨ c.val.toNat = 55 ∨ c.val.toNat = 56 ∨
        c.val.toNat = 57 := by omega
    rcases hd with h | h | h | h | h | h | h | h | h | h
    · rw [char_eq_of_toNat '0' h (by decide)]; decide
    · rw [char_eq_of_toNat '1' h (by decide)]; decide
    · rw [char_eq_of_toNat '2' h (by decide)]; decide
    · rw [char_eq_of_toNat '3' h (by decide)]; decide
    · rw [char_eq_of_toNat '4' h (by decide)]; decide
    · rw [char_eq_of_toNat '5' h (by decide)]; decide
    · rw [char_eq_of_toNat '6' h (by decide)]; decide
    · rw [char_eq_of_toNat '7' h (by decide)]; decide
    · rw [char_eq_of_toNat '8' h (by decide)]; decide
    · rw [char_eq_of_toNat '9' h (by decide)]; decide

theorem hex_word {c : Char} (h : CC.memCase false hexHashC c = true) :
    isWordJS c = true := by
  have h2 := hex_char_list h
  fin_cases h2 <;> decide

theorem hex_not_space {c : Char} (h : CC.memCase false hexHashC c = true) :
    isSpaceJS c = false := by
  have h2 := hex_char_list h
  fin_cases h2 <;> decide

theorem rep_cls_build (ci : Bool) (v : List Char) (k : CC) :
    ∀ (n i : Nat), (∀ j, j < n → ∃ c, v.get? (i + j) = some c ∧
      CC.memCase ci k c = true) →
      matchEnds ci v (RE.rep (RE.cls k) n) i = [i + n] := by
  intro n
  induction n with
  | zero =>
    intro i _
    rw [show RE.rep (RE.cls k) 0 = RE.eps from rfl, mE_eps, Nat.add_zero]
  | succ n ih =>
    intro i hc
    obtain ⟨c, hg, hm⟩ := hc 0 (by omega)
    rw [Nat.add_zero] at hg
    have hstep : matchEnds ci v (RE.rep (RE.cls k) (n + 1)) i =
        (matchEnds ci v (RE.cls k) i).flatMap
          (fun e1 => matchEnds ci v (RE.rep (RE.cls k) n) e1) := rfl
    rw [hstep, cls_yes ci v k i c hg hm, flatMap_single,
      ih (i + 1) (fun j hj => by
        obtain ⟨c', hg', hm'⟩ := hc (j + 1) (by omega)
        exact ⟨c', by
          rw [show i + 1 + j = i + (j + 1) from by omega]
          exact hg', hm'⟩),
      show i + 1 + n = i + (n + 1) from by omega]

theorem wordBoundary_mid_w (s : List Char) (i : Nat) (h0 : 0 < i) (d : Char)
    (hprev : s.get? (i - 1) = some d) (hd : isWordJS d = true)
    (hcur : wordAt s i = false) : wordBoundary s i = true := by
  unfold wordBoundary
  rw [hcur]
  have hw : wordAt s (i - 1) = true := by
    unfold wordAt
    rw [hprev]
    exact hd
  rw [hw, decide_eq_true (show i ≠ 0 from by omega)]
  rfl

/-- A string of exactly `n` hex characters passes the anchored
`^\b[hex]{n}\b$` test that `validateIOC` uses for the hash types. -/
theorem hash_validate (v : List Char) (n : Nat) (hn : 0 < n)
    (hlen : v.length = n)
    (hchars : ∀ j, j < n → ∃ c, v.get? j = some c ∧
      CC.memCase false hexHashC c = true) :
    reTest false (cat [RE.caret,
      cat [RE.wb, RE.rep (RE.cls hexHashC) n, RE.wb], RE.dollar]) v = true := by
  obtain ⟨c0, hg0, hm0⟩ := hchars 0 hn
  obtain ⟨cz, hgz, hmz⟩ := hchars (n - 1) (by omega)
  have hrep : matchEnds false v (RE.rep (RE.cls hexHashC) n) 0 = [0 + n] :=
    rep_cls_build false v hexHashC n 0
      (fun j hj => by
        obtain ⟨c, hg, hm⟩ := hchars j hj
        exact ⟨c, by rw [Nat.zero_add]; exact hg, hm⟩)
  have hwb0 : wordBoundary v 0 = true := by
    rw [wordBoundary_zero]
    unfold wordAt
    rw [hg0]
    exact hex_word hm0
  have hwbn : wordBoundary v n = true := by
    apply wordBoundary_mid_w v n (by omega) cz hgz (hex_word hmz)
    unfold wordAt
    rw [List.get?_eq_none.2 (by omega)]
  have hhead : (matchEnds false v (cat [RE.caret,
      cat [RE.wb, RE.rep (RE.cls hexHashC) n, RE.wb], RE.dollar]) 0).head? =
      some n := by
    have hcaret : (matchEnds false v RE.caret 0).head? = some 0 := by
      rw [mE_caret, if_pos rfl]
      rfl
    have hw0 : (matchEnds false v RE.wb 0).head? = some 0 := by
      rw [wb_yes _ _ _ hwb0]
      rfl
    have hrep0 : (matchEnds false v (RE.rep (RE.cls hexHashC) n) 0).head? =
        some n := by
      rw [hrep, Nat.zero_add]
      rfl
    have hwn : (matchEnds false v (RE.seq RE.wb RE.eps) n).head? = some n := by
      rw [mE_seq, wb_yes _ _ _ hwbn, flatMap_single, mE_eps]
      rfl
    have hdollar : (matchEnds false v (RE.seq RE.dollar RE.eps) n).head? =
        some n := by
      rw [mE_seq, mE_dollar, if_pos hlen.symm, flatMap_single, mE_eps]
      rfl
    exact head_seq _ _ _ _ _ _ _ hcaret
      (head_seq _ _ _ _ _ _ _
        (head_seq _ _ _ _ _ _ _ hw0
          (head_seq _ _ _ _ _ _ _ hrep0 hwn))
        hdollar)
  unfold reTest
  rw [scanFrom_found false _ v 0 n (Nat.zero_le _) hhead]
  rfl

/-- Sharper form of `processMatch_spec`: in the emit branch, the new record's
fields are spelled out in terms of the raw match `m`. -/
theorem processMatch_spec2 (ty : String) (st : ScanState) (m : String) :
    processMatch ty st m = st ∨
    processMatch ty st m =
      { found := addFound (trimJS m)
          (addFound (finalValueOf ty (trimJS m)) st.found),
        recs := st.recs ++
          [{ type := ty, value := finalValueOf ty (trimJS m),
             originalValue := originalValueOf ty (trimJS m) }] } := by
  unfold processMatch
  split_ifs
  · exact Or.inl rfl
  · exact Or.inl rfl
  · exact Or.inl rfl
  · exact Or.inr rfl
  · exact Or.inl rfl
  · exact Or.inl rfl

/-- A predicate preserved by a fold step, for elements of the folded list,
is preserved by the fold. -/
theorem foldlInv_mem {α : Type} (P : ScanState → Prop)
    (f : ScanState → α → ScanState) :
    ∀ (ms : List α), (∀ st m, m ∈ ms → P st → P (f st m)) →
      ∀ st, P st → P (ms.foldl f st) := by
  intro ms
  induction ms with
  | nil => intro _ st h; exact h
  | cons m rest ih =>
    intro hstep st h
    exact ih (fun st' m' hm' => hstep st' m' (List.mem_cons_of_mem m hm'))
      (f st m) (hstep st m (List.mem_cons_self m rest) h)

/-- Every match the hash-stage scan reports is an `n`-character all-hex
token: it survives `trim` unchanged and passes the anchored re-test that
`validateIOC` performs for the hash types. -/
theorem hash_stage_valid (text : String) (n : Nat) (hn : 0 < n) (m : String)
    (hm : m ∈ (matchAll false
      (cat [RE.wb, RE.rep (RE.cls hexHashC) n, RE.wb]) text.data).map
      String.mk) :
    trimJS m = m ∧
    reTest false (cat [RE.caret,
      cat [RE.wb, RE.rep (RE.cls hexHashC) n, RE.wb], RE.dollar])
      m.data = true := by
  rcases List.mem_map.1 hm with ⟨m0, hm0, rfl⟩
  obtain ⟨p, e, hfe, hsl⟩ := matchAll_mem false _ text.data m0 hm0
  subst hsl
  have hmem : e ∈ matchEnds false text.data
      (cat [RE.wb, RE.rep (RE.cls hexHashC) n, RE.wb]) p := by
    unfold firstEnd at hfe
    cases hl : matchEnds false text.data
        (cat [RE.wb, RE.rep (RE.cls hexHashC) n, RE.wb]) p with
    | nil => rw [hl] at hfe; cases hfe
    | cons x t =>
      rw [hl] at hfe
      have hx : x = e := Option.some.inj hfe
      rw [← hx]
      exact List.mem_cons_self x t
  obtain ⟨hesum, hchars⟩ := hashRE_inv false text.data n p e hmem
  subst hesum
  have hle : p + n ≤ text.data.length :=
    matchEnds_le_len false text.data _ p (p + n) hmem (by omega)
  have hslen : (slice text.data p (p + n)).length = n := by
    unfold slice
    rw [List.length_take, List.length_drop]
    omega
  have hsget : ∀ j, j < n → ∃ c, (slice text.data p (p + n)).get? j = some c ∧
      CC.memCase false hexHashC c = true := by
    intro j hj
    obtain ⟨c, hg, hc⟩ := hchars j hj
    refine ⟨c, ?_, hc⟩
    unfold slice
    rw [List.get?_take (show j < p + n - p from by omega), List.get?_drop]
    exact hg
  constructor
  · apply trimJS_id
    intro c hc
    rcases List.mem_iff_get?.1 hc with ⟨j, hj⟩
    have hj2 : (slice text.data p (p + n)).get? j = some c := hj
    have hj' : j < n := by
      by_contra hge
      rw [List.get?_eq_none.2 (by rw [hslen]; omega)] at hj2
      cases hj2
    obtain ⟨c', hg', hc'⟩ := hsget j hj'
    have hcc : c' = c := Option.some.inj (hg'.symm.trans hj2)
    exact hex_not_space (hcc ▸ hc')
  · exact hash_validate (slice text.data p (p + n)) n hn hslen hsget

/-- Putting the two previous facts through `validateIOC`: a hash-stage match
re-validates under the type's anchored pattern. -/
theorem hash_case (text : String) (ty : String) (n : Nat) (hn : 0 < n)
    (m : String)
    (hanch : anchoredPattern ty = some (cat [RE.caret,
      cat [RE.wb, RE.rep (RE.cls hexHashC) n, RE.wb], RE.dollar]))
    (hfv : finalValueOf ty (trimJS m) = trimJS m)
    (hm : m ∈ (matchAll false
      (cat [RE.wb, RE.rep (RE.cls hexHashC) n, RE.wb]) text.data).map
      String.mk) :
    validateIOC (finalValueOf ty (trimJS m)) ty = true := by
  obtain ⟨htr, hval⟩ := hash_stage_valid text n hn m hm
  rw [hfv, htr]
  unfold validateIOC
  rw [hanch]
  exact hval

/-- One scan stage preserves the invariant "every hash-typed record
re-validates". -/
theorem scanType_hash_inv (text : String) (st : ScanState) (ty : String)
    (hP : ∀ r' ∈ st.recs,
      (r'.type = IOC_TYPES.MD5 ∨ r'.type = IOC_TYPES.SHA1 ∨
        r'.type = IOC_TYPES.SHA256 ∨ r'.type = IOC_TYPES.SHA512) →
      validateIOC r'.value r'.type = true) :
    ∀ r' ∈ (scanType text st ty).recs,
      (r'.type = IOC_TYPES.MD5 ∨ r'.type = IOC_TYPES.SHA1 ∨
        r'.type = IOC_TYPES.SHA256 ∨ r'.type = IOC_TYPES.SHA512) →
      validateIOC r'.value r'.type = true := by
  unfold scanType
  cases hpat : IOC_PATTERNS ty with
  | none => exact hP
  | some pr =>
    obtain ⟨ci, re⟩ := pr
    have hstep : ∀ (st' : ScanState) (m : String),
        m ∈ (matchAll ci re text.data).map String.mk →
        (∀ r' ∈ st'.recs,
          (r'.type = IOC_TYPES.MD5 ∨ r'.type = IOC_TYPES.SHA1 ∨
            r'.type = IOC_TYPES.SHA256 ∨ r'.type = IOC_TYPES.SHA512) →
          validateIOC r'.value r'.type = true) →
        (∀ r' ∈ (processMatch ty st' m).recs,
          (r'.type = IOC_TYPES.MD5 ∨ r'.type = IOC_TYPES.SHA1 ∨
            r'.type = IOC_TYPES.SHA256 ∨ r'.type = IOC_TYPES.SHA512) →
          validateIOC r'.value r'.type = true) := by
      intro st' m hmm hP' r' hr' hty'
      rcases processMatch_spec2 ty st' m with heq | heq
      · rw [heq] at hr'; exact hP' r' hr' hty'
      · rw [heq] at hr'
        rcases List.mem_append.1 hr' with hold | hnew
        · exact hP' r' hold hty'
        · rw [List.mem_singleton] at hnew
          subst hnew
          have hty2 : ty = IOC_TYPES.MD5 ∨ ty = IOC_TYPES.SHA1 ∨
              ty = IOC_TYPES.SHA256 ∨ ty = IOC_TYPES.SHA512 := hty'
          show validateIOC (finalValueOf ty (trimJS m)) ty = true
          rcases hty2 with h4 | h4 | h4 | h4
          · subst h4
            have hcr : (false, md5RE) = (ci, re) := Option.some.inj
              ((show IOC_PATTERNS IOC_TYPES.MD5 = some (false, md5RE)
                from rfl).symm.trans hpat)
            have hc1 : ci = false := (congrArg Prod.fst hcr).symm
            have hc2 : re = md5RE := (congrArg Prod.snd hcr).symm
            subst hc1
            subst hc2
            exact hash_case text IOC_TYPES.MD5 32 (by omega) m rfl rfl hmm
          · subst h4
            have hcr : (false, sha1RE) = (ci, re) := Option.some.inj
              ((show IOC_PATTERNS IOC_TYPES.SHA1 = some (false, sha1RE)
                from rfl).symm.trans hpat)
            have hc1 : ci = false := (congrArg Prod.fst hcr).symm
            have hc2 : re = sha1RE := (congrArg Prod.snd hcr).symm
            subst hc1
            subst hc2
            exact hash_case text IOC_TYPES.SHA1 40 (by omega) m rfl rfl hmm
          · subst h4
            have hcr : (false, sha256RE) = (ci, re) := Option.some.inj
              ((show IOC_PATTERNS IOC_TYPES.SHA256 = some (false, sha256RE)
                from rfl).symm.trans hpat)
            have hc1 : ci = false := (congrArg Prod.fst hcr).symm
            have hc2 : re = sha256RE := (congrArg Prod.snd hcr).symm
            subst hc1
            subst hc2
            exact hash_case text IOC_TYPES.SHA256 64 (by omega) m rfl rfl hmm
          · subst h4
            have hcr : (false, sha512RE) = (ci, re) := Option.some.inj
              ((show IOC_PATTERNS IOC_TYPES.SHA512 = some (false, sha512RE)
                from rfl).symm.trans hpat)
            have hc1 : ci = false := (congrArg Prod.fst hcr).symm
            have hc2 : re = sha512RE := (congrArg Prod.snd hcr).symm
            subst hc1
            subst hc2
            exact hash_case text IOC_TYPES.SHA512 128 (by omega) m rfl rfl hmm
    exact foldlInv_mem _ (processMatch ty)
      ((matchAll ci re text.data).map String.mk) hstep st hP

set_option maxRecDepth 100000 in
theorem isMaskTok_repr (p : Nat) (h : p ≤ 32) :
    isMaskTok (Nat.repr p).data = true := by
  have hall : ∀ m : Fin 33, isMaskTok (Nat.repr m.val).data = true := by decide
  exact hall ⟨p, by omega⟩

theorem cidrStr_data (a b c d p : Nat) :
    (cidrStr a b c d p).data =
      (quadStr a b c d).data ++ ('/' :: (Nat.repr p).data) := by
  unfold cidrStr
  simp [String.data_append]

theorem addFound_mono (v y : String) (l : List String) (h : v ∈ l) :
    v ∈ addFound y l := by
  unfold addFound
  split
  · exact h
  · exact List.mem_append_left _ h

theorem processMatch_found_mono (ty : String) (st : ScanState) (m : String)
    (v : String) (h : v ∈ st.found) : v ∈ (processMatch ty st m).found := by
  rcases processMatch_spec ty st m with heq | ⟨nm, fv, hnin, heq⟩ <;> rw [heq]
  · exact h
  · exact addFound_mono v nm _ (addFound_mono v fv _ h)

/-- Once a value is in `foundValues`, no later match can emit a record
carrying that value (of any type): the dedup check would reject it. -/
theorem found_blocks_value (text : String) (tys : List String)
    (st : ScanState) (v : String) (ty0 : String)
    (hv : v ∈ st.found)
    (hn : ∀ ov, ({ type := ty0, value := v, originalValue := ov } :
      IOCRecord) ∉ st.recs) :
    ∀ ov, ({ type := ty0, value := v, originalValue := ov } : IOCRecord) ∉
      (tys.foldl (scanType text) st).recs := by
  have hstep : ∀ (st : ScanState) (ty : String) (m : String),
      (v ∈ st.found ∧ ∀ ov, ({ type := ty0, value := v, originalValue := ov } :
        IOCRecord) ∉ st.recs) →
      (v ∈ (processMatch ty st m).found ∧
        ∀ ov, ({ type := ty0, value := v, originalValue := ov } : IOCRecord) ∉
          (processMatch ty st m).recs) := by
    intro st ty m ⟨hf, hr⟩
    refine ⟨processMatch_found_mono ty st m v hf, ?_⟩
    intro ov hmem
    rcases processMatch_spec ty st m with heq | ⟨nm, fv, hnin, heq⟩
    · rw [heq] at hmem
      exact hr ov hmem
    · rw [heq] at hmem
      rcases List.mem_append.1 hmem with hmem | hmem
      · exact hr ov hmem
      · rw [List.mem_singleton] at hmem
        have hfv : fv = v := congrArg IOCRecord.value hmem.symm
        rw [hfv] at hnin
        exact hnin hf
  have hfold : ∀ (tys : List String) (st : ScanState),
      (v ∈ st.found ∧ ∀ ov, ({ type := ty0, value := v, originalValue := ov } :
        IOCRecord) ∉ st.recs) →
      (v ∈ (tys.foldl (scanType text) st).found ∧
        ∀ ov, ({ type := ty0, value := v, originalValue := ov } : IOCRecord) ∉
          (tys.foldl (scanType text) st).recs) := by
    apply foldlInv
    intro st ty hP
    unfold scanType
    cases hpat : IOC_PATTERNS ty with
    | none => exact hP
    | some pr =>
      obtain ⟨ci, re⟩ := pr
      exact foldlInv _ (processMatch ty) (fun st m hm => hstep st ty m hm)
        _ st hP
  exact (hfold tys st ⟨hv, hn⟩).2

set_option maxRecDepth 400000 in
/-- C1 (counterexample): on the §8 scenario input the scanner does not yield
three records: it yields six, and one of the extra records re-reports
`8.8.8.8` (as a Defanged-IP record) even though `8.8.8.8/32` was already
claimed as a CIDR. -/
theorem claim_C1_cex :
    (detectIOCs scenarioInput).length = 6 ∧
    ∃ r ∈ detectIOCs scenarioInput, r.value = "8.8.8.8" := by
  decide

set_option maxRecDepth 400000 in
/-- C1 (amended): the §8 scenario input yields exactly six records: the CIDR
`8.8.8.8/32`; a Defanged-IP record for `8.8.8.8` (the Defanged-IP pattern
accepts plain dots and the CIDR-containment check does not apply to it); Email; a Defanged-URL record whose value and originalValue carry the
trailing comma (the URL character class admits `,`); and two Filename
records, `example.com` (the domain tail of the email) and `payload.exe`. -/
theorem claim_C1_amended :
    detectIOCs scenarioInput =
      [{ type := IOC_TYPES.CIDR, value := "8.8.8.8/32", originalValue := none },
       { type := IOC_TYPES.DEFANGED_IP, value := "8.8.8.8",
         originalValue := some "8.8.8.8" },
       { type := IOC_TYPES.EMAIL, value := "admin@example.com",
         originalValue := none },
       { type := IOC_TYPES.DEFANGED_URL,
         value := "http://bad.example.com/payload.exe,",
         originalValue := some "hxxp://bad[.]example[.]com/payload.exe," },
       { type := IOC_TYPES.FILENAME, value := "example.com",
         originalValue := none },
       { type := IOC_TYPES.FILENAME, value := "payload.exe",
         originalValue := none }] := by
  decide

set_option maxRecDepth 400000 in
/-- C2 (counterexample): a de-fanged IPv4 whose octets are separated by the
`[dot]` marker produces no record at all — the Defanged-IP detector only
recognizes `.`, `[.]` and `(.)` as separators, although the normalizer
would rewrite `[dot]`. -/
theorem claim_C2_cex : detectIOCs "1[dot]2[dot]3[dot]4" = [] := by
  decide

set_option maxRecDepth 400000 in
/-- C3 (counterexample): `validateIOC` is not whole-string anchored for the
Defanged-URL type: the `^`/`$` anchors attach to the first and last top-level
alternatives of the rebuilt regex, so a value with trailing junk after a
de-fanged URL passes validation even though it is not a complete standalone
instance of the pattern. -/
theorem claim_C3_cex :
    validateIOC "hxxp://evil.com and more" IOC_TYPES.DEFANGED_URL = true ∧
    wholeMatch false defangedURLRE "hxxp://evil.com and more" = false := by
  decide

set_option maxRecDepth 400000 in
/-- C5 (counterexample): the de-fanged-IP normalizer is not idempotent: on
`"[( . )]"` the spaced-parenthesis rule (applied last) creates a fresh
`"[.]"`, which a second application then rewrites to `"."`. -/
theorem claim_C5_cex :
    normalizeDefangedIP (normalizeDefangedIP "[( . )]") ≠
      normalizeDefangedIP "[( . )]" := by
  decide

set_option maxRecDepth 400000 in
/-- C6 (counterexample): a Defanged-IP record whose as-found text equals its
value still carries `originalValue` — the source attaches `originalValue`
whenever the match came from a de-fanged detector, without comparing it to
the normalized value. -/
theorem claim_C6_cex :
    ∃ r ∈ detectIOCs "8.8.8.8", r.originalValue = some r.value := by
  decide

/-- For a type whose rebuilt pattern is a genuinely anchored `^X$`,
`validateIOC` agrees with whole-string matching of `X`. -/
theorem validateIOC_eq_wholeMatch (t : String) (X : RE)
    (h : anchoredPattern t = some (cat [RE.caret, X, RE.dollar])) (v : String) :
    validateIOC v t = wholeMatch false X v := by
  unfold validateIOC
  rw [h]
  exact reTest_anchored false X v.data

/-- C3 (amended): for the eight types whose source has no top-level
alternation and no `g i m u y` letters (so the `^…$` wrapping and the
flag-stripping are harmless), `validateIOC` decides exactly whole-string
membership in the detector pattern; for an unregistered type it returns
`false` rather than raising. For CIDR, IPv6 and Defanged-URL the anchors
attach only to the first and last top-level alternatives (see the
counterexample), and the Filename source is mangled by the flag-strip. -/
theorem claim_C3_amended :
    (∀ v : String,
      validateIOC v IOC_TYPES.DEFANGED_IP = wholeMatch false defangedIPRE v ∧
      validateIOC v IOC_TYPES.IPV4 = wholeMatch false ipv4RE v ∧
      validateIOC v IOC_TYPES.MD5 = wholeMatch false md5RE v ∧
      validateIOC v IOC_TYPES.SHA1 = wholeMatch false sha1RE v ∧
      validateIOC v IOC_TYPES.SHA256 = wholeMatch false sha256RE v ∧
      validateIOC v IOC_TYPES.SHA512 = wholeMatch false sha512RE v ∧
      validateIOC v IOC_TYPES.EMAIL = wholeMatch false emailRE v ∧
      validateIOC v IOC_TYPES.URL = wholeMatch false urlRE v) ∧
    (∀ v t : String, IOC_PATTERNS t = none → validateIOC v t = false) := by
  constructor
  · intro v
    exact ⟨validateIOC_eq_wholeMatch IOC_TYPES.DEFANGED_IP defangedIPRE rfl v,
           validateIOC_eq_wholeMatch IOC_TYPES.IPV4 ipv4RE rfl v,
           validateIOC_eq_wholeMatch IOC_TYPES.MD5 md5RE rfl v,
           validateIOC_eq_wholeMatch IOC_TYPES.SHA1 sha1RE rfl v,
           validateIOC_eq_wholeMatch IOC_TYPES.SHA256 sha256RE rfl v,
           validateIOC_eq_wholeMatch IOC_TYPES.SHA512 sha512RE rfl v,
           validateIOC_eq_wholeMatch IOC_TYPES.EMAIL emailRE rfl v,
           validateIOC_eq_wholeMatch IOC_TYPES.URL urlRE rfl v⟩
  · intro v t h
    unfold IOC_PATTERNS at h
    by_cases g1 : t = IOC_TYPES.CIDR
    · rw [if_pos g1] at h; exact (Option.some_ne_none _ h).elim
    rw [if_neg g1] at h
    by_cases g2 : t = IOC_TYPES.DEFANGED_IP
    · rw [if_pos g2] at h; exact (Option.some_ne_none _ h).elim
    rw [if_neg g2] at h
    by_cases g3 : t = IOC_TYPES.IPV4
    · rw [if_pos g3] at h; exact (Option.some_ne_none _ h).elim
    rw [if_neg g3] at h
    by_cases g4 : t = IOC_TYPES.IPV6
    · rw [if_pos g4] at h; exact (Option.some_ne_none _ h).elim
    rw [if_neg g4] at h
    by_cases g5 : t = IOC_TYPES.MD5
    · rw [if_pos g5] at h; exact (Option.some_ne_none _ h).elim
    rw [if_neg g5] at h
    by_cases g6 : t = IOC_TYPES.SHA1
    · rw [if_pos g6] at h; exact (Option.some_ne_none _ h).elim
    rw [if_neg g6] at h
    by_cases g7 : t = IOC_TYPES.SHA256
    · rw [if_pos g7] at h; exact (Option.some_ne_none _ h).elim
    rw [if_neg g7] at h
    by_cases g8 : t = IOC_TYPES.SHA512
    · rw [if_pos g8] at h; exact (Option.some_ne_none _ h).elim
    rw [if_neg g8] at h
    by_cases g9 : t = IOC_TYPES.EMAIL
    · rw [if_pos g9] at h; exact (Option.some_ne_none _ h).elim
    rw [if_neg g9] at h
    by_cases g10 : t = IOC_TYPES.DEFANGED_URL
    · rw [if_pos g10] at h; exact (Option.some_ne_none _ h).elim
    rw [if_neg g10] at h
    by_cases g11 : t = IOC_TYPES.URL
    · rw [if_pos g11] at h; exact (Option.some_ne_none _ h).elim
    rw [if_neg g11] at h
    by_cases g12 : t = IOC_TYPES.FILENAME
    · rw [if_pos g12] at h; exact (Option.some_ne_none _ h).elim
    rw [if_neg g12] at h
    unfold validateIOC
    rw [show anchoredPattern t = none from by
      unfold anchoredPattern
      rw [if_neg g1, if_neg g2, if_neg g3, if_neg g4, if_neg g5, if_neg g6,
          if_neg g7, if_neg g8, if_neg g9, if_neg g10, if_neg g11, if_neg g12]]

/-- Witness for C3 (amended), discharging the unknown-type hypothesis at the
type name `"NoSuchType"`. -/
theorem claim_C3_amended_witness :
    IOC_PATTERNS "NoSuchType" = none ∧ validateIOC "x" "NoSuchType" = false :=
  ⟨rfl, claim_C3_amended.2 "x" "NoSuchType" rfl⟩

/-- C5 (amended): idempotence fails in general (see the counterexample), but
both normalizers are the identity on any already-canonical string — one in
which none of the six dot-marker patterns occurs and, for the URL normalizer,
no de-fanged scheme occurs at the start. -/
theorem claim_C5_amended (y : String)
    (h1 : reTest false (litS "[.]") y.data = false)
    (h2 : reTest false (litS "(.)") y.data = false)
    (h3 : reTest true (litS "[dot]") y.data = false)
    (h4 : reTest true (litS "(dot)") y.data = false)
    (h5 : reTest false brSpacedRE y.data = false)
    (h6 : reTest false parSpacedRE y.data = false)
    (h7 : reTest true (cat [RE.caret, litS "hxxp://"]) y.data = false)
    (h8 : reTest true (cat [RE.caret, litS "hxxps://"]) y.data = false)
    (h9 : reTest true (cat [RE.caret, litS "ftxp://"]) y.data = false) :
    normalizeDefangedIP y = y ∧ normalizeDefangedURL y = y := by
  constructor
  · show replaceAll false parSpacedRE "." (replaceAll false brSpacedRE "."
      (replaceAll true (litS "(dot)") "." (replaceAll true (litS "[dot]") "."
        (replaceAll false (litS "(.)") "."
          (replaceAll false (litS "[.]") "." y))))) = y
    rw [replaceAll_of_not_reTest _ _ _ _ h1, replaceAll_of_not_reTest _ _ _ _ h2,
        replaceAll_of_not_reTest _ _ _ _ h3, replaceAll_of_not_reTest _ _ _ _ h4,
        replaceAll_of_not_reTest _ _ _ _ h5, replaceAll_of_not_reTest _ _ _ _ h6]
  · show replaceAll false parSpacedRE "." (replaceAll false brSpacedRE "."
      (replaceAll true (litS "(dot)") "." (replaceAll true (litS "[dot]") "."
        (replaceAll false (litS "(.)") "." (replaceAll false (litS "[.]") "."
          (replaceFirst true (cat [RE.caret, litS "ftxp://"]) "ftp://"
            (replaceFirst true (cat [RE.caret, litS "hxxps://"]) "https://"
              (replaceFirst true (cat [RE.caret, litS "hxxp://"]) "http://"
                y)))))))) = y
    rw [replaceFirst_of_not_reTest _ _ _ _ h7, replaceFirst_of_not_reTest _ _ _ _ h8,
        replaceFirst_of_not_reTest _ _ _ _ h9,
        replaceAll_of_not_reTest _ _ _ _ h1, replaceAll_of_not_reTest _ _ _ _ h2,
        replaceAll_of_not_reTest _ _ _ _ h3, replaceAll_of_not_reTest _ _ _ _ h4,
        replaceAll_of_not_reTest _ _ _ _ h5, replaceAll_of_not_reTest _ _ _ _ h6]

/-- Witness for C5 (amended) at the canonical string `"http://a.b.c"`. -/
theorem claim_C5_amended_witness :
    (reTest false (litS "[.]") "http://a.b.c".data = false ∧
     reTest false (litS "(.)") "http://a.b.c".data = false ∧
     reTest true (litS "[dot]") "http://a.b.c".data = false ∧
     reTest true (litS "(dot)") "http://a.b.c".data = false ∧
     reTest false brSpacedRE "http://a.b.c".data = false ∧
     reTest false parSpacedRE "http://a.b.c".data = false ∧
     reTest true (cat [RE.caret, litS "hxxp://"]) "http://a.b.c".data = false ∧
     reTest true (cat [RE.caret, litS "hxxps://"]) "http://a.b.c".data = false ∧
     reTest true (cat [RE.caret, litS "ftxp://"]) "http://a.b.c".data = false) ∧
    (normalizeDefangedIP "http://a.b.c" = "http://a.b.c" ∧
     normalizeDefangedURL "http://a.b.c" = "http://a.b.c") :=
  ⟨by decide,
   claim_C5_amended "http://a.b.c" (by decide) (by decide) (by decide)
     (by decide) (by decide) (by decide) (by decide) (by decide) (by decide)⟩

/-- C6 (amended): `originalValue` is present exactly when the record came
from the de-fanged-IP or de-fanged-URL detector — including when the
as-found text coincides with the normalized value. -/
theorem claim_C6_amended (text : String) (r : IOCRecord)
    (h : r ∈ detectIOCs text) :
    r.originalValue.isSome = true ↔
      (r.type = IOC_TYPES.DEFANGED_IP ∨ r.type = IOC_TYPES.DEFANGED_URL) :=
  (recInv_detect text).2.2 r h

set_option maxRecDepth 400000 in
/-- Witness for C6 (amended), at the input `"8.8.8.8"` and its Defanged-IP
record. -/
theorem claim_C6_amended_witness :
    (({ type := IOC_TYPES.DEFANGED_IP, value := "8.8.8.8",
        originalValue := some "8.8.8.8" } : IOCRecord) ∈ detectIOCs "8.8.8.8") ∧
    ((some "8.8.8.8" : Option String).isSome = true ↔
      (IOC_TYPES.DEFANGED_IP = IOC_TYPES.DEFANGED_IP ∨
       IOC_TYPES.DEFANGED_IP = IOC_TYPES.DEFANGED_URL)) :=
  ⟨by decide,
   claim_C6_amended "8.8.8.8"
     { type := IOC_TYPES.DEFANGED_IP, value := "8.8.8.8",
       originalValue := some "8.8.8.8" } (by decide)⟩

/-- C8: within one scan's output no two records share the same `value`:
emission requires the value to be absent from the `foundValues` set, which
contains the values of all previously emitted records. -/
theorem claim_C8 (text : String) :
    (detectIOCs text).Pairwise (fun a b => a.value ≠ b.value) :=
  (recInv_detect text).2.1

set_option maxRecDepth 400000 in
/-- C10: on input `"admin@example.com"` the scanner emits the Email record
and, additionally, a Filename record with value `example.com`: the Filename
detector matches the domain substring after the `@` because `com` is in the
extension allow-list. -/
theorem claim_C10 :
    detectIOCs "admin@example.com" =
      [{ type := IOC_TYPES.EMAIL, value := "admin@example.com",
         originalValue := none },
       { type := IOC_TYPES.FILENAME, value := "example.com",
         originalValue := none }] := by
  decide

/-- C9: an input that is exactly one plain dotted-quad IPv4 address yields
exactly one record, and its type is Defanged IP, not IPv4 (the Defanged-IP
pattern accepts plain dots and runs first; the IPv4 match is then dropped by
the `foundValues` dedup). -/
theorem claim_C9 (a b c d : Nat)
    (ha : a < 256) (hb : b < 256) (hc : c < 256) (hd : d < 256) :
    detectIOCs (quadStr a b c d) =
      [{ type := IOC_TYPES.DEFANGED_IP, value := quadStr a b c d,
         originalValue := some (quadStr a b c d) }] := by
  have hA := isOct_repr a ha
  have hB := isOct_repr b hb
  have hC := isOct_repr c hc
  have hD := isOct_repr d hd
  obtain ⟨hApos, hAle, -, -⟩ := isOct_shape _ hA
  obtain ⟨hBpos, hBle, -, -⟩ := isOct_shape _ hB
  obtain ⟨hCpos, hCle, -, -⟩ := isOct_shape _ hC
  obtain ⟨hDpos, hDle, -, -⟩ := isOct_shape _ hD
  have hdata := quadStr_data a b c d
  have hmem : ∀ c' ∈ (quadStr a b c d).data, c' ∈ digitsDot := by
    rw [hdata]
    exact quad_chars _ _ _ _ hA hB hC hD
  have hlen : (quadStr a b c d).data.length =
      (Nat.repr a).data.length + 1 + ((Nat.repr b).data.length + 1) +
        ((Nat.repr c).data.length + 1) + (Nat.repr d).data.length := by
    rw [hdata]
    simp only [List.length_append, List.length_cons]
    omega
  have htrim : trimJS (quadStr a b c d) = quadStr a b c d :=
    trimJS_id _ (fun c' hc' => digitsDot_not_space c' (hmem c' hc'))
  have hhead : (matchEnds false (quadStr a b c d).data defangedIPRE 0).head? =
      some (quadStr a b c d).data.length := by
    have h := defangedIP_head (Nat.repr a).data ".".data (Nat.repr b).data
      ".".data (Nat.repr c).data ".".data (Nat.repr d).data []
      hA hB hC hD (Or.inl rfl) (Or.inl rfl) (Or.inl rfl) rfl
    simp only [show (".".data : List Char) = ['.'] from rfl,
      List.singleton_append, List.append_nil, List.length_singleton] at h
    rw [← hdata] at h
    rw [show (Nat.repr a).data.length + 1 + ((Nat.repr b).data.length + 1) +
        ((Nat.repr c).data.length + 1) + (Nat.repr d).data.length =
      (quadStr a b c d).data.length from by omega] at h
    exact h
  have hMdef : matchAll false defangedIPRE (quadStr a b c d).data =
      [(quadStr a b c d).data] := by
    have h := matchAll_single false defangedIPRE (quadStr a b c d).data
      (quadStr a b c d).data.length (by omega) hhead
      (fun i hi => matchEnds_nil_pos false defangedIPRE _ i
        (by rw [show minLen defangedIPRE = 7 from by decide]; omega)
        (by rw [show minLen defangedIPRE = 7 from by decide]; omega))
    rwa [slice_full] at h
  have hhead4 : (matchEnds false (quadStr a b c d).data ipv4RE 0).head? =
      some (quadStr a b c d).data.length := by
    have h := ipv4_head (Nat.repr a).data (Nat.repr b).data (Nat.repr c).data
      (Nat.repr d).data hA hB hC hD
    rw [← hdata] at h
    rw [show (Nat.repr a).data.length + 1 + ((Nat.repr b).data.length + 1) +
        ((Nat.repr c).data.length + 1) + (Nat.repr d).data.length =
      (quadStr a b c d).data.length from by omega] at h
    exact h
  have hMipv4 : matchAll false ipv4RE (quadStr a b c d).data =
      [(quadStr a b c d).data] := by
    have h := matchAll_single false ipv4RE (quadStr a b c d).data
      (quadStr a b c d).data.length (by omega) hhead4
      (fun i hi => matchEnds_nil_pos false ipv4RE _ i
        (by rw [show minLen ipv4RE = 7 from by decide]; omega)
        (by rw [show minLen ipv4RE = 7 from by decide]; omega))
    rwa [slice_full] at h
  have hfv : finalValueOf IOC_TYPES.DEFANGED_IP (trimJS (quadStr a b c d)) =
      quadStr a b c d := by
    rw [htrim]
    unfold finalValueOf
    rw [if_neg (by decide), if_pos rfl]
    exact normalizeDefangedIP_id _ hmem
  have hov : originalValueOf IOC_TYPES.DEFANGED_IP (trimJS (quadStr a b c d)) =
      some (quadStr a b c d) := by
    rw [htrim]
    unfold originalValueOf
    rw [if_pos (Or.inr rfl)]
  have hemit : processMatch IOC_TYPES.DEFANGED_IP { found := [], recs := [] }
      (quadStr a b c d) =
      { found := [quadStr a b c d],
        recs := [{ type := IOC_TYPES.DEFANGED_IP, value := quadStr a b c d,
                   originalValue := some (quadStr a b c d) }] } := by
    rw [processMatch_emit IOC_TYPES.DEFANGED_IP { found := [], recs := [] }
      (quadStr a b c d)
      (by rw [htrim, strLen]; omega)
      (by decide) (by decide) (by decide) (by simp) (by simp)]
    rw [hfv, hov, htrim]
    simp [addFound]
  have e1 : scanType (quadStr a b c d) { found := [], recs := [] }
      IOC_TYPES.CIDR = { found := [], recs := [] } :=
    scanType_skip _ _ _ false cidrRE rfl
      (matchAll_nil_of_noMatchIn false cidrRE _ digitsDot hmem (by decide))
  have e2 : scanType (quadStr a b c d) { found := [], recs := [] }
      IOC_TYPES.DEFANGED_IP =
      { found := [quadStr a b c d],
        recs := [{ type := IOC_TYPES.DEFANGED_IP, value := quadStr a b c d,
                   originalValue := some (quadStr a b c d) }] } := by
    rw [scanType_whole (quadStr a b c d) { found := [], recs := [] }
      IOC_TYPES.DEFANGED_IP false defangedIPRE rfl hMdef, hemit]
  have e3 : scanType (quadStr a b c d)
      { found := [quadStr a b c d],
        recs := [{ type := IOC_TYPES.DEFANGED_IP, value := quadStr a b c d,
                   originalValue := some (quadStr a b c d) }] }
      IOC_TYPES.IPV4 =
      { found := [quadStr a b c d],
        recs := [{ type := IOC_TYPES.DEFANGED_IP, value := quadStr a b c d,
                   originalValue := some (quadStr a b c d) }] } := by
    rw [scanType_whole (quadStr a b c d)
      { found := [quadStr a b c d],
        recs := [{ type := IOC_TYPES.DEFANGED_IP, value := quadStr a b c d,
                   originalValue := some (quadStr a b c d) }] }
      IOC_TYPES.IPV4 false ipv4RE rfl hMipv4]
    exact processMatch_skip_found _ _ _
      (by rw [htrim]; exact List.mem_cons_self _ _)
  have e4 : scanType (quadStr a b c d)
      { found := [quadStr a b c d],
        recs := [{ type := IOC_TYPES.DEFANGED_IP, value := quadStr a b c d,
                   originalValue := some (quadStr a b c d) }] }
      IOC_TYPES.IPV6 =
      { found := [quadStr a b c d],
        recs := [{ type := IOC_TYPES.DEFANGED_IP, value := quadStr a b c d,
                   originalValue := some (quadStr a b c d) }] } :=
    scanType_skip _ _ _ false ipv6RE rfl
      (matchAll_nil_of_noMatchIn false ipv6RE _ digitsDot hmem (by decide))
  have e5 : scanType (quadStr a b c d)
      { found := [quadStr a b c d],
        recs := [{ type := IOC_TYPES.DEFANGED_IP, value := quadStr a b c d,
                   originalValue := some (quadStr a b c d) }] }
      IOC_TYPES.MD5 =
      { found := [quadStr a b c d],
        recs := [{ type := IOC_TYPES.DEFANGED_IP, value := quadStr a b c d,
                   originalValue := some (quadStr a b c d) }] } :=
    scanType_skip _ _ _ false md5RE rfl
      (matchAll_nil_of_minLen false md5RE _
        (by rw [show minLen md5RE = 32 from rfl]; omega))
  have e6 : scanType (quadStr a b c d)
      { found := [quadStr a b c d],
        recs := [{ type := IOC_TYPES.DEFANGED_IP, value := quadStr a b c d,
                   originalValue := some (quadStr a b c d) }] }
      IOC_TYPES.SHA1 =
      { found := [quadStr a b c d],
        recs := [{ type := IOC_TYPES.DEFANGED_IP, value := quadStr a b c d,
                   originalValue := some (quadStr a b c d) }] } :=
    scanType_skip _ _ _ false sha1RE rfl
      (matchAll_nil_of_minLen false sha1RE _
        (by rw [show minLen sha1RE = 40 from rfl]; omega))
  have e7 : scanType (quadStr a b c d)
      { found := [quadStr a b c d],
        recs := [{ type := IOC_TYPES.DEFANGED_IP, value := quadStr a b c d,
                   originalValue := some (quadStr a b c d) }] }
      IOC_TYPES.SHA256 =
      { found := [quadStr a b c d],
        recs := [{ type := IOC_TYPES.DEFANGED_IP, value := quadStr a b c d,
                   originalValue := some (quadStr a b c d) }] } :=
    scanType_skip _ _ _ false sha256RE rfl
      (matchAll_nil_of_minLen false sha256RE _
        (by rw [show minLen sha256RE = 64 from rfl]; omega))
  have e8 : scanType (quadStr a b c d)
      { found := [quadStr a b c d],
        recs := [{ type := IOC_TYPES.DEFANGED_IP, value := quadStr a b c d,
                   originalValue := some (quadStr a b c d) }] }
      IOC_TYPES.SHA512 =
      { found := [quadStr a b c d],
        recs := [{ type := IOC_TYPES.DEFANGED_IP, value := quadStr a b c d,
                   originalValue := some (quadStr a b c d) }] } :=
    scanType_skip _ _ _ false sha512RE rfl
      (matchAll_nil_of_minLen false sha512RE _
        (by rw [show minLen sha512RE = 128 from rfl]; omega))
  have e9 : scanType (quadStr a b c d)
      { found := [quadStr a b c d],
        recs := [{ type := IOC_TYPES.DEFANGED_IP, value := quadStr a b c d,
                   originalValue := some (quadStr a b c d) }] }
      IOC_TYPES.EMAIL =
      { found := [quadStr a b c d],
        recs := [{ type := IOC_TYPES.DEFANGED_IP, value := quadStr a b c d,
                   originalValue := some (quadStr a b c d) }] } :=
    scanType_skip _ _ _ false emailRE rfl
      (matchAll_nil_of_noMatchIn false emailRE _ digitsDot hmem (by decide))
  have e10 : scanType (quadStr a b c d)
      { found := [quadStr a b c d],
        recs := [{ type := IOC_TYPES.DEFANGED_IP, value := quadStr a b c d,
                   originalValue := some (quadStr a b c d) }] }
      IOC_TYPES.DEFANGED_URL =
      { found := [quadStr a b c d],
        recs := [{ type := IOC_TYPES.DEFANGED_IP, value := quadStr a b c d,
                   originalValue := some (quadStr a b c d) }] } :=
    scanType_skip _ _ _ false defangedURLRE rfl
      (matchAll_nil_of_noMatchIn false defangedURLRE _ digitsDot hmem (by decide))
  have e11 : scanType (quadStr a b c d)
      { found := [quadStr a b c d],
        recs := [{ type := IOC_TYPES.DEFANGED_IP, value := quadStr a b c d,
                   originalValue := some (quadStr a b c d) }] }
      IOC_TYPES.URL =
      { found := [quadStr a b c d],
        recs := [{ type := IOC_TYPES.DEFANGED_IP, value := quadStr a b c d,
                   originalValue := some (quadStr a b c d) }] } :=
    scanType_skip _ _ _ false urlRE rfl
      (matchAll_nil_of_noMatchIn false urlRE _ digitsDot hmem (by decide))
  have e12 : scanType (quadStr a b c d)
      { found := [quadStr a b c d],
        recs := [{ type := IOC_TYPES.DEFANGED_IP, value := quadStr a b c d,
                   originalValue := some (quadStr a b c d) }] }
      IOC_TYPES.FILENAME =
      { found := [quadStr a b c d],
        recs := [{ type := IOC_TYPES.DEFANGED_IP, value := quadStr a b c d,
                   originalValue := some (quadStr a b c d) }] } :=
    scanType_skip _ _ _ true filenameRE rfl
      (matchAll_nil_of_noMatchIn true filenameRE _ digitsDot hmem (by decide))
  show (detectionOrder.foldl (scanType (quadStr a b c d))
    { found := [], recs := [] }).recs = _
  rw [show detectionOrder =
    [IOC_TYPES.CIDR, IOC_TYPES.DEFANGED_IP, IOC_TYPES.IPV4, IOC_TYPES.IPV6,
     IOC_TYPES.MD5, IOC_TYPES.SHA1, IOC_TYPES.SHA256, IOC_TYPES.SHA512,
     IOC_TYPES.EMAIL, IOC_TYPES.DEFANGED_URL, IOC_TYPES.URL,
     IOC_TYPES.FILENAME] from rfl]
  simp only [List.foldl_cons, List.foldl_nil]
  rw [e1, e2, e3, e4, e5, e6, e7, e8, e9, e10, e11, e12]

set_option maxHeartbeats 2000000 in
/-- C2 (amended): the source's Defanged-IP machinery handles only the
unspaced markers `[.]` and `(.)` (see the counterexample for `[dot]`);
for those, detect emits a Defanged-IP record whose value is the canonical
dotted quad and whose originalValue is the raw as-found input. -/
theorem claim_C2_amended (a b c d : Nat)
    (ha : a < 256) (hb : b < 256) (hc : c < 256) (hd : d < 256)
    (m1 m2 m3 : String)
    (hm1 : m1 = "[.]" ∨ m1 = "(.)") (hm2 : m2 = "[.]" ∨ m2 = "(.)")
    (hm3 : m3 = "[.]" ∨ m3 = "(.)") :
    { type := IOC_TYPES.DEFANGED_IP, value := quadStr a b c d,
      originalValue := some (defangQuad a b c d m1 m2 m3) } ∈
      detectIOCs (defangQuad a b c d m1 m2 m3) := by
  have hA := isOct_repr a ha
  have hB := isOct_repr b hb
  have hC := isOct_repr c hc
  have hD := isOct_repr d hd
  obtain ⟨hApos, hAle, -, -⟩ := isOct_shape _ hA
  obtain ⟨hBpos, hBle, -, -⟩ := isOct_shape _ hB
  obtain ⟨hCpos, hCle, -, -⟩ := isOct_shape _ hC
  obtain ⟨hDpos, hDle, -, -⟩ := isOct_shape _ hD
  have hm1d : m1.data = ".".data ∨ m1.data = "[.]".data ∨ m1.data = "(.)".data := by
    rcases hm1 with rfl | rfl
    · exact Or.inr (Or.inl rfl)
    · exact Or.inr (Or.inr rfl)
  have hm2d : m2.data = ".".data ∨ m2.data = "[.]".data ∨ m2.data = "(.)".data := by
    rcases hm2 with rfl | rfl
    · exact Or.inr (Or.inl rfl)
    · exact Or.inr (Or.inr rfl)
  have hm3d : m3.data = ".".data ∨ m3.data = "[.]".data ∨ m3.data = "(.)".data := by
    rcases hm3 with rfl | rfl
    · exact Or.inr (Or.inl rfl)
    · exact Or.inr (Or.inr rfl)
  have hm1len : m1.data.length = 3 := by rcases hm1 with rfl | rfl <;> rfl
  have hm2len : m2.data.length = 3 := by rcases hm2 with rfl | rfl <;> rfl
  have hm3len : m3.data.length = 3 := by rcases hm3 with rfl | rfl <;> rfl
  have hTdata := defangQuad_data a b c d m1 m2 m3
  have hlenT : (defangQuad a b c d m1 m2 m3).data.length =
      (Nat.repr a).data.length + m1.data.length +
        ((Nat.repr b).data.length + m2.data.length) +
        ((Nat.repr c).data.length + m3.data.length) +
        (Nat.repr d).data.length := by
    rw [hTdata]
    simp only [List.length_append]
    omega
  have hmemBig : ∀ c' ∈ (defangQuad a b c d m1 m2 m3).data,
      c' ∈ ['0', '1', '2', '3', '4', '5', '6', '7', '8', '9', '.',
        '[', ']', '(', ')'] := by
    rw [hTdata]
    have hdigit : ∀ c' : Char, c'.isDigit = true →
        c' ∈ ['0', '1', '2', '3', '4', '5', '6', '7', '8', '9', '.',
          '[', ']', '(', ')'] := by
      intro c' h'
      have h2 := digit_mem_list h'
      fin_cases h2 <;> decide
    have hmark : ∀ m : String, m = "[.]" ∨ m = "(.)" → ∀ c' ∈ m.data,
        c' ∈ ['0', '1', '2', '3', '4', '5', '6', '7', '8', '9', '.',
          '[', ']', '(', ')'] := by
      rintro m (rfl | rfl) <;> decide
    intro c' hc'
    simp only [List.mem_append] at hc'
    rcases hc' with h' | h' | h' | h' | h' | h' | h'
    · exact hdigit c' (isOct_digits _ hA c' h')
    · exact hmark m1 hm1 c' h'
    · exact hdigit c' (isOct_digits _ hB c' h')
    · exact hmark m2 hm2 c' h'
    · exact hdigit c' (isOct_digits _ hC c' h')
    · exact hmark m3 hm3 c' h'
    · exact hdigit c' (isOct_digits _ hD c' h')
  have hnospace : ∀ c' ∈ (defangQuad a b c d m1 m2 m3).data,
      isSpaceJS c' = false := by
    intro c' hc'
    have h2 := hmemBig c' hc'
    fin_cases h2 <;> decide
  have htrim : trimJS (defangQuad a b c d m1 m2 m3) =
      defangQuad a b c d m1 m2 m3 := trimJS_id _ hnospace
  have hhead : (matchEnds false (defangQuad a b c d m1 m2 m3).data
      defangedIPRE 0).head? =
      some (defangQuad a b c d m1 m2 m3).data.length := by
    have h := defangedIP_head (Nat.repr a).data m1.data (Nat.repr b).data
      m2.data (Nat.repr c).data m3.data (Nat.repr d).data []
      hA hB hC hD hm1d hm2d hm3d rfl
    simp only [List.append_nil] at h
    rw [← hTdata] at h
    rw [show (Nat.repr a).data.length + m1.data.length +
        ((Nat.repr b).data.length + m2.data.length) +
        ((Nat.repr c).data.length + m3.data.length) +
        (Nat.repr d).data.length =
      (defangQuad a b c d m1 m2 m3).data.length from by omega] at h
    exact h
  have hMdef : matchAll false defangedIPRE (defangQuad a b c d m1 m2 m3).data =
      [(defangQuad a b c d m1 m2 m3).data] := by
    have h := matchAll_single false defangedIPRE _
      (defangQuad a b c d m1 m2 m3).data.length (by omega) hhead
      (fun i hi => matchEnds_nil_pos false defangedIPRE _ i
        (by rw [show minLen defangedIPRE = 7 from by decide]; omega)
        (by rw [show minLen defangedIPRE = 7 from by decide]; omega))
    rwa [slice_full] at h
  have hfv : finalValueOf IOC_TYPES.DEFANGED_IP
      (trimJS (defangQuad a b c d m1 m2 m3)) = quadStr a b c d := by
    rw [htrim]
    unfold finalValueOf
    rw [if_neg (by decide), if_pos rfl]
    exact normalize_defangQuad a b c d ha hb hc hd m1 m2 m3 hm1 hm2 hm3
  have hov : originalValueOf IOC_TYPES.DEFANGED_IP
      (trimJS (defangQuad a b c d m1 m2 m3)) =
      some (defangQuad a b c d m1 m2 m3) := by
    rw [htrim]
    unfold originalValueOf
    rw [if_pos (Or.inr rfl)]
  have hemit : processMatch IOC_TYPES.DEFANGED_IP { found := [], recs := [] }
      (defangQuad a b c d m1 m2 m3) =
      { found := [quadStr a b c d, defangQuad a b c d m1 m2 m3],
        recs := [{ type := IOC_TYPES.DEFANGED_IP, value := quadStr a b c d,
                   originalValue := some (defangQuad a b c d m1 m2 m3) }] } := by
    rw [processMatch_emit IOC_TYPES.DEFANGED_IP { found := [], recs := [] }
      (defangQuad a b c d m1 m2 m3)
      (by rw [htrim, strLen]; omega)
      (by decide) (by decide) (by decide) (by simp) (by simp)]
    rw [hfv, hov, htrim]
    have hTne : defangQuad a b c d m1 m2 m3 ≠ quadStr a b c d := by
      intro he
      have hq := quadStr_data a b c d
      have h2 : (defangQuad a b c d m1 m2 m3).data.length =
          (quadStr a b c d).data.length := by rw [he]
      rw [hlenT, hq] at h2
      simp only [List.length_append, List.length_cons] at h2
      omega
    rw [show addFound (quadStr a b c d) ([] : List String) =
        [quadStr a b c d] from by simp [addFound],
      show addFound (defangQuad a b c d m1 m2 m3) [quadStr a b c d] =
        [quadStr a b c d, defangQuad a b c d m1 m2 m3] from by
          unfold addFound
          rw [if_neg (by simp [hTne])]
          rfl]
    rfl
  have e1 : scanType (defangQuad a b c d m1 m2 m3) { found := [], recs := [] }
      IOC_TYPES.CIDR = { found := [], recs := [] } :=
    scanType_skip _ _ _ false cidrRE rfl
      (matchAll_nil_of_noMatchIn false cidrRE _
        ['0', '1', '2', '3', '4', '5', '6', '7', '8', '9', '.',
          '[', ']', '(', ')'] hmemBig (by decide))
  have e2 : scanType (defangQuad a b c d m1 m2 m3) { found := [], recs := [] }
      IOC_TYPES.DEFANGED_IP =
      { found := [quadStr a b c d, defangQuad a b c d m1 m2 m3],
        recs := [{ type := IOC_TYPES.DEFANGED_IP, value := quadStr a b c d,
                   originalValue := some (defangQuad a b c d m1 m2 m3) }] } := by
    rw [scanType_whole (defangQuad a b c d m1 m2 m3) { found := [], recs := [] }
      IOC_TYPES.DEFANGED_IP false defangedIPRE rfl hMdef, hemit]
  show _ ∈ (List.foldl (scanType (defangQuad a b c d m1 m2 m3))
    { found := [], recs := [] } detectionOrder).recs
  rw [show detectionOrder = IOC_TYPES.CIDR :: IOC_TYPES.DEFANGED_IP ::
      [IOC_TYPES.IPV4, IOC_TYPES.IPV6, IOC_TYPES.MD5, IOC_TYPES.SHA1,
       IOC_TYPES.SHA256, IOC_TYPES.SHA512, IOC_TYPES.EMAIL,
       IOC_TYPES.DEFANGED_URL, IOC_TYPES.URL, IOC_TYPES.FILENAME] from rfl,
    List.foldl_cons, List.foldl_cons, e1, e2]
  exact fold_recs_mono _ _ _ _ (List.mem_singleton.2 rfl)

/-- Witness for C2 (amended) at `8[.]8(.)8[.]8`. -/
theorem claim_C2_amended_witness :
    (8 : Nat) < 256 ∧ (("[.]" : String) = "[.]" ∨ ("[.]" : String) = "(.)") ∧
    { type := IOC_TYPES.DEFANGED_IP, value := quadStr 8 8 8 8,
      originalValue := some (defangQuad 8 8 8 8 "[.]" "(.)" "[.]") } ∈
      detectIOCs (defangQuad 8 8 8 8 "[.]" "(.)" "[.]") :=
  ⟨by decide, Or.inl rfl,
    claim_C2_amended 8 8 8 8 (by decide) (by decide) (by decide) (by decide)
      "[.]" "(.)" "[.]" (Or.inl rfl) (Or.inr rfl) (Or.inl rfl)⟩

set_option maxRecDepth 400000 in
/-- C4 (counterexample): the Defanged-URL record for `hxxp://a[.]b.com`
carries the normalized value `http://a.b.com`, which no longer contains any
de-fang marker and therefore does not re-validate (nor whole-string match)
against the Defanged-URL detector pattern of its own type. -/
theorem claim_C4_cex :
    (({ type := IOC_TYPES.DEFANGED_URL, value := "http://a.b.com",
        originalValue := some "hxxp://a[.]b.com" } : IOCRecord) ∈
      detectIOCs "hxxp://a[.]b.com") ∧
    validateIOC "http://a.b.com" IOC_TYPES.DEFANGED_URL = false ∧
    wholeMatch false defangedURLRE "http://a.b.com" = false := by
  refine ⟨by decide, by decide, by decide⟩

/-- C7: a dotted-quad-with-prefix token is classified as one whole CIDR
record; no IPv4 record for the address part is ever emitted (its value is
already claimed); and in general an IPv4/IPv6 match is discarded whenever an
already-claimed value is a CIDR extending that match with a slash. -/
theorem claim_C7 (a b c d p : Nat)
    (ha : a < 256) (hb : b < 256) (hc : c < 256) (hd : d < 256) (hp : p ≤ 32) :
    (({ type := IOC_TYPES.CIDR, value := cidrStr a b c d p,
        originalValue := none } : IOCRecord) ∈
        detectIOCs (cidrStr a b c d p)) ∧
    (∀ ov, ({ type := IOC_TYPES.IPV4, value := quadStr a b c d,
              originalValue := ov } : IOCRecord) ∉
        detectIOCs (cidrStr a b c d p)) ∧
    (∀ (ty : String) (st : ScanState) (m : String),
      (ty = IOC_TYPES.IPV4 ∨ ty = IOC_TYPES.IPV6) →
      (∃ v ∈ st.found, '/' ∈ v.data ∧ (trimJS m ++ "/").data.isPrefixOf v.data) →
      processMatch ty st m = st) := by
  have hA := isOct_repr a ha
  have hB := isOct_repr b hb
  have hC := isOct_repr c hc
  have hD := isOct_repr d hd
  have hMK := isMaskTok_repr p hp
  obtain ⟨hApos, hAle, -, -⟩ := isOct_shape _ hA
  obtain ⟨hBpos, hBle, -, -⟩ := isOct_shape _ hB
  obtain ⟨hCpos, hCle, -, -⟩ := isOct_shape _ hC
  obtain ⟨hDpos, hDle, -, -⟩ := isOct_shape _ hD
  obtain ⟨hMKpos, hMKle⟩ := isMaskTok_shape _ hMK
  have hTfull : (cidrStr a b c d p).data =
      (Nat.repr a).data ++ ('.' :: ((Nat.repr b).data ++ ('.' ::
        ((Nat.repr c).data ++ ('.' :: ((Nat.repr d).data ++
          ('/' :: (Nat.repr p).data))))))) := by
    rw [cidrStr_data, quadStr_data]
    simp
  have hlenQ : (quadStr a b c d).data.length =
      (Nat.repr a).data.length + 1 + ((Nat.repr b).data.length + 1) +
        ((Nat.repr c).data.length + 1) + (Nat.repr d).data.length := by
    rw [quadStr_data]
    simp only [List.length_append, List.length_cons]
    omega
  have hlenT : (cidrStr a b c d p).data.length =
      (quadStr a b c d).data.length + 1 + (Nat.repr p).data.length := by
    rw [cidrStr_data]
    simp only [List.length_append, List.length_cons]
    omega
  have hmemT : ∀ c' ∈ (cidrStr a b c d p).data,
      c' ∈ ['0', '1', '2', '3', '4', '5', '6', '7', '8', '9', '.', '/'] := by
    have hdigit : ∀ c' : Char, c'.isDigit = true →
        c' ∈ ['0', '1', '2', '3', '4', '5', '6', '7', '8', '9', '.', '/'] := by
      intro c' h'
      have h2 := digit_mem_list h'
      fin_cases h2 <;> decide
    have hmkd : ∀ c' ∈ (Nat.repr p).data, c'.isDigit = true := by
      have hall : ∀ m : Fin 33, ∀ c' ∈ (Nat.repr m.val).data,
          c'.isDigit = true := by decide
      exact hall ⟨p, by omega⟩
    rw [hTfull]
    intro c' hc'
    simp only [List.mem_append, List.mem_cons] at hc'
    rcases hc' with h' | h' | h' | h' | h' | h' | h' | h' | h'
    · exact hdigit c' (isOct_digits _ hA c' h')
    · subst h'; decide
    · exact hdigit c' (isOct_digits _ hB c' h')
    · subst h'; decide
    · exact hdigit c' (isOct_digits _ hC c' h')
    · subst h'; decide
    · exact hdigit c' (isOct_digits _ hD c' h')
    · subst h'; decide
    · exact hdigit c' (hmkd c' h')
  have htrim : trimJS (cidrStr a b c d p) = cidrStr a b c d p := by
    apply trimJS_id
    intro c' hc'
    have h2 := hmemT c' hc'
    fin_cases h2 <;> decide
  have hquadmem : ∀ c' ∈ (quadStr a b c d).data, c' ∈ digitsDot := by
    rw [quadStr_data]
    exact quad_chars _ _ _ _ hA hB hC hD
  have htrimQ : trimJS (quadStr a b c d) = quadStr a b c d :=
    trimJS_id _ (fun c' hc' => digitsDot_not_space c' (hquadmem c' hc'))
  have hQneT : quadStr a b c d ≠ cidrStr a b c d p := by
    intro he
    have h2 : (quadStr a b c d).data.length =
        (cidrStr a b c d p).data.length := by rw [← he]
    omega
  have hheadC : (matchEnds false (cidrStr a b c d p).data cidrRE 0).head? =
      some (cidrStr a b c d p).data.length := by
    have h := cidr_head (Nat.repr a).data (Nat.repr b).data (Nat.repr c).data
      (Nat.repr d).data (Nat.repr p).data hA hB hC hD hMK
    rw [← hTfull] at h
    rw [show (Nat.repr a).data.length + 1 + ((Nat.repr b).data.length + 1) +
        ((Nat.repr c).data.length + 1) + (Nat.repr d).data.length + 1 +
        (Nat.repr p).data.length =
      (cidrStr a b c d p).data.length from by omega] at h
    exact h
  have hMcidr : matchAll false cidrRE (cidrStr a b c d p).data =
      [(cidrStr a b c d p).data] := by
    have h := matchAll_single false cidrRE _ (cidrStr a b c d p).data.length
      (by omega) hheadC
      (fun i hi => matchEnds_nil_pos false cidrRE _ i
        (by rw [show minLen cidrRE = 5 from by decide]; omega)
        (by rw [show minLen cidrRE = 5 from by decide]; omega))
    rwa [slice_full] at h
  have hemit1 : processMatch IOC_TYPES.CIDR { found := [], recs := [] }
      (cidrStr a b c d p) =
      { found := [cidrStr a b c d p],
        recs := [{ type := IOC_TYPES.CIDR, value := cidrStr a b c d p,
                   originalValue := none }] } := by
    rw [processMatch_emit IOC_TYPES.CIDR { found := [], recs := [] }
      (cidrStr a b c d p)
      (by rw [htrim, strLen]; omega)
      (by decide) (by decide) (by decide) (by simp) (by simp)]
    rw [show finalValueOf IOC_TYPES.CIDR (trimJS (cidrStr a b c d p)) =
        cidrStr a b c d p from by
      rw [htrim]
      unfold finalValueOf
      rw [if_neg (by decide), if_neg (by decide)],
      show originalValueOf IOC_TYPES.CIDR (trimJS (cidrStr a b c d p)) =
        none from by
      rw [htrim]
      unfold originalValueOf
      rw [if_neg (by decide)], htrim]
    simp [addFound]
  have e1 : scanType (cidrStr a b c d p) { found := [], recs := [] }
      IOC_TYPES.CIDR =
      { found := [cidrStr a b c d p],
        recs := [{ type := IOC_TYPES.CIDR, value := cidrStr a b c d p,
                   originalValue := none }] } := by
    rw [scanType_whole (cidrStr a b c d p) { found := [], recs := [] }
      IOC_TYPES.CIDR false cidrRE rfl hMcidr, hemit1]
  have hheadD : (matchEnds false (cidrStr a b c d p).data defangedIPRE 0).head? =
      some (quadStr a b c d).data.length := by
    have h := defangedIP_head (Nat.repr a).data ".".data (Nat.repr b).data
      ".".data (Nat.repr c).data ".".data (Nat.repr d).data
      ('/' :: (Nat.repr p).data)
      hA hB hC hD (Or.inl rfl) (Or.inl rfl) (Or.inl rfl) rfl
    simp only [show (".".data : List Char) = ['.'] from rfl,
      List.singleton_append, List.length_singleton] at h
    rw [← hTfull] at h
    rw [show (Nat.repr a).data.length + 1 + ((Nat.repr b).data.length + 1) +
        ((Nat.repr c).data.length + 1) + (Nat.repr d).data.length =
      (quadStr a b c d).data.length from by omega] at h
    exact h
  have hMdef : matchAll false defangedIPRE (cidrStr a b c d p).data =
      [(quadStr a b c d).data] := by
    have h := matchAll_single false defangedIPRE _
      (quadStr a b c d).data.length (by omega) hheadD
      (fun i hi => matchEnds_nil_pos false defangedIPRE _ i
        (by rw [show minLen defangedIPRE = 7 from by decide]; omega)
        (by rw [show minLen defangedIPRE = 7 from by decide]; omega))
    rw [show slice (cidrStr a b c d p).data 0 (quadStr a b c d).data.length =
      (quadStr a b c d).data from by
        rw [cidrStr_data, slice0_take, List.take_left]] at h
    exact h
  have hemit2 : processMatch IOC_TYPES.DEFANGED_IP
      { found := [cidrStr a b c d p],
        recs := [{ type := IOC_TYPES.CIDR, value := cidrStr a b c d p,
                   originalValue := none }] }
      (quadStr a b c d) =
      { found := [cidrStr a b c d p, quadStr a b c d],
        recs := [{ type := IOC_TYPES.CIDR, value := cidrStr a b c d p,
                   originalValue := none },
                 { type := IOC_TYPES.DEFANGED_IP, value := quadStr a b c d,
                   originalValue := some (quadStr a b c d) }] } := by
    rw [processMatch_emit IOC_TYPES.DEFANGED_IP _ (quadStr a b c d)
      (by rw [htrimQ, strLen]; omega)
      (by decide) (by decide) (by decide)
      (by rw [htrimQ]; simp [hQneT])
      (by
        rw [show finalValueOf IOC_TYPES.DEFANGED_IP
            (trimJS (quadStr a b c d)) = quadStr a b c d from by
          rw [htrimQ]
          unfold finalValueOf
          rw [if_neg (by decide), if_pos rfl]
          exact normalizeDefangedIP_id _ hquadmem]
        simp [hQneT])]
    rw [show finalValueOf IOC_TYPES.DEFANGED_IP (trimJS (quadStr a b c d)) =
        quadStr a b c d from by
      rw [htrimQ]
      unfold finalValueOf
      rw [if_neg (by decide), if_pos rfl]
      exact normalizeDefangedIP_id _ hquadmem,
      show originalValueOf IOC_TYPES.DEFANGED_IP (trimJS (quadStr a b c d)) =
        some (quadStr a b c d) from by
      rw [htrimQ]
      unfold originalValueOf
      rw [if_pos (Or.inr rfl)], htrimQ]
    rw [show addFound (quadStr a b c d) [cidrStr a b c d p] =
        [cidrStr a b c d p, quadStr a b c d] from by
      unfold addFound
      rw [if_neg (by simp [hQneT])]
      rfl,
      show addFound (quadStr a b c d)
          [cidrStr a b c d p, quadStr a b c d] =
        [cidrStr a b c d p, quadStr a b c d] from by
      unfold addFound
      rw [if_pos (by simp)]]
    rfl
  have e2 : scanType (cidrStr a b c d p)
      { found := [cidrStr a b c d p],
        recs := [{ type := IOC_TYPES.CIDR, value := cidrStr a b c d p,
                   originalValue := none }] }
      IOC_TYPES.DEFANGED_IP =
      { found := [cidrStr a b c d p, quadStr a b c d],
        recs := [{ type := IOC_TYPES.CIDR, value := cidrStr a b c d p,
                   originalValue := none },
                 { type := IOC_TYPES.DEFANGED_IP, value := quadStr a b c d,
                   originalValue := some (quadStr a b c d) }] } := by
    rw [scanType_single (cidrStr a b c d p) _ IOC_TYPES.DEFANGED_IP false
      defangedIPRE (quadStr a b c d) rfl hMdef, hemit2]
  have hfold2 : detectIOCs (cidrStr a b c d p) =
      (List.foldl (scanType (cidrStr a b c d p))
        { found := [cidrStr a b c d p, quadStr a b c d],
          recs := [{ type := IOC_TYPES.CIDR, value := cidrStr a b c d p,
                     originalValue := none },
                   { type := IOC_TYPES.DEFANGED_IP, value := quadStr a b c d,
                     originalValue := some (quadStr a b c d) }] }
        [IOC_TYPES.IPV4, IOC_TYPES.IPV6, IOC_TYPES.MD5, IOC_TYPES.SHA1,
         IOC_TYPES.SHA256, IOC_TYPES.SHA512, IOC_TYPES.EMAIL,
         IOC_TYPES.DEFANGED_URL, IOC_TYPES.URL, IOC_TYPES.FILENAME]).recs := by
    show (List.foldl (scanType (cidrStr a b c d p))
      { found := [], recs := [] } detectionOrder).recs = _
    rw [show detectionOrder = IOC_TYPES.CIDR :: IOC_TYPES.DEFANGED_IP ::
        [IOC_TYPES.IPV4, IOC_TYPES.IPV6, IOC_TYPES.MD5, IOC_TYPES.SHA1,
         IOC_TYPES.SHA256, IOC_TYPES.SHA512, IOC_TYPES.EMAIL,
         IOC_TYPES.DEFANGED_URL, IOC_TYPES.URL, IOC_TYPES.FILENAME] from rfl,
      List.foldl_cons, List.foldl_cons, e1, e2]
  refine ⟨?_, ?_, ?_⟩
  · rw [hfold2]
    exact fold_recs_mono _ _ _ _ (List.mem_cons_self _ _)
  · intro ov
    rw [hfold2]
    refine found_blocks_value _ _ _ (quadStr a b c d) IOC_TYPES.IPV4
      (by simp) ?_ ov
    intro ov' hmem
    simp only [List.mem_cons, List.not_mem_nil, or_false] at hmem
    rcases hmem with hmem | hmem
    · have h2 : IOC_TYPES.IPV4 = IOC_TYPES.CIDR :=
        congrArg IOCRecord.type hmem
      exact absurd h2 (by decide)
    · have h2 : IOC_TYPES.IPV4 = IOC_TYPES.DEFANGED_IP :=
        congrArg IOCRecord.type hmem
      exact absurd h2 (by decide)
  · intro ty st m hty hex
    unfold processMatch
    by_cases h1 : (trimJS m).length > 2 ∧ trimJS m ∉ st.found
    · rw [if_pos h1, if_pos ⟨hty, hex⟩]
    · rw [if_neg h1]

/-- Witness for C7 at `8.8.8.8/32`. -/
theorem claim_C7_witness :
    (8 : Nat) < 256 ∧ (32 : Nat) ≤ 32 ∧
    (({ type := IOC_TYPES.CIDR, value := cidrStr 8 8 8 8 32,
        originalValue := none } : IOCRecord) ∈
      detectIOCs (cidrStr 8 8 8 8 32)) :=
  ⟨by decide, by decide,
    (claim_C7 8 8 8 8 32 (by decide) (by decide) (by decide) (by decide)
      (by decide)).1⟩

/-- Witness for C9 at `8.8.8.8`. -/
theorem claim_C9_witness :
    (8 : Nat) < 256 ∧
    detectIOCs (quadStr 8 8 8 8) =
      [{ type := IOC_TYPES.DEFANGED_IP, value := quadStr 8 8 8 8,
         originalValue := some (quadStr 8 8 8 8) }] :=
  ⟨by decide, claim_C9 8 8 8 8 (by decide) (by decide) (by decide) (by decide)⟩

/-- C4, amended positive part: a record of any of the four hash types
(MD5, SHA1, SHA256, SHA512) always re-validates — `validateIOC` accepts its
value under its own type. (The counterexample shows the claim fails for the
Defanged-URL type.) -/
theorem claim_C4_amended (text : String) (r : IOCRecord)
    (hr : r ∈ detectIOCs text)
    (hty : r.type = IOC_TYPES.MD5 ∨ r.type = IOC_TYPES.SHA1 ∨
      r.type = IOC_TYPES.SHA256 ∨ r.type = IOC_TYPES.SHA512) :
    validateIOC r.value r.type = true := by
  unfold detectIOCs at hr
  exact foldlInv (fun st => ∀ r' ∈ st.recs,
      (r'.type = IOC_TYPES.MD5 ∨ r'.type = IOC_TYPES.SHA1 ∨
        r'.type = IOC_TYPES.SHA256 ∨ r'.type = IOC_TYPES.SHA512) →
      validateIOC r'.value r'.type = true)
    (scanType text)
    (fun st ty h => scanType_hash_inv text st ty h)
    detectionOrder { found := [], recs := [] }
    (fun r' hr' _ => absurd hr' (List.not_mem_nil r'))
    r hr hty

set_option maxRecDepth 400000 in
/-- Witness for the amended C4 at the 32-hex MD5 of the empty input. -/
theorem claim_C4_amended_witness :
    (({ type := IOC_TYPES.MD5, value := "d41d8cd98f00b204e9800998ecf8427e",
        originalValue := none } : IOCRecord) ∈
      detectIOCs "d41d8cd98f00b204e9800998ecf8427e") ∧
    validateIOC "d41d8cd98f00b204e9800998ecf8427e" IOC_TYPES.MD5 = true :=
  ⟨by decide,
    claim_C4_amended "d41d8cd98f00b204e9800998ecf8427e"
      { type := IOC_TYPES.MD5, value := "d41d8cd98f00b204e9800998ecf8427e",
        originalValue := none } (by decide) (Or.inl rfl)⟩

end IOC
